import Mathlib

/-!
The collectors of noderig: a shallow embedding of the five collectors of
`collectors/*.go` (CPU, Memory, Load, Disk, Net) and of `core.MetricCollected`,
followed by the properties proved about them.

Conventions of the embedding.

* A collector is a structure holding the fields of the Go struct (the mutex is
  left out: one call of `scrape` or `Metrics` is modelled as one atomic step).
* The operating-system provider (gopsutil) is external: what a provider call
  returned is an argument of `scrape`, of type `Except String _`.
* `uint64` counters are natural numbers; sums are reduced modulo `2 ^ 64` where
  the Go code adds them.
* `float64` values are modelled by `F64`: the finite values as rationals, the
  negative zero, `+Inf`, `-Inf` and `NaN`.  Every operation rounds its exact
  result to the nearest float64, ties to the even significand (IEEE 754
  binary64, with subnormal numbers and overflow to an infinity).
* A Go `map` is a list of key/value pairs; the order in which `range` visits a
  map is chosen by the runtime and is an argument (`RangeOrder`).
* A runtime panic (index out of range, integer division by zero) is the
  outcome `Outcome.panic`.
-/

namespace Noderig

/- The exponents of float64 arithmetic range up to 2098. -/
set_option exponentiation.threshold 4096

/-! ## core -/

/-- The record type `core.MetricCollected`. -/
structure MetricCollected where
  Name : String
  Value : String
  deriving DecidableEq, Repr

/-- What one call of a `scrape` method does: it returns `nil` in state `s`,
it returns the error `e` in state `s`, or it panics. -/
inductive Outcome (σ : Type) where
  | ok (s : σ)
  | error (e : String) (s : σ)
  | panic
  deriving DecidableEq, Repr

/-- The state a call left behind, when it returned. -/
def Outcome.state? {σ : Type} : Outcome σ → Option σ
  | .ok s => some s
  | .error _ s => some s
  | .panic => none

/-! ## float64 -/

/-- Round `a / b` to the nearest natural number, ties to even. -/
def roundHalfEven (a b : Nat) : Nat :=
  let f := a / b
  let r := a % b
  if 2 * r < b then f else if b < 2 * r then f + 1 else if f % 2 = 0 then f else f + 1

/-- The loop of `floorLog2`: halve `n` until it is below 2, at most `fuel` times. -/
def floorLog2Loop : Nat → Nat → Nat
  | 0, _ => 0
  | fuel + 1, n => if n < 2 then 0 else floorLog2Loop fuel (n / 2) + 1

/-- The position of the leading binary digit of `n`: the floor of its binary
logarithm (`0` for `n = 0`). -/
def floorLog2 (n : Nat) : Nat := floorLog2Loop n n

/-- The exponent of the last place of the float64 nearest to `a / b`, counted
from `2 ^ (-1074)`, the last place of the subnormal numbers: `k + 1022` for
`2 ^ k ≤ a / b < 2 ^ (k + 1)`, and `0` below `2 ^ (-1022)`. -/
def ulpExponent (a b : Nat) : Nat :=
  (if b * 2 ^ floorLog2 a ≤ a * 2 ^ floorLog2 b then floorLog2 a + 1022
    else floorLog2 a + 1021) - floorLog2 b

/-- The float64 nearest to `a / b` (ties to the even significand), as a
multiple of `2 ^ (-1074)`: `none` when it is beyond the largest finite
float64. -/
def roundMagnitude (a b : Nat) : Option ℚ :=
  let e := ulpExponent a b
  let m := roundHalfEven (a * 2 ^ 1074) (b * 2 ^ e)
  if 2 ^ 2098 ≤ m * 2 ^ e then none else some (((m * 2 ^ e : Nat) : ℚ) / ((2 ^ 1074 : Nat) : ℚ))

/-- A `float64` value: a finite number (`fin 0` is the positive zero), the
negative zero, an infinity or a NaN.  The finite float64 are the `fin q` that
`ofRat` leaves unchanged; the operations below return no other. -/
inductive F64 where
  | fin (q : ℚ)
  | nzero
  | pinf
  | ninf
  | nan
  deriving DecidableEq

namespace F64

/-- The infinity of the given sign. -/
def inf (positive : Bool) : F64 := if positive then pinf else ninf

/-- The zero of the given sign. -/
def zero (negative : Bool) : F64 := if negative then nzero else fin 0

/-- The sign bit. -/
def signbit : F64 → Bool
  | fin q => decide (q < 0)
  | nzero => true
  | pinf => false
  | ninf => true
  | nan => false

/-- Whether the value is an infinity. -/
def isInf : F64 → Bool
  | pinf => true
  | ninf => true
  | _ => false

/-- The number a finite value stands for (`0` for the others). -/
def val : F64 → ℚ
  | fin q => q
  | _ => 0

/-- The float64 of the given sign nearest to the magnitude of `q`: the result
of an operation whose exact result has that sign and magnitude. -/
def make (negative : Bool) (q : ℚ) : F64 :=
  match roundMagnitude q.num.natAbs q.den with
  | none => inf (!negative)
  | some y => if y = 0 then zero negative else fin (if negative then -y else y)

/-- The float64 nearest to `q`; the exact zero is the positive zero. -/
def ofRat (q : ℚ) : F64 := make (decide (q < 0)) q

/-- Negation. -/
def neg : F64 → F64
  | fin q => if q = 0 then nzero else fin (-q)
  | nzero => fin 0
  | pinf => ninf
  | ninf => pinf
  | nan => nan

/-- Addition, `x + y`: the exact sum rounded to the nearest float64.  An exact
sum of zero is the positive zero, unless both operands are the negative
zero. -/
def add : F64 → F64 → F64
  | nan, _ => nan
  | _, nan => nan
  | pinf, ninf => nan
  | ninf, pinf => nan
  | pinf, _ => pinf
  | _, pinf => pinf
  | ninf, _ => ninf
  | _, ninf => ninf
  | nzero, nzero => nzero
  | x, y => ofRat (x.val + y.val)

/-- Subtraction, `x - y`, which is `x + (-y)`. -/
def sub (x y : F64) : F64 := add x (neg y)

/-- Multiplication, `x * y`: the exact product rounded to the nearest float64.
The sign of the result is the exclusive or of the signs, also of a zero or an
infinite result; an infinity times a zero is a NaN. -/
def mul : F64 → F64 → F64
  | nan, _ => nan
  | _, nan => nan
  | x, y =>
      let s := xor x.signbit y.signbit
      if x.isInf || y.isInf then
        (if (!x.isInf && x.val = 0) || (!y.isInf && y.val = 0) then nan else inf (!s))
      else make s (x.val * y.val)

/-- Division, `x / y`: the exact quotient rounded to the nearest float64.  The
sign of the result is the exclusive or of the signs, also of a zero or an
infinite result; a non-zero number divided by a zero is an infinity, a zero
divided by a zero and an infinity divided by an infinity are NaN. -/
def div : F64 → F64 → F64
  | nan, _ => nan
  | _, nan => nan
  | x, y =>
      let s := xor x.signbit y.signbit
      if x.isInf then (if y.isInf then nan else inf (!s))
      else if y.isInf then zero s
      else if y.val = 0 then (if x.val = 0 then nan else inf (!s))
      else make s (x.val / y.val)

/-- The conversion `float64(n)` of a length: the float64 nearest to `n`. -/
def ofNat (n : Nat) : F64 := ofRat (n : ℚ)

end F64

/-! ## strconv -/

/-- The function `strconv.FormatUint(n, 10)`: the decimal text of `n`. -/
def FormatUint (n : Nat) : String := Nat.repr n

/-- The six fraction digits of `m`, with leading zeros. -/
def fraction6 (m : Nat) : String :=
  let s := Nat.repr (m % 1000000)
  String.mk (List.replicate (6 - s.length) '0') ++ s

/-- The function `strconv.FormatFloat(x, 'f', 6, 64)`: fixed notation with six fraction
digits. -/
def FormatFloat : F64 → String
  | .nan => "NaN"
  | .pinf => "+Inf"
  | .ninf => "-Inf"
  | .nzero => "-0.000000"
  | .fin q =>
      let m := roundHalfEven (q.num.natAbs * 1000000) q.den
      (if q < 0 then "-" else "") ++ Nat.repr (m / 1000000) ++ "." ++ fraction6 m

/-! ## Options -/

/-- A value of type `interface{}` as the configuration layer hands it to a
constructor. -/
inductive GoValue where
  | null
  | str (s : String)
  | num (n : Int)
  | list (xs : List GoValue)
  | map (kvs : List (String × GoValue))

/-- The loop `for _, v := range xs { if s, ok := v.(string); ok { append } }`
of `NewDisk` and `NewNet`. -/
def stringElements : List GoValue → List String
  | [] => []
  | .str s :: rest => s :: stringElements rest
  | _ :: rest => stringElements rest

/-- The nested type assertions of `NewDisk` and `NewNet`: `opts` is a
`map[string]interface{}`, its entry `key` is a `[]interface{}`, and the
strings among its elements are collected. -/
def optionStrings (key : String) : GoValue → List String
  | .map kvs =>
      match kvs.lookup key with
      | some (.list xs) => stringElements xs
      | _ => []
  | _ => []

/-- The helper `stringInSlice` of `net.go`. -/
def stringInSlice (str : String) : List String → Bool
  | [] => false
  | v :: rest => if v = str then true else stringInSlice str rest

/-! ## CPU -/

/-- Modelled from the spec: `cpu.TimesStat` and its method `Total()` are
declarations of gopsutil, not of this repository; the spec (4.3) gives a core's
sample as "idle, user, system, iowait, nice, irq, and a total accumulator".
The fields are finite numbers; `CPU.scrape` computes with the float64 nearest
to each (`F64.ofRat`, which leaves a float64 unchanged). -/
structure TimesStat where
  User : ℚ
  System : ℚ
  Idle : ℚ
  Nice : ℚ
  Iowait : ℚ
  Irq : ℚ
  Total : ℚ
  deriving DecidableEq

/-- The collector `CPU` of `cpu.go`. -/
structure CPU where
  times : List TimesStat
  MetricsCollected : List MetricCollected
  level : Nat
  deriving DecidableEq

/-- The six slots written for one core by the first loop of `CPU.scrape`. -/
structure CoreFractions where
  idle : F64
  system : F64
  user : F64
  iowait : F64
  nice : F64
  irq : F64
  deriving DecidableEq

/-- One iteration of the first loop of `CPU.scrape`, for the core sample `t`
and the retained sample `p` of the same index. -/
def coreFractions (t p : TimesStat) : CoreFractions :=
  let dt := F64.sub (F64.ofRat t.Total) (F64.ofRat p.Total)
  { idle := F64.div (F64.sub (F64.ofRat t.Idle) (F64.ofRat p.Idle)) dt
    system := F64.div (F64.sub (F64.ofRat t.System) (F64.ofRat p.System)) dt
    user := F64.div (F64.sub (F64.ofRat t.User) (F64.ofRat p.User)) dt
    iowait := F64.div (F64.sub (F64.ofRat t.Iowait) (F64.ofRat p.Iowait)) dt
    nice := F64.div (F64.sub (F64.ofRat t.Nice) (F64.ofRat p.Nice)) dt
    irq := F64.div (F64.sub (F64.ofRat t.Irq) (F64.ofRat p.Irq)) dt }

/-- The first loop of `CPU.scrape`, `for i, t := range times`, from index `i`
on: `none` when `c.times[i]` is out of range. -/
def cpuDeltas (retained : List TimesStat) : Nat → List TimesStat → Option (List CoreFractions)
  | _, [] => some []
  | i, t :: rest =>
      match retained[i]? with
      | none => none
      | some p =>
          match cpuDeltas retained (i + 1) rest with
          | none => none
          | some fs => some (coreFractions t p :: fs)

/-- The loop `x := 0.0; for _, v := range vs { x += v }`. -/
def sumLoop (vs : List F64) : F64 := vs.foldl F64.add (.fin 0)

/-- The aggregate of one field, `x / float64(len(vs)) * 100`. -/
def cpuAggregate (vs : List F64) : F64 :=
  F64.mul (F64.div (sumLoop vs) (F64.ofNat vs.length)) (.fin 100)

/-- The global utilisation, `(1.0 - global/float64(len(idles))) * 100`. -/
def cpuGlobal (idles : List F64) : F64 :=
  F64.mul (F64.sub (.fin 1) (F64.div (sumLoop idles) (F64.ofNat idles.length))) (.fin 100)

/-- The name `os.cpu.<field>{chore=<i>}`. -/
def cpuCoreName (field : String) (i : Nat) : String :=
  "os.cpu." ++ field ++ "\x7bchore=" ++ Nat.repr i ++ "\x7d"

/-- The name `os.cpu.<field>{}`. -/
def cpuFieldName (field : String) : String := "os.cpu." ++ field ++ "\x7b\x7d"

/-- One per-core loop of level 3, `for i, v := range vs`, from index `i` on. -/
def cpuCoreRecords (field : String) : Nat → List F64 → List MetricCollected
  | _, [] => []
  | i, v :: rest =>
      { Name := cpuCoreName field i, Value := FormatFloat (F64.mul v (.fin 100)) }
        :: cpuCoreRecords field (i + 1) rest

/-- The records appended by the block `if c.level == 2`. -/
def cpuLevel2 (fs : List CoreFractions) : List MetricCollected :=
  [ { Name := cpuFieldName "iowait", Value := FormatFloat (cpuAggregate (fs.map (·.iowait))) },
    { Name := cpuFieldName "user", Value := FormatFloat (cpuAggregate (fs.map (·.user))) },
    { Name := cpuFieldName "systems", Value := FormatFloat (cpuAggregate (fs.map (·.system))) },
    { Name := cpuFieldName "nice", Value := FormatFloat (cpuAggregate (fs.map (·.nice))) },
    { Name := cpuFieldName "irq", Value := FormatFloat (cpuAggregate (fs.map (·.irq))) } ]

/-- The records appended by the block `if c.level == 3`. -/
def cpuLevel3 (fs : List CoreFractions) : List MetricCollected :=
  cpuCoreRecords "iowait" 0 (fs.map (·.iowait))
    ++ cpuCoreRecords "user" 0 (fs.map (·.user))
    ++ cpuCoreRecords "systems" 0 (fs.map (·.system))
    ++ cpuCoreRecords "nice" 0 (fs.map (·.nice))
    ++ cpuCoreRecords "irq" 0 (fs.map (·.irq))

/-- The sequence built by `CPU.scrape` once the fractions are known. -/
def cpuRecords (level : Nat) (fs : List CoreFractions) : List MetricCollected :=
  let m0 : List MetricCollected :=
    [ { Name := "os.cpu\x7b\x7d", Value := FormatFloat (cpuGlobal (fs.map (·.idle))) } ]
  let m1 := if level = 2 then m0 ++ cpuLevel2 fs else m0
  if level = 3 then m1 ++ cpuLevel3 fs else m1

/-- The constructor `NewCPU`. -/
def NewCPU (_period : Nat) (level : Nat) : CPU :=
  { times := [], MetricsCollected := [], level := level }

/-- The method `(*CPU).Metrics`: the stored sequence, and the collector as the call
leaves it. -/
def CPU.Metrics (c : CPU) : List MetricCollected × CPU := (c.MetricsCollected, c)

/-- The method `(*CPU).scrape`; `r` is what `cpu.Times(true)` returned. -/
def CPU.scrape (c : CPU) (r : Except String (List TimesStat)) : Outcome CPU :=
  match r with
  | .error e => .error e c
  | .ok times =>
      if c.times.length = 0 then .ok { c with times := times }
      else
        match cpuDeltas c.times 0 times with
        | none => .panic
        | some fs =>
            .ok { c with times := times, MetricsCollected := cpuRecords c.level fs }

/-! ## Net -/

/-- The fields of gopsutil's `net.IOCountersStat` that `Net.scrape` reads. -/
structure NetIOCountersStat where
  Name : String
  BytesSent : Nat
  BytesRecv : Nat
  PacketsSent : Nat
  PacketsRecv : Nat
  Errin : Nat
  Errout : Nat
  Dropin : Nat
  Dropout : Nat
  deriving DecidableEq

/-- The collector `Net` of `net.go`.  `interfaces = []` stands for the nil
slice: `NewNet` only ever stores nil or a non-empty slice. -/
structure Net where
  interfaces : List String
  MetricsCollected : List MetricCollected
  level : Nat
  period : Nat
  deriving DecidableEq

/-- The constructor `NewNet`. -/
def NewNet (period : Nat) (level : Nat) (opts : GoValue) : Net :=
  { interfaces := optionStrings "interfaces" opts, MetricsCollected := [],
    level := level, period := period }

/-- The method `(*Net).Metrics`. -/
def Net.Metrics (c : Net) : List MetricCollected × Net := (c.MetricsCollected, c)

/-- The two `continue` tests at the head of every loop of `Net.scrape`. -/
def Net.skips (c : Net) (cnt : NetIOCountersStat) : Bool :=
  if cnt.Name = "lo" then true
  else if c.interfaces ≠ [] ∧ !stringInSlice cnt.Name c.interfaces then true
  else false

/-- The first loop of `Net.scrape`: the `uint64` accumulators `in` and `out`. -/
def Net.sums (c : Net) : List NetIOCountersStat → Nat × Nat → Nat × Nat
  | [], acc => acc
  | cnt :: rest, acc =>
      if c.skips cnt then Net.sums c rest acc
      else Net.sums c rest ((acc.1 + cnt.BytesRecv) % 2 ^ 64, (acc.2 + cnt.BytesSent) % 2 ^ 64)

/-- The name `os.net.<kind>{iface=<name>,direction=<dir>}`. -/
def netIfaceName (kind name dir : String) : String :=
  "os.net." ++ kind ++ "\x7biface=" ++ name ++ ",direction=" ++ dir ++ "\x7d"

/-- The two records appended by one iteration of the loop of the block
`if c.level > 1` that is not skipped. -/
def netBytesRecords (cnt : NetIOCountersStat) : List MetricCollected :=
  [ { Name := netIfaceName "bytes" cnt.Name "in", Value := FormatUint cnt.BytesRecv },
    { Name := netIfaceName "bytes" cnt.Name "out", Value := FormatUint cnt.BytesSent } ]

/-- The six records appended by one iteration of the loop of the block
`if c.level > 2` that is not skipped. -/
def netDetailRecords (cnt : NetIOCountersStat) : List MetricCollected :=
  [ { Name := netIfaceName "packets" cnt.Name "in", Value := FormatUint cnt.PacketsRecv },
    { Name := netIfaceName "packets" cnt.Name "out", Value := FormatUint cnt.PacketsSent },
    { Name := netIfaceName "errs" cnt.Name "in", Value := FormatUint cnt.Errin },
    { Name := netIfaceName "errs" cnt.Name "out", Value := FormatUint cnt.Errout },
    { Name := netIfaceName "dropped" cnt.Name "in", Value := FormatUint cnt.Dropin },
    { Name := netIfaceName "dropped" cnt.Name "out", Value := FormatUint cnt.Dropout } ]

/-- The loop of the block `if c.level > 1`. -/
def Net.bytesLoop (c : Net) : List NetIOCountersStat → List MetricCollected → List MetricCollected
  | [], acc => acc
  | cnt :: rest, acc =>
      if c.skips cnt then Net.bytesLoop c rest acc
      else Net.bytesLoop c rest (acc ++ netBytesRecords cnt)

/-- The loop of the block `if c.level > 2`. -/
def Net.detailLoop (c : Net) : List NetIOCountersStat → List MetricCollected → List MetricCollected
  | [], acc => acc
  | cnt :: rest, acc =>
      if c.skips cnt then Net.detailLoop c rest acc
      else Net.detailLoop c rest (acc ++ netDetailRecords cnt)

/-- The sequence built by `Net.scrape` under the lock, from the two rates. -/
def Net.records (c : Net) (counters : List NetIOCountersStat) (rateIn rateOut : Nat) :
    List MetricCollected :=
  let m0 : List MetricCollected :=
    if c.level = 1 then
      [ { Name := "os.net.bytes\x7bdirection=in\x7d", Value := FormatUint rateIn },
        { Name := "os.net.bytes\x7bdirection=out\x7d", Value := FormatUint rateOut } ]
    else []
  let m1 := if c.level > 1 then c.bytesLoop counters m0 else m0
  if c.level > 2 then c.detailLoop counters m1 else m1

/-- The method `(*Net).scrape`; `r` is what `net.IOCounters(true)` returned.  The
division `in / uint64(c.period/1000)` panics when `c.period/1000` is zero. -/
def Net.scrape (c : Net) (r : Except String (List NetIOCountersStat)) : Outcome Net :=
  match r with
  | .error e => .error e c
  | .ok counters =>
      let s := c.sums counters (0, 0)
      if c.period / 1000 = 0 then .panic
      else
        .ok { c with MetricsCollected :=
                c.records counters (s.1 / (c.period / 1000)) (s.2 / (c.period / 1000)) }

/-! ## Memory -/

/-- The fields of gopsutil's `mem.VirtualMemoryStat` that `Memory.scrape`
reads. -/
structure VirtualMemoryStat where
  Total : Nat
  Used : Nat
  UsedPercent : F64
  deriving DecidableEq

/-- The fields of gopsutil's `mem.SwapMemoryStat` that `Memory.scrape` reads. -/
structure SwapMemoryStat where
  Total : Nat
  Used : Nat
  UsedPercent : F64
  deriving DecidableEq

/-- The collector `Memory` of `memory.go`. -/
structure Memory where
  MetricsCollected : List MetricCollected
  level : Nat
  deriving DecidableEq

/-- The constructor `NewMemory`. -/
def NewMemory (_period : Nat) (level : Nat) : Memory :=
  { MetricsCollected := [], level := level }

/-- The method `(*Memory).Metrics`. -/
def Memory.Metrics (c : Memory) : List MetricCollected × Memory := (c.MetricsCollected, c)

/-- The sequence built by `Memory.scrape` under the lock. -/
def Memory.records (c : Memory) (virt : VirtualMemoryStat) (swap : SwapMemoryStat) :
    List MetricCollected :=
  let m0 : List MetricCollected :=
    [ { Name := "os.mem\x7b\x7d", Value := FormatFloat virt.UsedPercent },
      { Name := "os.swap\x7b\x7d", Value := FormatFloat swap.UsedPercent } ]
  if c.level > 1 then
    m0 ++
      [ { Name := "os.mem.used\x7b\x7d", Value := FormatUint virt.Used },
        { Name := "os.mem.total\x7b\x7d", Value := FormatUint virt.Total },
        { Name := "os.swap.used\x7b\x7d", Value := FormatUint swap.Used },
        { Name := "os.swap.total\x7b\x7d", Value := FormatUint swap.Total } ]
  else m0

/-- The method `(*Memory).scrape`; `rv` is what `mem.VirtualMemory()` returned and `rs`
what `mem.SwapMemory()` returns when it is called. -/
def Memory.scrape (c : Memory) (rv : Except String VirtualMemoryStat)
    (rs : Except String SwapMemoryStat) : Outcome Memory :=
  match rv with
  | .error e => .error e c
  | .ok virt =>
      match rs with
      | .error e => .error e c
      | .ok swap => .ok { c with MetricsCollected := c.records virt swap }

/-! ## Load -/

/-- The structure `load.AvgStat` of gopsutil. -/
structure AvgStat where
  Load1 : F64
  Load5 : F64
  Load15 : F64
  deriving DecidableEq

/-- The collector `Load` of `load.go`. -/
structure Load where
  MetricsCollected : List MetricCollected
  level : Nat
  deriving DecidableEq

/-- The constructor `NewLoad`. -/
def NewLoad (_period : Nat) (level : Nat) : Load :=
  { MetricsCollected := [], level := level }

/-- The method `(*Load).Metrics`. -/
def Load.Metrics (c : Load) : List MetricCollected × Load := (c.MetricsCollected, c)

/-- The sequence built by `Load.scrape` under the lock. -/
def Load.records (c : Load) (avg : AvgStat) : List MetricCollected :=
  let m0 : List MetricCollected :=
    [ { Name := "os.load1\x7b\x7d", Value := FormatFloat avg.Load1 } ]
  if c.level > 1 then
    m0 ++
      [ { Name := "os.load5\x7b\x7d", Value := FormatFloat avg.Load5 },
        { Name := "os.load15\x7b\x7d", Value := FormatFloat avg.Load15 } ]
  else m0

/-- The method `(*Load).scrape`; `r` is what `load.Avg()` returned. -/
def Load.scrape (c : Load) (r : Except String AvgStat) : Outcome Load :=
  match r with
  | .error e => .error e c
  | .ok avg => .ok { c with MetricsCollected := c.records avg }

/-! ## Disk -/

/-- The order in which one `range` statement visits the entries of a map: some
rearrangement of the entries, chosen by the runtime. -/
structure RangeOrder where
  visit : {α : Type} → List (String × α) → List (String × α)
  perm : ∀ {α : Type} (m : List (String × α)), (visit m).Perm m

/-- The order that visits the entries as they are stored. -/
def RangeOrder.stored : RangeOrder :=
  { visit := fun m => m, perm := fun m => List.Perm.refl m }

/-- The order that visits the entries backwards. -/
def RangeOrder.backwards : RangeOrder :=
  { visit := fun m => m.reverse, perm := fun m => List.reverse_perm m }

/-- The map assignment `m[k] = v`. -/
def mapAssign {α : Type} (k : String) (v : α) : List (String × α) → List (String × α)
  | [] => [(k, v)]
  | (k', v') :: rest => if k' = k then (k, v) :: rest else (k', v') :: mapAssign k v rest

/-- The second result of `path.Split`: what follows the last slash. -/
def pathSplitFile (p : String) : String :=
  String.mk (p.data.reverse.takeWhile (fun ch => ch ≠ '/')).reverse

/-- The fields of gopsutil's `disk.UsageStat` that `Disk.scrape` reads. -/
structure UsageStat where
  Path : String
  Total : Nat
  Used : Nat
  UsedPercent : F64
  InodesTotal : Nat
  InodesUsed : Nat
  deriving DecidableEq

/-- The fields of gopsutil's `disk.PartitionStat` that `Disk.scrape` reads. -/
structure PartitionStat where
  Device : String
  Mountpoint : String
  deriving DecidableEq

/-- The fields of gopsutil's `disk.IOCountersStat` that `Disk.scrape` reads. -/
structure DiskIOCountersStat where
  ReadCount : Nat
  WriteCount : Nat
  ReadBytes : Nat
  WriteBytes : Nat
  ReadTime : Nat
  WriteTime : Nat
  IopsInProgress : Nat
  IoTime : Nat
  WeightedIO : Nat
  deriving DecidableEq

/-- The collector `Disk` of `disk.go`.  The set `allowedDisks` is the list of
its keys. -/
structure Disk where
  MetricsCollected : List MetricCollected
  level : Nat
  period : Nat
  allowedDisks : List String
  deriving DecidableEq

/-- The constructor `NewDisk`. -/
def NewDisk (period : Nat) (level : Nat) (opts : GoValue) : Disk :=
  { MetricsCollected := [], level := level, period := period,
    allowedDisks := optionStrings "names" opts }

/-- The method `(*Disk).Metrics`. -/
def Disk.Metrics (c : Disk) : List MetricCollected × Disk := (c.MetricsCollected, c)

/-- The loop that fills `dev`: `usage` is what `disk.Usage` returns for a
mountpoint; a failure skips the partition. -/
def diskUsages (usage : String → Except String UsageStat) :
    List PartitionStat → List (String × UsageStat) → List (String × UsageStat)
  | [], dev => dev
  | p :: rest, dev =>
      match usage p.Mountpoint with
      | .error _ => diskUsages usage rest dev
      | .ok u => diskUsages usage rest (mapAssign p.Device u dev)

/-- The `continue` test of the two loops over `dev`. -/
def Disk.skipsPath (c : Disk) (diskPath : String) : Bool :=
  if c.allowedDisks.length > 0 then
    if pathSplitFile diskPath ∈ c.allowedDisks then false else true
  else false

/-- The `continue` test of the loop over `counters`. -/
def Disk.skipsName (c : Disk) (name : String) : Bool :=
  if c.allowedDisks.length > 0 then
    if name ∈ c.allowedDisks then false else true
  else false

/-- The name `os.disk.fs<sub>{disk=<device>}{mount=<path>}`. -/
def diskFsName (sub diskPath mount : String) : String :=
  "os.disk.fs" ++ sub ++ "\x7bdisk=" ++ diskPath ++ "\x7d\x7bmount=" ++ mount ++ "\x7d"

/-- The name `os.disk.fs<sub>{name=<name>}`. -/
def diskIoName (sub name : String) : String :=
  "os.disk.fs" ++ sub ++ "\x7bname=" ++ name ++ "\x7d"

/-- The record appended by one iteration of the first loop over `dev` that is
not skipped. -/
def diskPercentRecords (diskPath : String) (usage : UsageStat) : List MetricCollected :=
  [ { Name := diskFsName "" diskPath usage.Path, Value := FormatFloat usage.UsedPercent } ]

/-- The four records appended by one iteration of the loop of the block
`if c.level > 1` that is not skipped. -/
def diskUsageRecords (diskPath : String) (usage : UsageStat) : List MetricCollected :=
  [ { Name := diskFsName ".used" diskPath usage.Path, Value := FormatUint usage.Used },
    { Name := diskFsName ".total" diskPath usage.Path, Value := FormatUint usage.Total },
    { Name := diskFsName ".inodes.used" diskPath usage.Path,
      Value := FormatUint usage.InodesUsed },
    { Name := diskFsName ".inodes.total" diskPath usage.Path,
      Value := FormatUint usage.InodesTotal } ]

/-- The first loop over `dev` (every level). -/
def Disk.percentLoop (c : Disk) :
    List (String × UsageStat) → List MetricCollected → List MetricCollected
  | [], acc => acc
  | (diskPath, usage) :: rest, acc =>
      if c.skipsPath diskPath then Disk.percentLoop c rest acc
      else Disk.percentLoop c rest (acc ++ diskPercentRecords diskPath usage)

/-- The loop over `dev` of the block `if c.level > 1`. -/
def Disk.usageLoop (c : Disk) :
    List (String × UsageStat) → List MetricCollected → List MetricCollected
  | [], acc => acc
  | (diskPath, usage) :: rest, acc =>
      if c.skipsPath diskPath then Disk.usageLoop c rest acc
      else Disk.usageLoop c rest (acc ++ diskUsageRecords diskPath usage)

/-- The records appended by one iteration of the loop over `counters` that is
not skipped. -/
def Disk.ioRecords (c : Disk) (name : String) (stats : DiskIOCountersStat) :
    List MetricCollected :=
  let b : List MetricCollected :=
    [ { Name := diskIoName ".bytes.read" name, Value := FormatUint stats.ReadBytes },
      { Name := diskIoName ".bytes.write" name, Value := FormatUint stats.WriteBytes } ]
  if c.level > 3 then
    let o : List MetricCollected := b ++
      [ { Name := diskIoName ".io.read" name, Value := FormatUint stats.ReadCount },
        { Name := diskIoName ".io.write" name, Value := FormatUint stats.WriteCount } ]
    if c.level > 4 then
      o ++
        [ { Name := diskIoName ".io.read.ms" name, Value := FormatUint stats.ReadTime },
          { Name := diskIoName ".io.write.ms" name, Value := FormatUint stats.WriteTime },
          { Name := diskIoName ".io" name, Value := FormatUint stats.IopsInProgress },
          { Name := diskIoName ".io.ms" name, Value := FormatUint stats.IoTime },
          { Name := diskIoName ".io.weighted.ms" name, Value := FormatUint stats.WeightedIO } ]
    else o
  else b

/-- The loop over `counters` of the block `if c.level > 2`. -/
def Disk.ioLoop (c : Disk) :
    List (String × DiskIOCountersStat) → List MetricCollected → List MetricCollected
  | [], acc => acc
  | (name, stats) :: rest, acc =>
      if c.skipsName name then Disk.ioLoop c rest acc
      else Disk.ioLoop c rest (acc ++ c.ioRecords name stats)

/-- The sequence built by `Disk.scrape` under the lock; `o1`, `o2` and `o3` are
the orders of its three `range` statements. -/
def Disk.records (c : Disk) (counters : List (String × DiskIOCountersStat))
    (dev : List (String × UsageStat)) (o1 o2 o3 : RangeOrder) : List MetricCollected :=
  let m0 := c.percentLoop (o1.visit dev) []
  let m1 := if c.level > 1 then c.usageLoop (o2.visit dev) m0 else m0
  if c.level > 2 then c.ioLoop (o3.visit counters) m1 else m1

/-- The method `(*Disk).scrape`; `rc` is what `disk.IOCounters()` returned, `rp` what
`disk.Partitions(false)` returns when it is called, `usage` what `disk.Usage`
returns for a mountpoint. -/
def Disk.scrape (c : Disk) (rc : Except String (List (String × DiskIOCountersStat)))
    (rp : Except String (List PartitionStat)) (usage : String → Except String UsageStat)
    (o1 o2 o3 : RangeOrder) : Outcome Disk :=
  match rc with
  | .error e => .error e c
  | .ok counters =>
      match rp with
      | .error e => .error e c
      | .ok parts =>
          .ok { c with MetricsCollected :=
                  c.records counters (diskUsages usage parts []) o1 o2 o3 }

/-! ## The sampling task

`NewX` starts the goroutine `for range tick { c.scrape() }` only when the level
is not zero.  A step of a collector is one tick of that goroutine whose
`scrape` returned, or one call of `Metrics`. -/

/-- The steps of a CPU collector. -/
inductive CPU.Step : CPU → CPU → Prop where
  | tick (c : CPU) (r : Except String (List TimesStat)) (c' : CPU) :
      c.level ≠ 0 → (c.scrape r).state? = some c' → CPU.Step c c'
  | read (c : CPU) : CPU.Step c c.Metrics.2

/-- The steps of a Memory collector. -/
inductive Memory.Step : Memory → Memory → Prop where
  | tick (c : Memory) (rv : Except String VirtualMemoryStat)
      (rs : Except String SwapMemoryStat) (c' : Memory) :
      c.level ≠ 0 → (c.scrape rv rs).state? = some c' → Memory.Step c c'
  | read (c : Memory) : Memory.Step c c.Metrics.2

/-- The steps of a Load collector. -/
inductive Load.Step : Load → Load → Prop where
  | tick (c : Load) (r : Except String AvgStat) (c' : Load) :
      c.level ≠ 0 → (c.scrape r).state? = some c' → Load.Step c c'
  | read (c : Load) : Load.Step c c.Metrics.2

/-- The steps of a Disk collector. -/
inductive Disk.Step : Disk → Disk → Prop where
  | tick (c : Disk) (rc : Except String (List (String × DiskIOCountersStat)))
      (rp : Except String (List PartitionStat)) (usage : String → Except String UsageStat)
      (o1 o2 o3 : RangeOrder) (c' : Disk) :
      c.level > 0 → (c.scrape rc rp usage o1 o2 o3).state? = some c' → Disk.Step c c'
  | read (c : Disk) : Disk.Step c c.Metrics.2

/-- The steps of a Net collector. -/
inductive Net.Step : Net → Net → Prop where
  | tick (c : Net) (r : Except String (List NetIOCountersStat)) (c' : Net) :
      c.level ≠ 0 → (c.scrape r).state? = some c' → Net.Step c c'
  | read (c : Net) : Net.Step c c.Metrics.2

/-! ## Vocabulary of the statements -/

/-- The names of the records in a snapshot. -/
def names (ms : List MetricCollected) : List String := ms.map (·.Name)

/-- The names of the records of the block `if c.level == 2` of `CPU.scrape`. -/
def cpuAggregateNames : List String :=
  [cpuFieldName "iowait", cpuFieldName "user", cpuFieldName "systems", cpuFieldName "nice",
    cpuFieldName "irq"]

/-- The names of the records of the block `if c.level == 3` of `CPU.scrape`,
for `n` cores. -/
def cpuCoreNames (n : Nat) : List String :=
  ["iowait", "user", "systems", "nice", "irq"].flatMap
    (fun field => (List.range' 0 n).map (cpuCoreName field))

/-- A core sample with the given idle time and total, the rest of the total
being user time. -/
def coreSample (idle total : ℚ) : TimesStat :=
  { User := total - idle, System := 0, Idle := idle, Nice := 0, Iowait := 0, Irq := 0,
    Total := total }

/-- The counters that the loops of `Net.scrape` do not skip. -/
def Net.allowed (c : Net) (counters : List NetIOCountersStat) : List NetIOCountersStat :=
  counters.filter (fun cnt => !c.skips cnt)

/-- The counters of an interface `name` whose received-bytes counter is `recv`,
every other counter being zero. -/
def ifaceRecv (name : String) (recv : Nat) : NetIOCountersStat :=
  { Name := name, BytesSent := 0, BytesRecv := recv, PacketsSent := 0, PacketsRecv := 0,
    Errin := 0, Errout := 0, Dropin := 0, Dropout := 0 }

/-- The entries of `dev` that the two loops over `dev` do not skip. -/
def Disk.allowedPaths (c : Disk) (dev : List (String × UsageStat)) : List (String × UsageStat) :=
  dev.filter (fun e => !c.skipsPath e.1)

/-- The entries of `counters` that the loop over `counters` does not skip. -/
def Disk.allowedNames (c : Disk) (counters : List (String × DiskIOCountersStat)) :
    List (String × DiskIOCountersStat) :=
  counters.filter (fun e => !c.skipsName e.1)

/-- The usage records of one device at a level: the used percent, and from
level 2 on the four counters. -/
def diskFsRecords (level : Nat) (diskPath : String) (usage : UsageStat) : List MetricCollected :=
  diskPercentRecords diskPath usage ++ (if 1 < level then diskUsageRecords diskPath usage else [])

/-- A usage with the given path, half of 100 bytes and of 10 inodes used. -/
def usageAt (path : String) : UsageStat :=
  { Path := path, Total := 100, Used := 50, UsedPercent := .fin 50, InodesTotal := 10,
    InodesUsed := 5 }

/-- Counters that are all different. -/
def ioSample : DiskIOCountersStat :=
  { ReadCount := 1, WriteCount := 2, ReadBytes := 3, WriteBytes := 4, ReadTime := 5,
    WriteTime := 6, IopsInProgress := 7, IoTime := 8, WeightedIO := 9 }

/-- The kinds of per-interface records of `Net.scrape`. -/
def netKinds : List String := ["bytes", "packets", "errs", "dropped"]

/-- The two directions of a per-interface record. -/
def netDirections : List String := ["in", "out"]

/-- The nine IO records of one counter entry, in the order of the source. -/
def diskIoRecordsFull (name : String) (stats : DiskIOCountersStat) : List MetricCollected :=
  [ { Name := diskIoName ".bytes.read" name, Value := FormatUint stats.ReadBytes },
    { Name := diskIoName ".bytes.write" name, Value := FormatUint stats.WriteBytes },
    { Name := diskIoName ".io.read" name, Value := FormatUint stats.ReadCount },
    { Name := diskIoName ".io.write" name, Value := FormatUint stats.WriteCount },
    { Name := diskIoName ".io.read.ms" name, Value := FormatUint stats.ReadTime },
    { Name := diskIoName ".io.write.ms" name, Value := FormatUint stats.WriteTime },
    { Name := diskIoName ".io" name, Value := FormatUint stats.IopsInProgress },
    { Name := diskIoName ".io.ms" name, Value := FormatUint stats.IoTime },
    { Name := diskIoName ".io.weighted.ms" name, Value := FormatUint stats.WeightedIO } ]

/-- How many IO records a counter entry gets at a level: 2 at level 3, 4 at
level 4, 9 at level 5 and above. -/
def diskIoCount (level : Nat) : Nat :=
  if 4 < level then 9 else if 3 < level then 4 else 2

/-- The number read from a decimal text, starting from the value `a`. -/
def decimalValue (a : Nat) (cs : List Char) : Nat :=
  cs.foldl (fun v ch => v * 10 + (ch.toNat - 48)) a

/-- The kind and direction of the two records of `netBytesRecords`. -/
def netBytesKinds : List (String × String) := [("bytes", "in"), ("bytes", "out")]

/-- The kind and direction of the six records of `netDetailRecords`. -/
def netDetailKinds : List (String × String) :=
  [("packets", "in"), ("packets", "out"), ("errs", "in"), ("errs", "out"),
    ("dropped", "in"), ("dropped", "out")]

/-- The names of the records of the given kinds and directions, for each of
the counters in turn. -/
def netSectionNames (kds : List (String × String)) (cs : List NetIOCountersStat) :
    List String :=
  cs.flatMap (fun cnt => kds.map (fun kd => netIfaceName kd.1 cnt.Name kd.2))

/-- The infixes of the name of the record of `diskPercentRecords`. -/
def diskPercentSubs : List String := [""]

/-- The infixes of the names of the four records of `diskUsageRecords`. -/
def diskUsageSubs : List String := [".used", ".total", ".inodes.used", ".inodes.total"]

/-- The infixes of the names of the nine records of `diskIoRecordsFull`. -/
def diskIoSubs : List String :=
  [".bytes.read", ".bytes.write", ".io.read", ".io.write", ".io.read.ms", ".io.write.ms",
    ".io", ".io.ms", ".io.weighted.ms"]

/-- The usage names with the given infixes, for each entry of `dev` in turn. -/
def diskFsSectionNames (subs : List String) (es : List (String × UsageStat)) : List String :=
  es.flatMap (fun e => subs.map (fun sub => diskFsName sub e.1 e.2.Path))

/-- The IO names with the given infixes, for each entry of `counters` in
turn. -/
def diskIoSectionNames (subs : List String) (es : List (String × DiskIOCountersStat)) :
    List String :=
  es.flatMap (fun e => subs.map (fun sub => diskIoName sub e.1))

/-- The formula of the spec (4.3 and 8) for the global utilisation of two
consecutive samples `now` and `prev`, read over the rational numbers:
`(1 - mean(idle fraction across cores)) * 100`, the idle fraction of a core
being `(idle_now - idle_prev) / (total_now - total_prev)`. -/
def specGlobalUtilisation (now prev : List TimesStat) : ℚ :=
  (1 - (1 / (now.length : ℚ)) *
      ((List.zip now prev).map
        (fun p => (p.1.Idle - p.2.Idle) / (p.1.Total - p.2.Total))).sum) * 100

/-- The delta of one field, read by `get`, between a core sample `t` and its
previous sample `p`, as a float64 subtraction. -/
def float64Delta (get : TimesStat → ℚ) (t p : TimesStat) : F64 :=
  F64.sub (F64.ofRat (get t)) (F64.ofRat (get p))

/-- The sum of float64 values, added one by one from left to right, starting
from zero. -/
def float64Sum (vs : List F64) : F64 := vs.foldl F64.add (.fin 0)

/-- The formula of the spec for the global utilisation, evaluated in float64,
every operation rounding to the nearest float64: the idle fraction of a core
is the idle delta divided by the total delta, the mean is the sum of the
fractions, in the order of the cores, divided by the number of cores; the mean
is subtracted from 1 and the difference multiplied by 100. -/
def float64GlobalUtilisation (now prev : List TimesStat) : F64 :=
  F64.mul
    (F64.sub (.fin 1)
      (F64.div
        (float64Sum ((List.zip now prev).map
          (fun p => F64.div (float64Delta (·.Idle) p.1 p.2) (float64Delta (·.Total) p.1 p.2))))
        (F64.ofNat now.length)))
    (.fin 100)

/-- The per-core value of the spec (4.3) for one field, read by `get`, of a
core sample `t` and its previous sample `p`, read over the rational numbers:
the field fraction times 100. -/
def specCoreValue (get : TimesStat → ℚ) (t p : TimesStat) : ℚ :=
  (get t - get p) / (t.Total - p.Total) * 100

/-- The per-core value of the spec evaluated in float64, every operation
rounding to the nearest float64: the field delta divided by the total delta,
times 100. -/
def float64CoreValue (get : TimesStat → ℚ) (t p : TimesStat) : F64 :=
  F64.mul (F64.div (float64Delta get t p) (float64Delta (·.Total) t p)) (.fin 100)

/-- The per-core records of one field: one record per core, in the order of
the cores and labelled with the core index from `i` on, whose value is the
text of `float64CoreValue`. -/
def float64CoreRecords (field : String) (get : TimesStat → ℚ) (i : Nat)
    (now prev : List TimesStat) : List MetricCollected :=
  ((List.zip now prev).enumFrom i).map
    (fun e => { Name := cpuCoreName field e.1,
                Value := FormatFloat (float64CoreValue get e.2.1 e.2.2) })

/-- A core sample with the given user and idle times and total, the other
fields being zero. -/
def coreSampleUser (user idle total : ℚ) : TimesStat :=
  { User := user, System := 0, Idle := idle, Nice := 0, Iowait := 0, Irq := 0,
    Total := total }

/-! ## Lemmas on the CPU loops -/

theorem cpuDeltas_of_le (retained : List TimesStat) :
    ∀ (times : List TimesStat) (i : Nat), i + times.length ≤ retained.length →
      cpuDeltas retained i times = some (List.zipWith coreFractions times (retained.drop i))
  | [], i, _ => by simp [cpuDeltas]
  | t :: rest, i, h => by
      have hi : i < retained.length := by simp at h; omega
      have ih := cpuDeltas_of_le retained rest (i + 1) (by simp at h; omega)
      rw [List.drop_eq_getElem_cons hi, List.zipWith_cons_cons]
      simp only [cpuDeltas, List.getElem?_eq_getElem hi, ih]

theorem cpuDeltas_length (retained : List TimesStat) :
    ∀ (times : List TimesStat) (i : Nat) (fs : List CoreFractions),
      cpuDeltas retained i times = some fs → fs.length = times.length
  | [], i, fs, h => by
      simp [cpuDeltas] at h; subst h; rfl
  | t :: rest, i, fs, h => by
      simp only [cpuDeltas] at h
      cases hp : retained[i]? with
      | none => simp [hp] at h
      | some p =>
          cases hr : cpuDeltas retained (i + 1) rest with
          | none => simp [hp, hr] at h
          | some gs =>
              simp [hp, hr] at h
              subst h
              simp [cpuDeltas_length retained rest (i + 1) gs hr]

theorem names_cpuCoreRecords (field : String) :
    ∀ (vs : List F64) (i : Nat),
      names (cpuCoreRecords field i vs) = (List.range' i vs.length).map (cpuCoreName field)
  | [], i => by simp [cpuCoreRecords, names]
  | v :: rest, i => by
      have ih := names_cpuCoreRecords field rest (i + 1)
      simp only [names] at ih
      simp [cpuCoreRecords, names, ih, List.range'_succ]

theorem names_cpuLevel3 (fs : List CoreFractions) :
    names (cpuLevel3 fs) = cpuCoreNames fs.length := by
  have h := fun field (vs : List F64) => names_cpuCoreRecords field vs 0
  simp only [names] at h
  simp [cpuLevel3, names, cpuCoreNames, h]

theorem names_cpuRecords (level : Nat) (fs : List CoreFractions) :
    names (cpuRecords level fs) =
      "os.cpu\x7b\x7d" :: ((if level = 2 then cpuAggregateNames else [])
        ++ (if level = 3 then cpuCoreNames fs.length else [])) := by
  have h3 := names_cpuLevel3 fs
  simp only [names] at h3
  by_cases h2 : level = 2
  · subst h2
    simp [cpuRecords, names, cpuLevel2, cpuAggregateNames]
  · by_cases h3' : level = 3
    · subst h3'
      simp [cpuRecords, names, h3]
    · simp [cpuRecords, names, h2, h3']

/-- The sequence of `CPU.scrape` starts with the record `os.cpu{}`. -/
theorem cpuRecords_eq_cons (level : Nat) (fs : List CoreFractions) :
    cpuRecords level fs =
      ⟨"os.cpu\x7b\x7d", FormatFloat (cpuGlobal (fs.map (·.idle)))⟩ ::
        ((if level = 2 then cpuLevel2 fs else []) ++ (if level = 3 then cpuLevel3 fs else [])) := by
  by_cases h2 : level = 2
  · subst h2; simp [cpuRecords]
  · by_cases h3 : level = 3
    · subst h3; simp [cpuRecords]
    · simp [cpuRecords, h2, h3]

/-- The call of `CPU.scrape` on a non-empty retained sample that is long enough: it
returns, replaces the retained sample and publishes `cpuRecords`. -/
theorem cpu_scrape_ok (c : CPU) (times : List TimesStat) (hne : c.times ≠ [])
    (hlen : times.length ≤ c.times.length) :
    c.scrape (.ok times) =
      .ok { c with times := times,
                   MetricsCollected :=
                     cpuRecords c.level (List.zipWith coreFractions times c.times) } := by
  have h0 : ¬ c.times.length = 0 := by
    intro h; exact hne (List.length_eq_zero.mp h)
  have hd := cpuDeltas_of_le c.times times 0 (by omega)
  simp [CPU.scrape, h0, hd]

/-! ## C1 -/

/-- C1, counterexample.  One core, idle 100 -> 150, total 1000 -> 1100: at
level 2 `CPU.scrape` publishes `os.cpu.iowait{}`, at level 3 it does not, so the
names of level 2 are not among the names of level 3. -/
theorem cpu_level_monotone_counterexample :
    ∃ s2 s3 : CPU,
      CPU.scrape ⟨[coreSample 100 1000], [], 2⟩ (.ok [coreSample 150 1100]) = .ok s2 ∧
      CPU.scrape ⟨[coreSample 100 1000], [], 3⟩ (.ok [coreSample 150 1100]) = .ok s3 ∧
      "os.cpu.iowait\x7b\x7d" ∈ names s2.MetricsCollected ∧
      "os.cpu.iowait\x7b\x7d" ∉ names s3.MetricsCollected ∧
      ¬ (names s2.MetricsCollected ⊆ names s3.MetricsCollected) := by
  refine ⟨_, _, rfl, rfl, ?_, ?_, ?_⟩
  · with_unfolding_all decide
  · with_unfolding_all decide
  · intro h
    have h1 : "os.cpu.iowait\x7b\x7d" ∈
        names (cpuRecords 3 [coreFractions (coreSample 150 1100) (coreSample 100 1000)]) :=
      h (by with_unfolding_all decide)
    revert h1
    with_unfolding_all decide

/-- C1, as amended.  For a non-empty retained sample and a new sample of the
same core count, `CPU.scrape` at level `L` publishes `os.cpu{}`, then the five
aggregate names exactly when `L = 2`, then the per-core names exactly when
`L = 3`; so the names of level `L` are among those of level `L + 1` for every
`L >= 1` other than 2 and 3. -/
theorem cpu_level_names (retained times : List TimesStat) (snap : List MetricCollected)
    (L : Nat) (hne : retained ≠ []) (hlen : times.length = retained.length) (_hL : 1 ≤ L) :
    ∃ s s' : CPU,
      CPU.scrape ⟨retained, snap, L⟩ (.ok times) = .ok s ∧
      CPU.scrape ⟨retained, snap, L + 1⟩ (.ok times) = .ok s' ∧
      names s.MetricsCollected =
        "os.cpu\x7b\x7d" :: ((if L = 2 then cpuAggregateNames else [])
          ++ (if L = 3 then cpuCoreNames times.length else [])) ∧
      (L ≠ 2 → L ≠ 3 → names s.MetricsCollected ⊆ names s'.MetricsCollected) := by
  have hz : (List.zipWith coreFractions times retained).length = times.length := by
    simp [hlen]
  refine ⟨_, _, cpu_scrape_ok ⟨retained, snap, L⟩ times hne (le_of_eq hlen),
    cpu_scrape_ok ⟨retained, snap, L + 1⟩ times hne (le_of_eq hlen), ?_, ?_⟩
  · simp only [names_cpuRecords, hz]
  · intro h2 h3
    simp only [names_cpuRecords, hz, h2, h3, if_false, List.append_nil]
    intro x hx
    rw [List.mem_singleton] at hx
    subst hx
    exact List.mem_cons_self _ _

/-- C1, the amended statement at one core, idle 100 -> 150, total
1000 -> 1100, level 4. -/
theorem cpu_level_names_witness :
    [coreSample 100 1000] ≠ [] ∧
    [coreSample 150 1100].length = [coreSample 100 1000].length ∧ 1 ≤ 4 ∧
    ∃ s s' : CPU,
      CPU.scrape ⟨[coreSample 100 1000], [], 4⟩ (.ok [coreSample 150 1100]) = .ok s ∧
      CPU.scrape ⟨[coreSample 100 1000], [], 4 + 1⟩ (.ok [coreSample 150 1100]) = .ok s' ∧
      names s.MetricsCollected =
        "os.cpu\x7b\x7d" :: ((if 4 = 2 then cpuAggregateNames else [])
          ++ (if 4 = 3 then cpuCoreNames [coreSample 150 1100].length else [])) ∧
      (4 ≠ 2 → 4 ≠ 3 → names s.MetricsCollected ⊆ names s'.MetricsCollected) :=
  ⟨by simp, rfl, by decide,
    cpu_level_names [coreSample 100 1000] [coreSample 150 1100] [] 4 (by simp) rfl (by decide)⟩

/-! ## C4 -/

/-- C4, counterexample.  Retained total 1100, new total 1000 (delta -100), empty
snapshot before the call: `CPU.scrape` publishes `os.cpu{}`, so the snapshot
store is not left as it was. -/
theorem cpu_degenerate_delta_counterexample :
    (coreSample 100 1000).Total - (coreSample 150 1100).Total ≤ 0 ∧
    ∃ s : CPU,
      CPU.scrape ⟨[coreSample 150 1100], [], 1⟩ (.ok [coreSample 100 1000]) = .ok s ∧
      s.Metrics.1 = [⟨"os.cpu\x7b\x7d", "50.000000"⟩] ∧
      s.Metrics.1 ≠ (CPU.mk [coreSample 150 1100] [] 1).Metrics.1 := by
  refine ⟨by with_unfolding_all decide, _, rfl, ?_, ?_⟩
  · with_unfolding_all decide
  · with_unfolding_all decide

/-- C4, as amended.  `CPU.scrape` has no test on the total deltas: for a
non-empty retained sample and a new sample of the same core count, whatever the
deltas, it returns, replaces the retained sample by the new one and replaces
the snapshot by a sequence whose first record is `os.cpu{}`. -/
theorem cpu_degenerate_delta_publishes (c : CPU) (times : List TimesStat)
    (hne : c.times ≠ []) (hlen : times.length = c.times.length) :
    ∃ (s : CPU) (v : String) (rest : List MetricCollected),
      c.scrape (.ok times) = .ok s ∧ s.times = times ∧ s.level = c.level ∧
      s.Metrics.1 = ⟨"os.cpu\x7b\x7d", v⟩ :: rest := by
  exact ⟨_, _, _, cpu_scrape_ok c times hne (le_of_eq hlen), rfl, rfl,
    cpuRecords_eq_cons c.level _⟩

/-- C4, the amended statement at a degenerate delta: retained total 1100, new
total 1000. -/
theorem cpu_degenerate_delta_publishes_witness :
    (CPU.mk [coreSample 150 1100] [] 1).times ≠ [] ∧
    [coreSample 100 1000].length = (CPU.mk [coreSample 150 1100] [] 1).times.length ∧
    ∃ (s : CPU) (v : String) (rest : List MetricCollected),
      (CPU.mk [coreSample 150 1100] [] 1).scrape (.ok [coreSample 100 1000]) = .ok s ∧
      s.times = [coreSample 100 1000] ∧ s.level = 1 ∧
      s.Metrics.1 = ⟨"os.cpu\x7b\x7d", v⟩ :: rest :=
  ⟨by simp, rfl,
    cpu_degenerate_delta_publishes ⟨[coreSample 150 1100], [], 1⟩ [coreSample 100 1000]
      (by simp) rfl⟩

/-! ## C6 -/

/-- C6.  The first `CPU.scrape` of a fresh collector returns without error,
leaves the snapshot empty and retains the sample just read; every scrape that
returns `nil` leaves the sample just read as retained sample, and a scrape
returns `nil` whenever the retained sample is empty or at least as long as the
new one. -/
theorem cpu_first_cycle_seeding (period level : Nat) (times : List TimesStat) :
    (NewCPU period level).scrape (.ok times) =
        .ok { times := times, MetricsCollected := [], level := level } ∧
    ((NewCPU period level).Metrics.1 = [] ∧ (NewCPU period level).times = []) ∧
    (∀ (c s : CPU) (ts : List TimesStat), c.scrape (.ok ts) = .ok s → s.times = ts) ∧
    (∀ (c : CPU) (ts : List TimesStat), c.times = [] ∨ ts.length ≤ c.times.length →
      ∃ s : CPU, c.scrape (.ok ts) = .ok s ∧ s.times = ts) := by
  refine ⟨by simp [CPU.scrape, NewCPU], ⟨rfl, rfl⟩, ?_, ?_⟩
  · intro c s ts h
    simp only [CPU.scrape] at h
    split at h
    · cases h; rfl
    · split at h
      · cases h
      · cases h; rfl
  · intro c ts h
    by_cases h0 : c.times = []
    · exact ⟨{ c with times := ts }, by simp [CPU.scrape, h0], rfl⟩
    · rcases h with h | h
      · exact absurd h h0
      · exact ⟨_, cpu_scrape_ok c ts h0 h, rfl⟩

/-! ## Lemmas on the name `os.cpu{}` -/

theorem cpuFieldName_ne_global (field : String) : cpuFieldName field ≠ "os.cpu\x7b\x7d" := by
  intro h
  have h' := congrArg String.data h
  simp [cpuFieldName, String.data_append] at h'

theorem cpuCoreName_ne_global (field : String) (i : Nat) :
    cpuCoreName field i ≠ "os.cpu\x7b\x7d" := by
  intro h
  have h' := congrArg String.data h
  simp [cpuCoreName, String.data_append] at h'

theorem cpuCoreRecords_ne_global (field : String) :
    ∀ (vs : List F64) (i : Nat), ∀ r ∈ cpuCoreRecords field i vs, r.Name ≠ "os.cpu\x7b\x7d"
  | [], _ => by simp [cpuCoreRecords]
  | v :: rest, i => by
      intro r hr
      simp only [cpuCoreRecords, List.mem_cons] at hr
      rcases hr with hr | hr
      · subst hr; exact cpuCoreName_ne_global field i
      · exact cpuCoreRecords_ne_global field rest (i + 1) r hr

theorem cpuRecords_tail_ne_global (level : Nat) (fs : List CoreFractions) :
    ∀ r ∈ (if level = 2 then cpuLevel2 fs else []) ++ (if level = 3 then cpuLevel3 fs else []),
      r.Name ≠ "os.cpu\x7b\x7d" := by
  intro r hr
  rw [List.mem_append] at hr
  rcases hr with hr | hr
  · split at hr
    · simp only [cpuLevel2, List.mem_cons, List.mem_singleton, List.not_mem_nil, or_false] at hr
      rcases hr with hr | hr | hr | hr | hr <;> subst hr <;> exact cpuFieldName_ne_global _
    · simp at hr
  · split at hr
    · simp only [cpuLevel3, List.mem_append] at hr
      rcases hr with (((hr | hr) | hr) | hr) | hr <;>
        exact cpuCoreRecords_ne_global _ _ _ r hr
    · simp at hr

/-! ## Lemmas on the loops of `Net.scrape` -/

theorem Net.bytesLoop_eq (c : Net) :
    ∀ (counters : List NetIOCountersStat) (acc : List MetricCollected),
      c.bytesLoop counters acc = acc ++ (c.allowed counters).flatMap netBytesRecords
  | [], acc => by simp [Net.bytesLoop, Net.allowed]
  | cnt :: rest, acc => by
      have ih := Net.bytesLoop_eq c rest
      simp only [Net.allowed] at ih
      by_cases h : c.skips cnt = true
      · simp [Net.bytesLoop, Net.allowed, h, ih]
      · simp [Net.bytesLoop, Net.allowed, h, ih]

theorem Net.detailLoop_eq (c : Net) :
    ∀ (counters : List NetIOCountersStat) (acc : List MetricCollected),
      c.detailLoop counters acc = acc ++ (c.allowed counters).flatMap netDetailRecords
  | [], acc => by simp [Net.detailLoop, Net.allowed]
  | cnt :: rest, acc => by
      have ih := Net.detailLoop_eq c rest
      simp only [Net.allowed] at ih
      by_cases h : c.skips cnt = true
      · simp [Net.detailLoop, Net.allowed, h, ih]
      · simp [Net.detailLoop, Net.allowed, h, ih]

theorem Net.sums_eq (c : Net) :
    ∀ (counters : List NetIOCountersStat) (acc : Nat × Nat),
      acc.1 < 2 ^ 64 → acc.2 < 2 ^ 64 →
      c.sums counters acc =
        ((acc.1 + ((c.allowed counters).map (·.BytesRecv)).sum) % 2 ^ 64,
         (acc.2 + ((c.allowed counters).map (·.BytesSent)).sum) % 2 ^ 64)
  | [], (a, b), h1, h2 => by
      simp only [Net.sums, Net.allowed, List.filter_nil, List.map_nil, List.sum_nil,
        Nat.add_zero]
      exact Prod.ext (Nat.mod_eq_of_lt h1).symm (Nat.mod_eq_of_lt h2).symm
  | cnt :: rest, (a, b), h1, h2 => by
      by_cases h : c.skips cnt = true
      · have ih := Net.sums_eq c rest (a, b) h1 h2
        simp only [Net.allowed] at ih
        simp [Net.sums, Net.allowed, h, ih]
      · have ih := Net.sums_eq c rest
          ((a + cnt.BytesRecv) % 2 ^ 64, (b + cnt.BytesSent) % 2 ^ 64)
          (Nat.mod_lt _ (by norm_num)) (Nat.mod_lt _ (by norm_num))
        simp only [Net.allowed] at ih
        have hf : List.filter (fun cnt => !c.skips cnt) (cnt :: rest) =
            cnt :: List.filter (fun cnt => !c.skips cnt) rest := by
          simp [h]
        simp only [Net.sums, Net.allowed, h, hf, List.map_cons, List.sum_cons, ih]
        simp only [Nat.mod_add_mod, Nat.add_assoc, Bool.false_eq_true, if_false]

theorem Net.allowed_congr (c c' : Net) (h : c.interfaces = c'.interfaces)
    (counters : List NetIOCountersStat) : c.allowed counters = c'.allowed counters := by
  simp [Net.allowed, Net.skips, h]

/-- The call of `Net.scrape` with a period of a second or more: it returns and publishes
`Net.records` of the two wrapped sums divided by the seconds of the period. -/
theorem net_scrape_ok (c : Net) (counters : List NetIOCountersStat) (hp : 1000 ≤ c.period) :
    c.scrape (.ok counters) =
      .ok { c with MetricsCollected :=
              (c.records counters
                ((((c.allowed counters).map (·.BytesRecv)).sum % 2 ^ 64) / (c.period / 1000))
                ((((c.allowed counters).map (·.BytesSent)).sum % 2 ^ 64) / (c.period / 1000))) } := by
  have h0 : ¬ c.period / 1000 = 0 := by
    have : 1 ≤ c.period / 1000 := (Nat.le_div_iff_mul_le (by norm_num)).mpr (by omega)
    omega
  have hs := Net.sums_eq c counters (0, 0) (by norm_num) (by norm_num)
  simp only [Nat.zero_add] at hs
  simp only [Net.scrape, h0, if_false, hs]

theorem net_records_eq (c : Net) (counters : List NetIOCountersStat) (a b : Nat) :
    c.records counters a b =
      (if c.level = 1 then
          [ { Name := "os.net.bytes\x7bdirection=in\x7d", Value := FormatUint a },
            { Name := "os.net.bytes\x7bdirection=out\x7d", Value := FormatUint b } ]
        else [])
      ++ (if 1 < c.level then (c.allowed counters).flatMap netBytesRecords else [])
      ++ (if 2 < c.level then (c.allowed counters).flatMap netDetailRecords else []) := by
  simp only [Net.records, Net.bytesLoop_eq, Net.detailLoop_eq]
  by_cases h1 : c.level = 1
  · simp [h1]
  · by_cases h2 : 1 < c.level
    · by_cases h3 : 2 < c.level
      · simp [h1, h2, h3]
      · simp [h1, h2, h3]
    · have h3 : ¬ 2 < c.level := by omega
      simp [h1, h2, h3]

theorem netIfaceName_ne_in (name dir : String) :
    netIfaceName "bytes" name dir ≠ "os.net.bytes\x7bdirection=in\x7d" ∧
    netIfaceName "packets" name dir ≠ "os.net.bytes\x7bdirection=in\x7d" ∧
    netIfaceName "errs" name dir ≠ "os.net.bytes\x7bdirection=in\x7d" ∧
    netIfaceName "dropped" name dir ≠ "os.net.bytes\x7bdirection=in\x7d" := by
  refine ⟨?_, ?_, ?_, ?_⟩ <;>
  · intro h
    have h' := congrArg String.data h
    simp [netIfaceName, String.data_append] at h'

theorem netIface_records_ne_in (cs : List NetIOCountersStat) :
    "os.net.bytes\x7bdirection=in\x7d" ∉ names (cs.flatMap netBytesRecords) ∧
    "os.net.bytes\x7bdirection=in\x7d" ∉ names (cs.flatMap netDetailRecords) := by
  constructor
  · intro h
    simp only [names, List.mem_map, List.mem_flatMap] at h
    obtain ⟨r, ⟨cnt, _, hr⟩, hn⟩ := h
    simp only [netBytesRecords, List.mem_cons, List.mem_singleton, List.not_mem_nil,
      or_false] at hr
    rcases hr with hr | hr <;> subst hr <;>
      exact (netIfaceName_ne_in _ _).1 hn
  · intro h
    simp only [names, List.mem_map, List.mem_flatMap] at h
    obtain ⟨r, ⟨cnt, _, hr⟩, hn⟩ := h
    simp only [netDetailRecords, List.mem_cons, List.mem_singleton, List.not_mem_nil,
      or_false] at hr
    rcases hr with hr | hr | hr | hr | hr | hr <;> subst hr
    · exact (netIfaceName_ne_in _ _).2.1 hn
    · exact (netIfaceName_ne_in _ _).2.1 hn
    · exact (netIfaceName_ne_in _ _).2.2.1 hn
    · exact (netIfaceName_ne_in _ _).2.2.1 hn
    · exact (netIfaceName_ne_in _ _).2.2.2 hn
    · exact (netIfaceName_ne_in _ _).2.2.2 hn

/-! ## C2 -/

/-- C2, counterexample.  Period 60000 ms, no filter, one interface `eth0`: at
level 1 `Net.scrape` publishes `os.net.bytes{direction=in}`, at level 2 it does
not. -/
theorem net_level_monotone_counterexample :
    ∃ s1 s2 : Net,
      Net.scrape ⟨[], [], 1, 60000⟩ (.ok [ifaceRecv "eth0" 6000]) = .ok s1 ∧
      Net.scrape ⟨[], [], 2, 60000⟩ (.ok [ifaceRecv "eth0" 6000]) = .ok s2 ∧
      "os.net.bytes\x7bdirection=in\x7d" ∈ names s1.MetricsCollected ∧
      "os.net.bytes\x7bdirection=in\x7d" ∉ names s2.MetricsCollected ∧
      ¬ (names s1.MetricsCollected ⊆ names s2.MetricsCollected) := by
  have h1 : "os.net.bytes\x7bdirection=in\x7d" ∈
      names ((Net.mk [] [] 1 60000).records [ifaceRecv "eth0" 6000]
        (((Net.mk [] [] 1 60000).sums [ifaceRecv "eth0" 6000] (0, 0)).1 / (60000 / 1000))
        (((Net.mk [] [] 1 60000).sums [ifaceRecv "eth0" 6000] (0, 0)).2 / (60000 / 1000))) := by
    decide
  have h2 : "os.net.bytes\x7bdirection=in\x7d" ∉
      names ((Net.mk [] [] 2 60000).records [ifaceRecv "eth0" 6000]
        (((Net.mk [] [] 2 60000).sums [ifaceRecv "eth0" 6000] (0, 0)).1 / (60000 / 1000))
        (((Net.mk [] [] 2 60000).sums [ifaceRecv "eth0" 6000] (0, 0)).2 / (60000 / 1000))) := by
    decide
  exact ⟨_, _, rfl, rfl, h1, h2, fun h => h2 (h h1)⟩

/-- C2, as amended.  For a period of at least 1000 ms, every filter, every list
of counters and every level `L >= 1`, `Net.scrape` publishes the two aggregates
exactly when `L = 1`, the per-interface byte records when `L > 1` and the
packet, error and drop records when `L > 2`; so the names of level `L` are
among those of level `L + 1` for every `L >= 2`, and the aggregate
`os.net.bytes{direction=in}` is not published at any level but 1. -/
theorem net_level_names (interfaces : List String) (snap : List MetricCollected)
    (period L : Nat) (counters : List NetIOCountersStat) (hp : 1000 ≤ period) (_hL : 1 ≤ L) :
    ∃ s s' : Net,
      Net.scrape ⟨interfaces, snap, L, period⟩ (.ok counters) = .ok s ∧
      Net.scrape ⟨interfaces, snap, L + 1, period⟩ (.ok counters) = .ok s' ∧
      names s.MetricsCollected =
        (if L = 1 then
            ["os.net.bytes\x7bdirection=in\x7d", "os.net.bytes\x7bdirection=out\x7d"]
          else [])
        ++ (if 1 < L then names ((s.allowed counters).flatMap netBytesRecords) else [])
        ++ (if 2 < L then names ((s.allowed counters).flatMap netDetailRecords) else []) ∧
      (L ≠ 1 → names s.MetricsCollected ⊆ names s'.MetricsCollected) ∧
      (L ≠ 1 → "os.net.bytes\x7bdirection=in\x7d" ∉ names s.MetricsCollected) := by
  have e : ∀ (l : Nat) (ms : List MetricCollected),
      (Net.mk interfaces ms l period).allowed counters
        = (Net.mk interfaces snap L period).allowed counters :=
    fun l ms => Net.allowed_congr _ _ rfl counters
  refine ⟨_, _, net_scrape_ok ⟨interfaces, snap, L, period⟩ counters hp,
    net_scrape_ok ⟨interfaces, snap, L + 1, period⟩ counters hp, ?_, ?_, ?_⟩
  · simp only [net_records_eq, e]
    by_cases h1 : L = 1
    · subst h1; simp [names]
    · by_cases h2 : 1 < L
      · by_cases h3 : 2 < L
        · simp [names, h1, h2, h3]
        · simp [names, h1, h2, h3]
      · have h3 : ¬ 2 < L := by omega
        simp [names, h1, h2, h3]
  · intro h1
    have h2 : 1 < L := by omega
    have h2' : 1 < L + 1 := by omega
    have h1' : ¬ L + 1 = 1 := by omega
    simp only [net_records_eq, e, h1, h2, h2', h1', if_true, if_false, List.nil_append]
    by_cases h3 : 2 < L
    · have h3' : 2 < L + 1 := by omega
      simp only [h3, h3', if_true]
      exact fun x hx => hx
    · have h3' : 2 < L + 1 := by omega
      simp only [h3, h3', if_true, if_false, List.append_nil, names, List.map_append]
      exact fun x hx => List.mem_append_left _ hx
  · intro h1
    simp only [net_records_eq, e, h1, if_false, List.nil_append, names, List.map_append,
      List.mem_append, not_or]
    constructor
    · split
      · exact (netIface_records_ne_in _).1
      · simp
    · split
      · exact (netIface_records_ne_in _).2
      · simp

/-- C2, the amended statement at period 60000 ms, no filter, one interface
`eth0`, level 2. -/
theorem net_level_names_witness :
    1000 ≤ 60000 ∧ 1 ≤ 2 ∧
    ∃ s s' : Net,
      Net.scrape ⟨[], [], 2, 60000⟩ (.ok [ifaceRecv "eth0" 6000]) = .ok s ∧
      Net.scrape ⟨[], [], 2 + 1, 60000⟩ (.ok [ifaceRecv "eth0" 6000]) = .ok s' ∧
      names s.MetricsCollected =
        (if 2 = 1 then
            ["os.net.bytes\x7bdirection=in\x7d", "os.net.bytes\x7bdirection=out\x7d"]
          else [])
        ++ (if 1 < 2 then
              names ((s.allowed [ifaceRecv "eth0" 6000]).flatMap netBytesRecords) else [])
        ++ (if 2 < 2 then
              names ((s.allowed [ifaceRecv "eth0" 6000]).flatMap netDetailRecords) else []) ∧
      (2 ≠ 1 → names s.MetricsCollected ⊆ names s'.MetricsCollected) ∧
      (2 ≠ 1 → "os.net.bytes\x7bdirection=in\x7d" ∉ names s.MetricsCollected) :=
  ⟨by decide, by decide,
    net_level_names [] [] 60000 2 [ifaceRecv "eth0" 6000] (by decide) (by decide)⟩

theorem netBytes_length (cs : List NetIOCountersStat) :
    (cs.flatMap netBytesRecords).length = 2 * cs.length := by
  induction cs with
  | nil => rfl
  | cons c rest ih =>
      simp only [List.flatMap_cons, List.length_append, ih, netBytesRecords, List.length_cons,
        List.length_nil]
      omega

theorem netDetail_length (cs : List NetIOCountersStat) :
    (cs.flatMap netDetailRecords).length = 6 * cs.length := by
  induction cs with
  | nil => rfl
  | cons c rest ih =>
      simp only [List.flatMap_cons, List.length_append, ih, netDetailRecords, List.length_cons,
        List.length_nil]
      omega

/-! ## C3 -/

/-- C3, counterexample.  Period 60000 ms, level 1, one interface `eth0` whose
received-bytes counter goes from 6000 to 12000 between two consecutive cycles:
after the second cycle `os.net.bytes{direction=in}` is `200` (12000 / 60), not
the rate `100` of the delta 6000. -/
theorem net_rate_counterexample :
    ∃ s1 s2 : Net,
      (NewNet 60000 1 .null).scrape (.ok [ifaceRecv "eth0" 6000]) = .ok s1 ∧
      s1.scrape (.ok [ifaceRecv "eth0" 12000]) = .ok s2 ∧
      s2.Metrics.1 =
        [⟨"os.net.bytes\x7bdirection=in\x7d", "200"⟩,
          ⟨"os.net.bytes\x7bdirection=out\x7d", "0"⟩] ∧
      FormatUint ((12000 - 6000) / (60000 / 1000)) = "100" := by
  refine ⟨_, _, rfl, rfl, ?_, ?_⟩
  · decide
  · decide

/-- C3, as amended.  For a level-1 Net collector whose period is a whole number
`k >= 1` of seconds (`1000 * k` ms), in every state, the cycle publishes exactly
the two aggregates, whose values are the decimal texts of the sum, over the
allowed non-loopback interfaces, of the received (resp. sent) bytes of the
sample just read, reduced modulo `2 ^ 64` and divided by `k`, the quotient
being truncated to an integer; nothing of an earlier sample enters the
value. -/
theorem net_aggregate_value (c : Net) (counters : List NetIOCountersStat) (k : Nat)
    (hl : c.level = 1) (hk : 0 < k) (hp : c.period = 1000 * k) :
    c.scrape (.ok counters) =
      .ok { c with MetricsCollected :=
              [ ⟨"os.net.bytes\x7bdirection=in\x7d",
                  FormatUint ((((c.allowed counters).map (·.BytesRecv)).sum % 2 ^ 64) / k)⟩,
                ⟨"os.net.bytes\x7bdirection=out\x7d",
                  FormatUint ((((c.allowed counters).map (·.BytesSent)).sum % 2 ^ 64) / k)⟩ ] } := by
  have hge : 1000 ≤ c.period := by rw [hp]; omega
  have hdiv : c.period / 1000 = k := by rw [hp]; exact Nat.mul_div_cancel_left k (by norm_num)
  rw [net_scrape_ok c counters hge, net_records_eq, hdiv]
  simp [hl]

/-- C3, the amended statement at period 60000 ms (`k = 60`) and one interface
`eth0` whose received-bytes counter is 6000: the value is `100`. -/
theorem net_aggregate_value_witness :
    (NewNet 60000 1 .null).level = 1 ∧ 0 < 60 ∧ (NewNet 60000 1 .null).period = 1000 * 60 ∧
    (NewNet 60000 1 .null).scrape (.ok [ifaceRecv "eth0" 6000]) =
      .ok { NewNet 60000 1 .null with MetricsCollected :=
              [ ⟨"os.net.bytes\x7bdirection=in\x7d",
                  FormatUint (((((NewNet 60000 1 .null).allowed
                      [ifaceRecv "eth0" 6000]).map (·.BytesRecv)).sum % 2 ^ 64) / 60)⟩,
                ⟨"os.net.bytes\x7bdirection=out\x7d",
                  FormatUint (((((NewNet 60000 1 .null).allowed
                      [ifaceRecv "eth0" 6000]).map (·.BytesSent)).sum % 2 ^ 64) / 60)⟩ ] } ∧
    FormatUint (((((NewNet 60000 1 .null).allowed
        [ifaceRecv "eth0" 6000]).map (·.BytesRecv)).sum % 2 ^ 64) / 60) = "100" :=
  ⟨rfl, by decide, rfl,
    net_aggregate_value (NewNet 60000 1 .null) [ifaceRecv "eth0" 6000] 60 rfl (by decide) rfl,
    by decide⟩

/-! ## C7 -/

/-- C7, counterexample.  A fresh Net collector of level 1 and period 60000 ms
has an empty snapshot; its very first `Net.scrape`, on one interface `eth0`
with 6000 received bytes, publishes two records. -/
theorem net_first_cycle_counterexample :
    (NewNet 60000 1 .null).Metrics.1 = [] ∧
    ∃ s : Net,
      (NewNet 60000 1 .null).scrape (.ok [ifaceRecv "eth0" 6000]) = .ok s ∧
      s.Metrics.1 =
        [⟨"os.net.bytes\x7bdirection=in\x7d", "100"⟩,
          ⟨"os.net.bytes\x7bdirection=out\x7d", "0"⟩] ∧
      s.Metrics.1 ≠ [] := by
  refine ⟨rfl, _, rfl, ?_, ?_⟩
  · decide
  · decide

/-- C7, as amended.  The very first `Net.scrape` of a fresh Net collector of
level `>= 1` and period at least 1000 ms already publishes the records of its
level, computed from the counters just read: the two aggregates at level 1,
two records per allowed non-loopback interface at level 2, eight at level 3
and above.  The call changes nothing but the snapshot: the collector has no
retained raw state. -/
theorem net_first_cycle_publishes (period level : Nat) (opts : GoValue)
    (counters : List NetIOCountersStat) (hp : 1000 ≤ period) (_hL : 1 ≤ level) :
    ∃ s : Net,
      (NewNet period level opts).scrape (.ok counters) = .ok s ∧
      (s.interfaces = (NewNet period level opts).interfaces ∧ s.level = level ∧
        s.period = period) ∧
      s.Metrics.1.length =
        (if level = 1 then 2
          else if level = 2 then 2 * ((NewNet period level opts).allowed counters).length
          else 8 * ((NewNet period level opts).allowed counters).length) ∧
      (level = 1 → s.Metrics.1 ≠ []) := by
  have hl : ∀ l : Nat, (NewNet period l opts).level = l := fun _ => rfl
  have hb := netBytes_length ((NewNet period level opts).allowed counters)
  have hd := netDetail_length ((NewNet period level opts).allowed counters)
  refine ⟨_, net_scrape_ok (NewNet period level opts) counters hp, ⟨rfl, rfl, rfl⟩, ?_, ?_⟩
  · by_cases h1 : level = 1
    · subst h1
      simp [Net.Metrics, net_records_eq, hl]
    · by_cases h2 : level = 2
      · subst h2
        simp only [Net.Metrics, net_records_eq, hl]
        rw [if_neg (by decide), if_pos (by decide), if_neg (by decide)]
        simp only [List.nil_append, List.append_nil, hb]
        rfl
      · have h3 : 2 < level := by omega
        have h3' : 1 < level := by omega
        simp only [Net.Metrics, net_records_eq, hl, h1, h2, h3, h3', if_true, if_false,
          List.length_append, List.length_nil, hb, hd]
        omega
  · intro h1
    subst h1
    simp [Net.Metrics, net_records_eq, hl]

/-- C7, the amended statement at period 60000 ms, level 1 and one interface
`eth0`. -/
theorem net_first_cycle_publishes_witness :
    1000 ≤ 60000 ∧ 1 ≤ 1 ∧
    ∃ s : Net,
      (NewNet 60000 1 .null).scrape (.ok [ifaceRecv "eth0" 6000]) = .ok s ∧
      (s.interfaces = (NewNet 60000 1 .null).interfaces ∧ s.level = 1 ∧ s.period = 60000) ∧
      s.Metrics.1.length =
        (if 1 = 1 then 2
          else if 1 = 2 then
            2 * ((NewNet 60000 1 .null).allowed [ifaceRecv "eth0" 6000]).length
          else 8 * ((NewNet 60000 1 .null).allowed [ifaceRecv "eth0" 6000]).length) ∧
      (1 = 1 → s.Metrics.1 ≠ []) :=
  ⟨by decide, by decide,
    net_first_cycle_publishes 60000 1 .null [ifaceRecv "eth0" 6000] (by decide) (by decide)⟩

/-! ## C8 -/

/-- C8.  When a provider call of the cycle fails with the error `e`, `scrape`
returns `e` and leaves the collector as it was (snapshot, and for CPU the
retained sample), for each of the five collectors and each of their provider
calls. -/
theorem provider_failure_is_atomic (e : String) :
    (∀ c : CPU, c.scrape (.error e) = .error e c) ∧
    (∀ (c : Memory) (rs : Except String SwapMemoryStat),
      c.scrape (.error e) rs = .error e c) ∧
    (∀ (c : Memory) (virt : VirtualMemoryStat),
      c.scrape (.ok virt) (.error e) = .error e c) ∧
    (∀ (c : Disk) (rp : Except String (List PartitionStat))
        (usage : String → Except String UsageStat) (o1 o2 o3 : RangeOrder),
      c.scrape (.error e) rp usage o1 o2 o3 = .error e c) ∧
    (∀ (c : Disk) (counters : List (String × DiskIOCountersStat))
        (usage : String → Except String UsageStat) (o1 o2 o3 : RangeOrder),
      c.scrape (.ok counters) (.error e) usage o1 o2 o3 = .error e c) ∧
    (∀ c : Load, c.scrape (.error e) = .error e c) ∧
    (∀ c : Net, c.scrape (.error e) = .error e c) :=
  ⟨fun _ => rfl, fun _ _ => rfl, fun _ _ => rfl, fun _ _ _ _ _ _ => rfl,
    fun _ _ _ _ _ _ => rfl, fun _ => rfl, fun _ => rfl⟩

/-! ## C9 -/

/-- C9.  Every constructor returns a collector whose `Metrics()` is empty;
`Metrics()` returns the stored sequence and leaves the collector as it is; and
a collector built with level 0 never leaves its initial state, so that its
`Metrics()` is empty in every reachable state. -/
theorem empty_before_first_cycle (period level : Nat) (opts : GoValue) :
    ((NewCPU period level).Metrics.1 = [] ∧ (NewMemory period level).Metrics.1 = [] ∧
      (NewLoad period level).Metrics.1 = [] ∧ (NewDisk period level opts).Metrics.1 = [] ∧
      (NewNet period level opts).Metrics.1 = []) ∧
    ((∀ c : CPU, c.Metrics = (c.MetricsCollected, c)) ∧
      (∀ c : Memory, c.Metrics = (c.MetricsCollected, c)) ∧
      (∀ c : Load, c.Metrics = (c.MetricsCollected, c)) ∧
      (∀ c : Disk, c.Metrics = (c.MetricsCollected, c)) ∧
      (∀ c : Net, c.Metrics = (c.MetricsCollected, c))) ∧
    ((∀ c : CPU, Relation.ReflTransGen CPU.Step (NewCPU period 0) c →
        c = NewCPU period 0 ∧ c.Metrics.1 = []) ∧
      (∀ c : Memory, Relation.ReflTransGen Memory.Step (NewMemory period 0) c →
        c = NewMemory period 0 ∧ c.Metrics.1 = []) ∧
      (∀ c : Load, Relation.ReflTransGen Load.Step (NewLoad period 0) c →
        c = NewLoad period 0 ∧ c.Metrics.1 = []) ∧
      (∀ c : Disk, Relation.ReflTransGen Disk.Step (NewDisk period 0 opts) c →
        c = NewDisk period 0 opts ∧ c.Metrics.1 = []) ∧
      (∀ c : Net, Relation.ReflTransGen Net.Step (NewNet period 0 opts) c →
        c = NewNet period 0 opts ∧ c.Metrics.1 = [])) := by
  refine ⟨⟨rfl, rfl, rfl, rfl, rfl⟩,
    ⟨fun _ => rfl, fun _ => rfl, fun _ => rfl, fun _ => rfl, fun _ => rfl⟩,
    ?_, ?_, ?_, ?_, ?_⟩
  · intro c h
    induction h with
    | refl => exact ⟨rfl, rfl⟩
    | tail _ hstep ih =>
        obtain ⟨rfl, _⟩ := ih
        cases hstep with
        | tick r _ hl _ => exact absurd rfl hl
        | read => exact ⟨rfl, rfl⟩
  · intro c h
    induction h with
    | refl => exact ⟨rfl, rfl⟩
    | tail _ hstep ih =>
        obtain ⟨rfl, _⟩ := ih
        cases hstep with
        | tick rv rs _ hl _ => exact absurd rfl hl
        | read => exact ⟨rfl, rfl⟩
  · intro c h
    induction h with
    | refl => exact ⟨rfl, rfl⟩
    | tail _ hstep ih =>
        obtain ⟨rfl, _⟩ := ih
        cases hstep with
        | tick r _ hl _ => exact absurd rfl hl
        | read => exact ⟨rfl, rfl⟩
  · intro c h
    induction h with
    | refl => exact ⟨rfl, rfl⟩
    | tail _ hstep ih =>
        obtain ⟨rfl, _⟩ := ih
        cases hstep with
        | tick rc rp usage o1 o2 o3 _ hl _ => exact absurd hl (Nat.lt_irrefl 0)
        | read => exact ⟨rfl, rfl⟩
  · intro c h
    induction h with
    | refl => exact ⟨rfl, rfl⟩
    | tail _ hstep ih =>
        obtain ⟨rfl, _⟩ := ih
        cases hstep with
        | tick r _ hl _ => exact absurd rfl hl
        | read => exact ⟨rfl, rfl⟩

/-! ## Lemmas on the loops of `Disk.scrape` -/

theorem Disk.percentLoop_eq (c : Disk) :
    ∀ (dev : List (String × UsageStat)) (acc : List MetricCollected),
      c.percentLoop dev acc =
        acc ++ (c.allowedPaths dev).flatMap (fun e => diskPercentRecords e.1 e.2)
  | [], acc => by simp [Disk.percentLoop, Disk.allowedPaths]
  | (d, u) :: rest, acc => by
      have ih := Disk.percentLoop_eq c rest
      simp only [Disk.allowedPaths] at ih
      by_cases h : c.skipsPath d = true
      · simp [Disk.percentLoop, Disk.allowedPaths, h, ih]
      · simp [Disk.percentLoop, Disk.allowedPaths, h, ih]

theorem Disk.usageLoop_eq (c : Disk) :
    ∀ (dev : List (String × UsageStat)) (acc : List MetricCollected),
      c.usageLoop dev acc =
        acc ++ (c.allowedPaths dev).flatMap (fun e => diskUsageRecords e.1 e.2)
  | [], acc => by simp [Disk.usageLoop, Disk.allowedPaths]
  | (d, u) :: rest, acc => by
      have ih := Disk.usageLoop_eq c rest
      simp only [Disk.allowedPaths] at ih
      by_cases h : c.skipsPath d = true
      · simp [Disk.usageLoop, Disk.allowedPaths, h, ih]
      · simp [Disk.usageLoop, Disk.allowedPaths, h, ih]

theorem Disk.ioLoop_eq (c : Disk) :
    ∀ (counters : List (String × DiskIOCountersStat)) (acc : List MetricCollected),
      c.ioLoop counters acc =
        acc ++ (c.allowedNames counters).flatMap (fun e => c.ioRecords e.1 e.2)
  | [], acc => by simp [Disk.ioLoop, Disk.allowedNames]
  | (n, st) :: rest, acc => by
      have ih := Disk.ioLoop_eq c rest
      simp only [Disk.allowedNames] at ih
      by_cases h : c.skipsName n = true
      · simp [Disk.ioLoop, Disk.allowedNames, h, ih]
      · simp [Disk.ioLoop, Disk.allowedNames, h, ih]

theorem disk_records_eq (c : Disk) (counters : List (String × DiskIOCountersStat))
    (dev : List (String × UsageStat)) (o1 o2 o3 : RangeOrder) :
    c.records counters dev o1 o2 o3 =
      (c.allowedPaths (o1.visit dev)).flatMap (fun e => diskPercentRecords e.1 e.2)
      ++ (if 1 < c.level then
            (c.allowedPaths (o2.visit dev)).flatMap (fun e => diskUsageRecords e.1 e.2)
          else [])
      ++ (if 2 < c.level then
            (c.allowedNames (o3.visit counters)).flatMap (fun e => c.ioRecords e.1 e.2)
          else []) := by
  simp only [Disk.records, Disk.percentLoop_eq, Disk.usageLoop_eq, Disk.ioLoop_eq,
    List.nil_append]
  by_cases h1 : 1 < c.level
  · by_cases h2 : 2 < c.level
    · simp [h1, h2]
    · simp [h1, h2]
  · have h2 : ¬ 2 < c.level := by omega
    simp [h1, h2]

theorem Disk.skipsPath_eq_false (c : Disk) (d : String) :
    c.skipsPath d = false ↔ (c.allowedDisks = [] ∨ pathSplitFile d ∈ c.allowedDisks) := by
  cases hA : c.allowedDisks with
  | nil => simp [Disk.skipsPath, hA]
  | cons a rest =>
      by_cases hm : pathSplitFile d ∈ a :: rest
      · simp [Disk.skipsPath, hA, hm]
      · simp [Disk.skipsPath, hA, hm]

theorem Disk.skipsName_eq_false (c : Disk) (n : String) :
    c.skipsName n = false ↔ (c.allowedDisks = [] ∨ n ∈ c.allowedDisks) := by
  cases hA : c.allowedDisks with
  | nil => simp [Disk.skipsName, hA]
  | cons a rest =>
      by_cases hm : n ∈ a :: rest
      · simp [Disk.skipsName, hA, hm]
      · simp [Disk.skipsName, hA, hm]

theorem Disk.mem_allowedPaths (c : Disk) (o : RangeOrder) (dev : List (String × UsageStat))
    (e : String × UsageStat) :
    e ∈ c.allowedPaths (o.visit dev) ↔
      e ∈ dev ∧ (c.allowedDisks = [] ∨ pathSplitFile e.1 ∈ c.allowedDisks) := by
  simp only [Disk.allowedPaths, List.mem_filter, (o.perm dev).mem_iff, Bool.not_eq_true',
    Disk.skipsPath_eq_false]

theorem Disk.mem_allowedNames (c : Disk) (o : RangeOrder)
    (counters : List (String × DiskIOCountersStat)) (e : String × DiskIOCountersStat) :
    e ∈ c.allowedNames (o.visit counters) ↔
      e ∈ counters ∧ (c.allowedDisks = [] ∨ e.1 ∈ c.allowedDisks) := by
  simp only [Disk.allowedNames, List.mem_filter, (o.perm counters).mem_iff, Bool.not_eq_true',
    Disk.skipsName_eq_false]

theorem mem_mapAssign {α : Type} (k : String) (v : α) :
    ∀ (m : List (String × α)) (e : String × α),
      e ∈ mapAssign k v m → e = (k, v) ∨ e ∈ m
  | [], e, h => by simpa [mapAssign] using h
  | (k', v') :: rest, e, h => by
      simp only [mapAssign] at h
      split at h
      · simp only [List.mem_cons] at h
        rcases h with h | h
        · exact Or.inl h
        · exact Or.inr (List.mem_cons_of_mem _ h)
      · simp only [List.mem_cons] at h
        rcases h with h | h
        · exact Or.inr (by simp [h])
        · rcases mem_mapAssign k v rest e h with h | h
          · exact Or.inl h
          · exact Or.inr (List.mem_cons_of_mem _ h)

theorem keys_mapAssign {α : Type} (k : String) (v : α) :
    ∀ (m : List (String × α)) (d : String),
      d ∈ (mapAssign k v m).map Prod.fst ↔ d = k ∨ d ∈ m.map Prod.fst
  | [], d => by simp [mapAssign]
  | (k', v') :: rest, d => by
      by_cases h : k' = k
      · subst h
        simp [mapAssign]
      · have ih := keys_mapAssign k v rest d
        simp only [List.mem_map] at ih
        simp only [mapAssign, h, if_false, List.map_cons, List.mem_cons, List.mem_map, ih]
        tauto

theorem mem_diskUsages (usage : String → Except String UsageStat) :
    ∀ (parts : List PartitionStat) (dev : List (String × UsageStat)) (e : String × UsageStat),
      e ∈ diskUsages usage parts dev →
        e ∈ dev ∨ ∃ p ∈ parts, p.Device = e.1 ∧ usage p.Mountpoint = .ok e.2
  | [], dev, e, h => Or.inl (by simpa [diskUsages] using h)
  | p :: rest, dev, e, h => by
      simp only [diskUsages] at h
      cases hu : usage p.Mountpoint with
      | error err =>
          rw [hu] at h
          rcases mem_diskUsages usage rest dev e h with h | ⟨q, hq, hd⟩
          · exact Or.inl h
          · exact Or.inr ⟨q, List.mem_cons_of_mem _ hq, hd⟩
      | ok u =>
          rw [hu] at h
          rcases mem_diskUsages usage rest _ e h with h | ⟨q, hq, hd⟩
          · rcases mem_mapAssign _ _ _ _ h with h | h
            · subst h
              exact Or.inr ⟨p, List.mem_cons_self _ _, rfl, hu⟩
            · exact Or.inl h
          · exact Or.inr ⟨q, List.mem_cons_of_mem _ hq, hd⟩

theorem keys_diskUsages (usage : String → Except String UsageStat) :
    ∀ (parts : List PartitionStat) (dev : List (String × UsageStat)) (d : String),
      d ∈ (diskUsages usage parts dev).map Prod.fst ↔
        d ∈ dev.map Prod.fst ∨ ∃ p ∈ parts, p.Device = d ∧ ∃ u, usage p.Mountpoint = .ok u
  | [], dev, d => by simp [diskUsages]
  | p :: rest, dev, d => by
      simp only [diskUsages]
      cases hu : usage p.Mountpoint with
      | error err =>
          simp only [keys_diskUsages usage rest dev d, List.mem_cons, exists_eq_or_imp, hu]
          simp
      | ok u =>
          simp only [keys_diskUsages usage rest _ d, keys_mapAssign, List.mem_cons,
            exists_eq_or_imp, hu]
          constructor
          · rintro ((h | h) | h)
            · exact Or.inr (Or.inl ⟨h.symm, u, rfl⟩)
            · exact Or.inl h
            · exact Or.inr (Or.inr h)
          · rintro (h | ⟨h, _⟩ | h)
            · exact Or.inl (Or.inr h)
            · exact Or.inl (Or.inl h.symm)
            · exact Or.inr h

/-! ## C10 -/

/-- C10.  Let `A` be the strings of `options["names"]`, `dev` the usages read
(a device is in `dev` iff `disk.Usage` succeeded for one of its partitions),
and call a device path allowed when `A` is empty or its trailing component is
in `A`, a counter name allowed when `A` is empty or the name is in `A`.
`Disk.scrape` returns `nil`; it publishes the usage records of every allowed
entry of `dev` and, at level 3 and above, the IO records of every allowed entry
of `counters`; and every record it publishes is a usage record of an allowed
entry of `dev` or, at level 3 and above, an IO record of an allowed entry of
`counters`. -/
theorem disk_entity_filtering (period level : Nat) (opts : GoValue)
    (snap : List MetricCollected) (counters : List (String × DiskIOCountersStat))
    (parts : List PartitionStat) (usage : String → Except String UsageStat)
    (o1 o2 o3 : RangeOrder) :
    let A := optionStrings "names" opts
    let c : Disk := ⟨snap, level, period, (NewDisk period level opts).allowedDisks⟩
    let dev := diskUsages usage parts []
    ∃ s : Disk,
      (NewDisk period level opts).allowedDisks = A ∧
      c.scrape (.ok counters) (.ok parts) usage o1 o2 o3 = .ok s ∧
      (∀ d : String, (∃ u, (d, u) ∈ dev) ↔
        ∃ p ∈ parts, p.Device = d ∧ ∃ u, usage p.Mountpoint = .ok u) ∧
      (∀ d u, (d, u) ∈ dev → (A = [] ∨ pathSplitFile d ∈ A) →
        ∀ r ∈ diskFsRecords level d u, r ∈ s.Metrics.1) ∧
      (∀ n st, (n, st) ∈ counters → (A = [] ∨ n ∈ A) → 2 < level →
        ∀ r ∈ c.ioRecords n st, r ∈ s.Metrics.1) ∧
      (∀ r ∈ s.Metrics.1,
        (∃ d u, (d, u) ∈ dev ∧ (A = [] ∨ pathSplitFile d ∈ A) ∧ r ∈ diskFsRecords level d u) ∨
        (2 < level ∧ ∃ n st, (n, st) ∈ counters ∧ (A = [] ∨ n ∈ A) ∧ r ∈ c.ioRecords n st)) := by
  intro A c dev
  have hA : c.allowedDisks = A := rfl
  have hlv : c.level = level := rfl
  refine ⟨_, rfl, rfl, ?_, ?_, ?_, ?_⟩
  · intro d
    have h := keys_diskUsages usage parts [] d
    simp only [List.map_nil, List.not_mem_nil, false_or, List.mem_map, Prod.exists,
      exists_and_right, exists_eq_right] at h
    exact h
  · intro d u hd hok r hr
    simp only [Disk.Metrics, disk_records_eq, hlv, List.mem_append, List.mem_flatMap,
      Disk.mem_allowedPaths, hA]
    simp only [diskFsRecords, List.mem_append] at hr
    rcases hr with hr | hr
    · exact Or.inl (Or.inl ⟨(d, u), ⟨hd, hok⟩, hr⟩)
    · by_cases h1 : 1 < level
      · simp only [h1, if_true] at hr
        refine Or.inl (Or.inr ?_)
        simp only [h1, if_true, List.mem_flatMap, Disk.mem_allowedPaths, hA]
        exact ⟨(d, u), ⟨hd, hok⟩, hr⟩
      · simp [h1] at hr
  · intro n st hn hok h2 r hr
    simp only [Disk.Metrics, disk_records_eq, hlv, List.mem_append, h2, if_true,
      List.mem_flatMap, Disk.mem_allowedNames, hA]
    exact Or.inr ⟨(n, st), ⟨hn, hok⟩, hr⟩
  · intro r hr
    simp only [Disk.Metrics, disk_records_eq, hlv, List.mem_append, List.mem_flatMap,
      Disk.mem_allowedPaths, hA] at hr
    rcases hr with (⟨e, ⟨he, hok⟩, hr⟩ | hr) | hr
    · refine Or.inl ⟨e.1, e.2, he, hok, ?_⟩
      simp only [diskFsRecords, List.mem_append]
      exact Or.inl hr
    · by_cases h1 : 1 < level
      · simp only [h1, if_true, List.mem_flatMap, Disk.mem_allowedPaths, hA] at hr
        obtain ⟨e, ⟨he, hok⟩, hr⟩ := hr
        refine Or.inl ⟨e.1, e.2, he, hok, ?_⟩
        simp only [diskFsRecords, List.mem_append, h1, if_true]
        exact Or.inr hr
      · simp [h1] at hr
    · by_cases h2 : 2 < level
      · simp only [h2, if_true, List.mem_flatMap, Disk.mem_allowedNames, hA] at hr
        obtain ⟨e, ⟨he, hok⟩, hr⟩ := hr
        exact Or.inr ⟨h2, e.1, e.2, he, hok, hr⟩
      · simp [h2] at hr

/-- C10, the case of the spec: allow-list `sda`, devices `/dev/sda` and
`/dev/sdb`, counters `sda` and `sdb`, level 5.  The snapshot holds the fourteen
records of `sda` and none of `sdb`. -/
theorem disk_entity_filtering_witness :
    ∃ s : Disk,
      (NewDisk 1000 5 (.map [("names", .list [.str "sda"])])).scrape
          (.ok [("sda", ioSample), ("sdb", ioSample)])
          (.ok [⟨"/dev/sda", "/"⟩, ⟨"/dev/sdb", "/home"⟩])
          (fun m => .ok (usageAt m)) .stored .backwards .stored = .ok s ∧
      s.Metrics.1 =
        [ ⟨"os.disk.fs\x7bdisk=/dev/sda\x7d\x7bmount=/\x7d", "50.000000"⟩,
          ⟨"os.disk.fs.used\x7bdisk=/dev/sda\x7d\x7bmount=/\x7d", "50"⟩,
          ⟨"os.disk.fs.total\x7bdisk=/dev/sda\x7d\x7bmount=/\x7d", "100"⟩,
          ⟨"os.disk.fs.inodes.used\x7bdisk=/dev/sda\x7d\x7bmount=/\x7d", "5"⟩,
          ⟨"os.disk.fs.inodes.total\x7bdisk=/dev/sda\x7d\x7bmount=/\x7d", "10"⟩,
          ⟨"os.disk.fs.bytes.read\x7bname=sda\x7d", "3"⟩,
          ⟨"os.disk.fs.bytes.write\x7bname=sda\x7d", "4"⟩,
          ⟨"os.disk.fs.io.read\x7bname=sda\x7d", "1"⟩,
          ⟨"os.disk.fs.io.write\x7bname=sda\x7d", "2"⟩,
          ⟨"os.disk.fs.io.read.ms\x7bname=sda\x7d", "5"⟩,
          ⟨"os.disk.fs.io.write.ms\x7bname=sda\x7d", "6"⟩,
          ⟨"os.disk.fs.io\x7bname=sda\x7d", "7"⟩,
          ⟨"os.disk.fs.io.ms\x7bname=sda\x7d", "8"⟩,
          ⟨"os.disk.fs.io.weighted.ms\x7bname=sda\x7d", "9"⟩ ] ∧
      (∀ r ∈ s.Metrics.1,
        (∃ d u, (d, u) ∈ diskUsages (fun m => .ok (usageAt m))
              [⟨"/dev/sda", "/"⟩, ⟨"/dev/sdb", "/home"⟩] [] ∧
            pathSplitFile d ∈ ["sda"] ∧ r ∈ diskFsRecords 5 d u) ∨
        (∃ n st, (n, st) ∈ [("sda", ioSample), ("sdb", ioSample)] ∧ n ∈ ["sda"] ∧
            r ∈ (NewDisk 1000 5 (.map [("names", .list [.str "sda"])])).ioRecords n st)) := by
  obtain ⟨s, hA, hs, _, _, _, hsound⟩ :=
    disk_entity_filtering 1000 5 (.map [("names", .list [.str "sda"])]) []
      [("sda", ioSample), ("sdb", ioSample)] [⟨"/dev/sda", "/"⟩, ⟨"/dev/sdb", "/home"⟩]
      (fun m => .ok (usageAt m)) .stored .backwards .stored
  refine ⟨s, hs, ?_, ?_⟩
  · have h := hs.symm
    injection h with h
    subst h
    with_unfolding_all decide
  · intro r hr
    have hne : optionStrings "names" (.map [("names", .list [.str "sda"])]) = ["sda"] := by
      decide
    rcases hsound r hr with ⟨d, u, hd, hok, hrec⟩ | ⟨_, n, st, hn, hok, hrec⟩
    · rw [hne] at hok
      exact Or.inl ⟨d, u, hd, hok.resolve_left (by simp), hrec⟩
    · rw [hne] at hok
      exact Or.inr ⟨n, st, hn, hok.resolve_left (by simp), hrec⟩

/-! ## Lemmas on the names of `Net.scrape` -/

theorem stringInSlice_iff (str : String) :
    ∀ list : List String, stringInSlice str list = true ↔ str ∈ list
  | [] => by simp [stringInSlice]
  | v :: rest => by
      have ih := stringInSlice_iff str rest
      by_cases h : v = str
      · simp [stringInSlice, h]
      · have h' : ¬ str = v := fun e => h e.symm
        simp [stringInSlice, h, h', ih]

theorem Net.skips_eq_false (c : Net) (cnt : NetIOCountersStat) :
    c.skips cnt = false ↔
      cnt.Name ≠ "lo" ∧ (c.interfaces ≠ [] → cnt.Name ∈ c.interfaces) := by
  by_cases hlo : cnt.Name = "lo"
  · simp [Net.skips, hlo]
  · by_cases hne : c.interfaces = []
    · simp [Net.skips, hlo, hne]
    · by_cases hin : cnt.Name ∈ c.interfaces
      · simp [Net.skips, hlo, hne, hin, (stringInSlice_iff _ _).mpr hin]
      · have : stringInSlice cnt.Name c.interfaces = false := by
          cases h : stringInSlice cnt.Name c.interfaces with
          | false => rfl
          | true => exact absurd ((stringInSlice_iff _ _).mp h) hin
        simp [Net.skips, hlo, hne, hin, this]

theorem Net.mem_allowed (c : Net) (counters : List NetIOCountersStat) (cnt : NetIOCountersStat) :
    cnt ∈ c.allowed counters ↔
      cnt ∈ counters ∧ cnt.Name ≠ "lo" ∧ (c.interfaces ≠ [] → cnt.Name ∈ c.interfaces) := by
  simp only [Net.allowed, List.mem_filter, Bool.not_eq_true', Net.skips_eq_false]

/-- A text that ends like a name of the interface `lo` is built from `lo`. -/
theorem chars_eq_lo (xs : List Char) (d d' : String) (hd : d ∈ netDirections)
    (hd' : d' ∈ netDirections)
    (h : xs ++ (",direction=".data ++ (d.data ++ "\x7d".data)) =
      "lo".data ++ (",direction=".data ++ (d'.data ++ "\x7d".data))) :
    xs = "lo".data := by
  simp only [netDirections, List.mem_cons, List.mem_singleton, List.not_mem_nil, or_false]
    at hd hd'
  have hl := congrArg List.length h
  rcases hd with rfl | rfl <;> rcases hd' with rfl | rfl <;>
    rcases xs with _ | ⟨a, _ | ⟨b, _ | ⟨e, _ | ⟨f, t⟩⟩⟩⟩ <;>
    simp at h hl <;> first | omega | simp [h]

/-- Two texts cut at the first occurrence of `c` agree on both sides of it. -/
theorem split_at_first (c : Char) :
    ∀ (a b x y : List Char), c ∉ a → c ∉ b → a ++ c :: x = b ++ c :: y → a = b ∧ x = y
  | [], [], x, y, _, _, h => by simpa using h
  | [], e :: b, x, y, _, hb, h => by
      simp only [List.nil_append, List.cons_append, List.cons.injEq] at h
      exact absurd (h.1 ▸ List.mem_cons_self _ _) hb
  | e :: a, [], x, y, ha, _, h => by
      simp only [List.nil_append, List.cons_append, List.cons.injEq] at h
      exact absurd (h.1 ▸ List.mem_cons_self _ _) ha
  | e :: a, f :: b, x, y, ha, hb, h => by
      simp only [List.cons_append, List.cons.injEq] at h
      have ih := split_at_first c a b x y (fun m => ha (List.mem_cons_of_mem _ m))
        (fun m => hb (List.mem_cons_of_mem _ m)) h.2
      exact ⟨by rw [h.1, ih.1], ih.2⟩

theorem netIfaceName_data (kind name dir : String) :
    (netIfaceName kind name dir).data =
      ("os.net.".data ++ kind.data) ++
        '\x7b' :: ("iface=".data ++ (name.data ++
          (",direction=".data ++ (dir.data ++ "\x7d".data)))) := by
  simp only [netIfaceName, String.data_append, List.append_assoc]
  rfl

theorem netKinds_no_brace (kind : String) (h : kind ∈ netKinds) :
    '\x7b' ∉ "os.net.".data ++ kind.data := by
  simp only [netKinds, List.mem_cons, List.mem_singleton, List.not_mem_nil, or_false] at h
  rcases h with rfl | rfl | rfl | rfl <;> decide

/-- A per-interface name of the interface `lo` is only built from `lo`. -/
theorem netIfaceName_eq_lo (kind kind' dir dir' name : String) (hk : kind ∈ netKinds)
    (hk' : kind' ∈ netKinds) (hd : dir ∈ netDirections) (hd' : dir' ∈ netDirections)
    (h : netIfaceName kind name dir = netIfaceName kind' "lo" dir') : name = "lo" := by
  have h' := congrArg String.data h
  rw [netIfaceName_data, netIfaceName_data] at h'
  have h2 := (split_at_first _ _ _ _ _ (netKinds_no_brace kind hk)
    (netKinds_no_brace kind' hk') h').2
  have h3 := List.append_cancel_left h2
  exact String.ext (chars_eq_lo name.data dir dir' hd hd' h3)

theorem netIfaceName_ne_aggregate (kind name dir dir' : String) (hk : kind ∈ netKinds) :
    netIfaceName kind name dir ≠ "os.net.bytes\x7bdirection=" ++ dir' ++ "\x7d" := by
  intro h
  have h' := congrArg String.data h
  rw [netIfaceName_data] at h'
  have e : ("os.net.bytes\x7bdirection=" ++ dir' ++ "\x7d").data =
      "os.net.bytes".data ++ '\x7b' :: ("direction=".data ++ (dir'.data ++ "\x7d".data)) := by
    simp only [String.data_append, List.append_assoc]
    rfl
  rw [e] at h'
  have h2 := (split_at_first _ _ _ _ _ (netKinds_no_brace kind hk) (by decide) h').2
  simp at h2

/-! ## Lemmas on `Net.scrape` as a function of the allowed counters -/

/-- The call of `Net.scrape` on a successful provider result, for every period. -/
theorem net_scrape_eq (c : Net) (counters : List NetIOCountersStat) :
    c.scrape (.ok counters) =
      if c.period / 1000 = 0 then .panic
      else .ok { c with MetricsCollected :=
              (c.records counters
                ((((c.allowed counters).map (·.BytesRecv)).sum % 2 ^ 64) / (c.period / 1000))
                ((((c.allowed counters).map (·.BytesSent)).sum % 2 ^ 64) / (c.period / 1000))) } := by
  have hs := Net.sums_eq c counters (0, 0) (by norm_num) (by norm_num)
  simp only [Nat.zero_add] at hs
  simp only [Net.scrape, hs]

theorem Net.allowed_idem (c : Net) (counters : List NetIOCountersStat) :
    c.allowed (c.allowed counters) = c.allowed counters := by
  simp [Net.allowed, List.filter_filter]

theorem Net.allowed_filter_lo (c : Net) (counters : List NetIOCountersStat) :
    c.allowed (counters.filter (fun x => x.Name ≠ "lo")) = c.allowed counters := by
  simp only [Net.allowed, List.filter_filter]
  apply List.filter_congr
  intro x _
  by_cases h : x.Name = "lo"
  · simp [Net.skips, h]
  · simp [h]

/-- The outcome of `Net.scrape` is determined by the allowed counters. -/
theorem net_scrape_congr (c : Net) (counters counters' : List NetIOCountersStat)
    (h : c.allowed counters = c.allowed counters') :
    c.scrape (.ok counters) = c.scrape (.ok counters') := by
  simp only [net_scrape_eq, net_records_eq, h]

/-- The names published by `Net.scrape` are the two aggregate names or
per-interface names of allowed counters. -/
theorem net_names_cases (c : Net) (counters : List NetIOCountersStat) (a b : Nat) (n : String)
    (hn : n ∈ names (c.records counters a b)) :
    (n = "os.net.bytes\x7bdirection=" ++ "in" ++ "\x7d" ∨
      n = "os.net.bytes\x7bdirection=" ++ "out" ++ "\x7d") ∨
    ∃ cnt ∈ c.allowed counters, ∃ kind ∈ netKinds, ∃ dir ∈ netDirections,
      n = netIfaceName kind cnt.Name dir := by
  simp only [names, List.mem_map] at hn
  obtain ⟨r, hr, rfl⟩ := hn
  rw [net_records_eq, List.mem_append, List.mem_append] at hr
  rcases hr with (hr | hr) | hr
  · split at hr
    · simp only [List.mem_cons, List.mem_singleton, List.not_mem_nil, or_false] at hr
      rcases hr with rfl | rfl
      · exact Or.inl (Or.inl rfl)
      · exact Or.inl (Or.inr rfl)
    · simp at hr
  · split at hr
    · obtain ⟨cnt, hc, hr⟩ := List.mem_flatMap.mp hr
      simp only [netBytesRecords, List.mem_cons, List.mem_singleton, List.not_mem_nil,
        or_false] at hr
      rcases hr with rfl | rfl
      · exact Or.inr ⟨cnt, hc, "bytes", by simp [netKinds], "in", by simp [netDirections], rfl⟩
      · exact Or.inr ⟨cnt, hc, "bytes", by simp [netKinds], "out", by simp [netDirections], rfl⟩
    · simp at hr
  · split at hr
    · obtain ⟨cnt, hc, hr⟩ := List.mem_flatMap.mp hr
      simp only [netDetailRecords, List.mem_cons, List.mem_singleton, List.not_mem_nil,
        or_false] at hr
      rcases hr with rfl | rfl | rfl | rfl | rfl | rfl
      · exact Or.inr ⟨cnt, hc, "packets", by simp [netKinds], "in", by simp [netDirections], rfl⟩
      · exact Or.inr ⟨cnt, hc, "packets", by simp [netKinds], "out", by simp [netDirections], rfl⟩
      · exact Or.inr ⟨cnt, hc, "errs", by simp [netKinds], "in", by simp [netDirections], rfl⟩
      · exact Or.inr ⟨cnt, hc, "errs", by simp [netKinds], "out", by simp [netDirections], rfl⟩
      · exact Or.inr ⟨cnt, hc, "dropped", by simp [netKinds], "in", by simp [netDirections], rfl⟩
      · exact Or.inr ⟨cnt, hc, "dropped", by simp [netKinds], "out", by simp [netDirections], rfl⟩
    · simp at hr

/-! ## C11 -/

/-- C11.  `Net.scrape` returns whenever the period is at least 1000 ms; when it
returns, no published record has a per-interface name of the interface `lo`,
whatever the filter and the level; its outcome is the same for two lists of
counters that differ only in their entries named `lo`; and it is determined by
the counters that are not named `lo` and, when the filter is not empty, are
named in the filter. -/
theorem net_loopback_excluded (c : Net) (counters : List NetIOCountersStat) :
    (1000 ≤ c.period → ∃ s : Net, c.scrape (.ok counters) = .ok s) ∧
    (∀ s : Net, c.scrape (.ok counters) = .ok s →
      ∀ kind ∈ netKinds, ∀ dir ∈ netDirections,
        netIfaceName kind "lo" dir ∉ names s.Metrics.1) ∧
    (∀ counters' : List NetIOCountersStat,
      counters.filter (fun x => x.Name ≠ "lo") = counters'.filter (fun x => x.Name ≠ "lo") →
        c.scrape (.ok counters) = c.scrape (.ok counters')) ∧
    (∀ cnt ∈ c.allowed counters,
      cnt ∈ counters ∧ cnt.Name ≠ "lo" ∧ (c.interfaces ≠ [] → cnt.Name ∈ c.interfaces)) ∧
    c.scrape (.ok counters) = c.scrape (.ok (c.allowed counters)) := by
  refine ⟨fun hp => ⟨_, net_scrape_ok c counters hp⟩, ?_, ?_, ?_, ?_⟩
  · intro s hs kind hk dir hd hmem
    rw [net_scrape_eq] at hs
    split at hs
    · cases hs
    · injection hs with hs
      subst hs
      rcases net_names_cases c counters _ _ _ hmem with (h | h) | ⟨cnt, hc, k, hk', d, hd', h⟩
      · exact netIfaceName_ne_aggregate kind "lo" dir "in" hk h
      · exact netIfaceName_ne_aggregate kind "lo" dir "out" hk h
      · exact ((Net.mem_allowed c counters cnt).mp hc).2.1
          (netIfaceName_eq_lo k kind d dir cnt.Name hk' hk hd' hd h.symm)
  · intro counters' h
    apply net_scrape_congr
    rw [← Net.allowed_filter_lo c counters, ← Net.allowed_filter_lo c counters', h]
  · intro cnt hc
    exact (Net.mem_allowed c counters cnt).mp hc
  · exact net_scrape_congr c counters _ (Net.allowed_idem c counters).symm

/-! ## C16 -/

/-- C16, counterexample.  Period 500 ms, level 2, no filter and the interface
`eth0`, which is allowed and not the loopback: `Net.scrape` panics on the
division by `500 / 1000 = 0` and publishes nothing, the snapshot staying
empty. -/
theorem net_interface_tiers_counterexample :
    2 ≤ (NewNet 500 2 .null).level ∧
    ifaceRecv "eth0" 6000 ∈ (NewNet 500 2 .null).allowed [ifaceRecv "eth0" 6000] ∧
    (NewNet 500 2 .null).scrape (.ok [ifaceRecv "eth0" 6000]) = .panic ∧
    ((NewNet 500 2 .null).scrape (.ok [ifaceRecv "eth0" 6000])).state? = none ∧
    (NewNet 500 2 .null).Metrics.1 = [] := by
  refine ⟨by decide, by decide, by decide, by decide, rfl⟩

/-- C16, as amended.  At a level `>= 2` and a period of at least 1000 ms,
`Net.scrape` returns and the snapshot is, for the allowed non-loopback
interfaces in the order of the provider's list, the two byte records carrying
the raw `BytesRecv` and `BytesSent` counters as decimal text, followed at a
level `>= 3` by the six records (packets, errs, dropped, each in and out)
carrying the corresponding raw counters: two records per interface at level 2,
eight at level 3 and above. -/
theorem net_interface_tiers (c : Net) (counters : List NetIOCountersStat)
    (hL : 2 ≤ c.level) (hp : 1000 ≤ c.period) :
    ∃ s : Net, c.scrape (.ok counters) = .ok s ∧
      s.Metrics.1 =
        (c.allowed counters).flatMap netBytesRecords ++
          (if 3 ≤ c.level then (c.allowed counters).flatMap netDetailRecords else []) ∧
      s.Metrics.1.length = (if 3 ≤ c.level then 8 else 2) * (c.allowed counters).length ∧
      (∀ cnt ∈ counters, cnt.Name ≠ "lo" → (c.interfaces = [] ∨ cnt.Name ∈ c.interfaces) →
        (⟨netIfaceName "bytes" cnt.Name "in", FormatUint cnt.BytesRecv⟩ ∈ s.Metrics.1 ∧
          ⟨netIfaceName "bytes" cnt.Name "out", FormatUint cnt.BytesSent⟩ ∈ s.Metrics.1) ∧
        (3 ≤ c.level →
          ∀ r ∈ [ (⟨netIfaceName "packets" cnt.Name "in", FormatUint cnt.PacketsRecv⟩ :
                    MetricCollected),
                  ⟨netIfaceName "packets" cnt.Name "out", FormatUint cnt.PacketsSent⟩,
                  ⟨netIfaceName "errs" cnt.Name "in", FormatUint cnt.Errin⟩,
                  ⟨netIfaceName "errs" cnt.Name "out", FormatUint cnt.Errout⟩,
                  ⟨netIfaceName "dropped" cnt.Name "in", FormatUint cnt.Dropin⟩,
                  ⟨netIfaceName "dropped" cnt.Name "out", FormatUint cnt.Dropout⟩ ],
            r ∈ s.Metrics.1)) := by
  refine ⟨_, net_scrape_ok c counters hp, ?_⟩
  have h1 : ¬ c.level = 1 := by omega
  have h2 : 1 < c.level := by omega
  have hrec : ∀ a b, c.records counters a b =
      (c.allowed counters).flatMap netBytesRecords ++
        (if 3 ≤ c.level then (c.allowed counters).flatMap netDetailRecords else []) := by
    intro a b
    rw [net_records_eq]
    by_cases h3 : 2 < c.level
    · have h3' : 3 ≤ c.level := h3
      simp [h1, h2, h3, h3']
    · have h3' : ¬ 3 ≤ c.level := h3
      simp [h1, h2, h3, h3']
  simp only [Net.Metrics, hrec]
  refine ⟨trivial, ?_, ?_⟩
  · by_cases h3 : 3 ≤ c.level
    · simp only [h3, if_true, List.length_append, netBytes_length, netDetail_length]
      omega
    · simp only [h3, if_false, List.length_append, netBytes_length, List.length_nil]
      omega
  · intro cnt hc hlo hf
    have hal : cnt ∈ c.allowed counters :=
      (Net.mem_allowed c counters cnt).mpr
        ⟨hc, hlo, fun hne => hf.resolve_left hne⟩
    refine ⟨⟨?_, ?_⟩, ?_⟩
    · exact List.mem_append_left _
        (List.mem_flatMap.mpr ⟨cnt, hal, by simp [netBytesRecords]⟩)
    · exact List.mem_append_left _
        (List.mem_flatMap.mpr ⟨cnt, hal, by simp [netBytesRecords]⟩)
    · intro h3 r hr
      simp only [h3, if_true]
      exact List.mem_append_right _ (List.mem_flatMap.mpr ⟨cnt, hal, hr⟩)

/-- C16, the amended statement at level 3, period 60000 ms, no filter and the
interfaces `lo` and `eth0`: eight records, all of `eth0`. -/
theorem net_interface_tiers_witness :
    2 ≤ (NewNet 60000 3 .null).level ∧ 1000 ≤ (NewNet 60000 3 .null).period ∧
    (NewNet 60000 3 .null).scrape (.ok [ifaceRecv "lo" 7, ifaceRecv "eth0" 6000]) =
      .ok { NewNet 60000 3 .null with MetricsCollected :=
        [ ⟨"os.net.bytes\x7biface=eth0,direction=in\x7d", "6000"⟩,
          ⟨"os.net.bytes\x7biface=eth0,direction=out\x7d", "0"⟩,
          ⟨"os.net.packets\x7biface=eth0,direction=in\x7d", "0"⟩,
          ⟨"os.net.packets\x7biface=eth0,direction=out\x7d", "0"⟩,
          ⟨"os.net.errs\x7biface=eth0,direction=in\x7d", "0"⟩,
          ⟨"os.net.errs\x7biface=eth0,direction=out\x7d", "0"⟩,
          ⟨"os.net.dropped\x7biface=eth0,direction=in\x7d", "0"⟩,
          ⟨"os.net.dropped\x7biface=eth0,direction=out\x7d", "0"⟩ ] } ∧
    ∃ s : Net,
      (NewNet 60000 3 .null).scrape (.ok [ifaceRecv "lo" 7, ifaceRecv "eth0" 6000]) = .ok s ∧
      s.Metrics.1.length =
        (if 3 ≤ (NewNet 60000 3 .null).level then 8 else 2) *
          ((NewNet 60000 3 .null).allowed [ifaceRecv "lo" 7, ifaceRecv "eth0" 6000]).length :=
  match net_interface_tiers (NewNet 60000 3 .null) [ifaceRecv "lo" 7, ifaceRecv "eth0" 6000]
    (by decide) (by decide) with
  | ⟨s, hs, _, hl, _⟩ => ⟨by decide, by decide, by decide, s, hs, hl⟩

/-! ## Lemmas on the snapshot of `Disk.scrape` -/

theorem disk_mem_records (c : Disk) (counters : List (String × DiskIOCountersStat))
    (dev : List (String × UsageStat)) (o1 o2 o3 : RangeOrder) (r : MetricCollected) :
    r ∈ c.records counters dev o1 o2 o3 ↔
      (∃ e ∈ dev, (c.allowedDisks = [] ∨ pathSplitFile e.1 ∈ c.allowedDisks) ∧
          r ∈ diskFsRecords c.level e.1 e.2) ∨
      (2 < c.level ∧ ∃ e ∈ counters, (c.allowedDisks = [] ∨ e.1 ∈ c.allowedDisks) ∧
          r ∈ c.ioRecords e.1 e.2) := by
  rw [disk_records_eq, List.mem_append, List.mem_append]
  simp only [diskFsRecords, List.mem_append]
  constructor
  · rintro ((h | h) | h)
    · obtain ⟨e, he, hr⟩ := List.mem_flatMap.mp h
      rw [Disk.mem_allowedPaths] at he
      exact Or.inl ⟨e, he.1, he.2, Or.inl hr⟩
    · by_cases h1 : 1 < c.level
      · rw [if_pos h1] at h
        obtain ⟨e, he, hr⟩ := List.mem_flatMap.mp h
        rw [Disk.mem_allowedPaths] at he
        exact Or.inl ⟨e, he.1, he.2, Or.inr (by rw [if_pos h1]; exact hr)⟩
      · rw [if_neg h1] at h
        cases h
    · by_cases h2 : 2 < c.level
      · rw [if_pos h2] at h
        obtain ⟨e, he, hr⟩ := List.mem_flatMap.mp h
        rw [Disk.mem_allowedNames] at he
        exact Or.inr ⟨h2, e, he.1, he.2, hr⟩
      · rw [if_neg h2] at h
        cases h
  · rintro (⟨e, he, hok, hr | hr⟩ | ⟨h2, e, he, hok, hr⟩)
    · exact Or.inl (Or.inl (List.mem_flatMap.mpr
        ⟨e, (Disk.mem_allowedPaths c o1 dev e).mpr ⟨he, hok⟩, hr⟩))
    · by_cases h1 : 1 < c.level
      · rw [if_pos h1] at hr
        refine Or.inl (Or.inr ?_)
        rw [if_pos h1]
        exact List.mem_flatMap.mpr ⟨e, (Disk.mem_allowedPaths c o2 dev e).mpr ⟨he, hok⟩, hr⟩
      · rw [if_neg h1] at hr
        cases hr
    · refine Or.inr ?_
      rw [if_pos h2]
      exact List.mem_flatMap.mpr ⟨e, (Disk.mem_allowedNames c o3 counters e).mpr ⟨he, hok⟩, hr⟩

theorem Disk.ioRecords_eq_take (c : Disk) (name : String) (stats : DiskIOCountersStat) :
    c.ioRecords name stats = (diskIoRecordsFull name stats).take (diskIoCount c.level) := by
  by_cases h4 : 4 < c.level
  · have h3 : 3 < c.level := by omega
    simp [Disk.ioRecords, diskIoRecordsFull, diskIoCount, h3, h4]
  · by_cases h3 : 3 < c.level
    · simp [Disk.ioRecords, diskIoRecordsFull, diskIoCount, h3, h4]
    · simp [Disk.ioRecords, diskIoRecordsFull, diskIoCount, h3, h4]

theorem diskIoCount_mono (L : Nat) : diskIoCount L ≤ diskIoCount (L + 1) := by
  simp only [diskIoCount]
  split_ifs <;> omega

theorem diskFsRecords_mono (L : Nat) (d : String) (u : UsageStat) (r : MetricCollected)
    (h : r ∈ diskFsRecords L d u) : r ∈ diskFsRecords (L + 1) d u := by
  simp only [diskFsRecords, List.mem_append] at h ⊢
  rcases h with h | h
  · exact Or.inl h
  · by_cases h1 : 1 < L
    · rw [if_pos h1] at h
      rw [if_pos (by omega)]
      exact Or.inr h
    · rw [if_neg h1] at h
      cases h

theorem Disk.ioRecords_mono (snap snap' : List MetricCollected) (L period : Nat)
    (A : List String) (name : String) (stats : DiskIOCountersStat) (r : MetricCollected)
    (h : r ∈ (Disk.mk snap L period A).ioRecords name stats) :
    r ∈ (Disk.mk snap' (L + 1) period A).ioRecords name stats := by
  rw [Disk.ioRecords_eq_take] at h ⊢
  exact List.take_subset_take_left _ (diskIoCount_mono L) h

/-- The call of `Disk.scrape` returns whenever the two whole-cycle provider calls
succeed. -/
theorem disk_scrape_ok (c : Disk) (counters : List (String × DiskIOCountersStat))
    (parts : List PartitionStat) (usage : String → Except String UsageStat)
    (o1 o2 o3 : RangeOrder) :
    c.scrape (.ok counters) (.ok parts) usage o1 o2 o3 =
      .ok { c with MetricsCollected :=
              (c.records counters (diskUsages usage parts []) o1 o2 o3) } := rfl

/-! ## C13 -/

/-- C13.  For Disk (every allow-list, every order of map iteration), Memory and
Load, on a fixed raw input and at every level `L >= 1`, every record (name and
value) published by `scrape` at level `L` is published at level `L + 1`; in
particular the names of level `L` are among the names of level `L + 1`. -/
theorem threshold_level_monotone (L : Nat) (_hL : 1 ≤ L) :
    (∀ (snap snap' : List MetricCollected) (period : Nat) (A : List String)
        (counters : List (String × DiskIOCountersStat)) (parts : List PartitionStat)
        (usage : String → Except String UsageStat) (o1 o2 o3 o1' o2' o3' : RangeOrder),
      ∃ s s' : Disk,
        Disk.scrape ⟨snap, L, period, A⟩ (.ok counters) (.ok parts) usage o1 o2 o3 = .ok s ∧
        Disk.scrape ⟨snap', L + 1, period, A⟩ (.ok counters) (.ok parts) usage o1' o2' o3'
          = .ok s' ∧
        (∀ r ∈ s.Metrics.1, r ∈ s'.Metrics.1) ∧
        names s.Metrics.1 ⊆ names s'.Metrics.1) ∧
    (∀ (snap snap' : List MetricCollected) (virt : VirtualMemoryStat) (swap : SwapMemoryStat),
      ∃ s s' : Memory,
        Memory.scrape ⟨snap, L⟩ (.ok virt) (.ok swap) = .ok s ∧
        Memory.scrape ⟨snap', L + 1⟩ (.ok virt) (.ok swap) = .ok s' ∧
        (∀ r ∈ s.Metrics.1, r ∈ s'.Metrics.1) ∧
        names s.Metrics.1 ⊆ names s'.Metrics.1) ∧
    (∀ (snap snap' : List MetricCollected) (avg : AvgStat),
      ∃ s s' : Load,
        Load.scrape ⟨snap, L⟩ (.ok avg) = .ok s ∧
        Load.scrape ⟨snap', L + 1⟩ (.ok avg) = .ok s' ∧
        (∀ r ∈ s.Metrics.1, r ∈ s'.Metrics.1) ∧
        names s.Metrics.1 ⊆ names s'.Metrics.1) := by
  have hnames : ∀ l l' : List MetricCollected, (∀ r ∈ l, r ∈ l') → names l ⊆ names l' := by
    intro l l' h n hn
    obtain ⟨r, hr, rfl⟩ := List.mem_map.mp hn
    exact List.mem_map.mpr ⟨r, h r hr, rfl⟩
  refine ⟨?_, ?_, ?_⟩
  · intro snap snap' period A counters parts usage o1 o2 o3 o1' o2' o3'
    have hsub : ∀ r ∈ (Disk.mk snap L period A).records counters
          (diskUsages usage parts []) o1 o2 o3,
        r ∈ (Disk.mk snap' (L + 1) period A).records counters
          (diskUsages usage parts []) o1' o2' o3' := by
      intro r hr
      rw [disk_mem_records] at hr ⊢
      rcases hr with ⟨e, he, hok, hr⟩ | ⟨h2, e, he, hok, hr⟩
      · exact Or.inl ⟨e, he, hok, diskFsRecords_mono L e.1 e.2 r hr⟩
      · exact Or.inr ⟨Nat.lt_succ_of_lt h2, e, he, hok,
          Disk.ioRecords_mono snap snap' L period A e.1 e.2 r hr⟩
    exact ⟨_, _, disk_scrape_ok _ _ _ _ _ _ _, disk_scrape_ok _ _ _ _ _ _ _, hsub,
      hnames _ _ hsub⟩
  · intro snap snap' virt swap
    have hsub : ∀ r ∈ (Memory.mk snap L).records virt swap,
        r ∈ (Memory.mk snap' (L + 1)).records virt swap := by
      intro r hr
      have h1 : 1 < L + 1 := by omega
      simp only [Memory.records, h1, if_true]
      by_cases h : 1 < L
      · simpa only [Memory.records, h, if_true] using hr
      · simp only [Memory.records, h, if_false] at hr
        exact List.mem_append_left _ hr
    exact ⟨_, _, rfl, rfl, hsub, hnames _ _ hsub⟩
  · intro snap snap' avg
    have hsub : ∀ r ∈ (Load.mk snap L).records avg,
        r ∈ (Load.mk snap' (L + 1)).records avg := by
      intro r hr
      have h1 : 1 < L + 1 := by omega
      simp only [Load.records, h1, if_true]
      by_cases h : 1 < L
      · simpa only [Load.records, h, if_true] using hr
      · simp only [Load.records, h, if_false] at hr
        exact List.mem_append_left _ hr
    exact ⟨_, _, rfl, rfl, hsub, hnames _ _ hsub⟩

/-- C13 at level 1: a Load sample with averages 1, 2 and 3. -/
theorem threshold_level_monotone_witness :
    1 ≤ 1 ∧
    Load.scrape ⟨[], 1⟩ (.ok ⟨.fin 1, .fin 2, .fin 3⟩) =
      .ok ⟨[⟨"os.load1\x7b\x7d", "1.000000"⟩], 1⟩ ∧
    Load.scrape ⟨[], 1 + 1⟩ (.ok ⟨.fin 1, .fin 2, .fin 3⟩) =
      .ok ⟨[⟨"os.load1\x7b\x7d", "1.000000"⟩, ⟨"os.load5\x7b\x7d", "2.000000"⟩,
        ⟨"os.load15\x7b\x7d", "3.000000"⟩], 2⟩ ∧
    ∃ s s' : Load,
      Load.scrape ⟨[], 1⟩ (.ok ⟨.fin 1, .fin 2, .fin 3⟩) = .ok s ∧
      Load.scrape ⟨[], 1 + 1⟩ (.ok ⟨.fin 1, .fin 2, .fin 3⟩) = .ok s' ∧
      (∀ r ∈ s.Metrics.1, r ∈ s'.Metrics.1) ∧
      names s.Metrics.1 ⊆ names s'.Metrics.1 :=
  ⟨by decide, by with_unfolding_all rfl, by with_unfolding_all rfl,
    (threshold_level_monotone 1 (by decide)).2.2 [] [] ⟨.fin 1, .fin 2, .fin 3⟩⟩

theorem length_flatMap_const {α β : Type} (f : α → List β) (n : Nat)
    (h : ∀ x, (f x).length = n) : ∀ l : List α, (l.flatMap f).length = n * l.length
  | [] => by simp
  | x :: rest => by
      simp only [List.flatMap_cons, List.length_append, h, length_flatMap_const f n h rest,
        List.length_cons]
      ring

theorem Disk.allowedPaths_length (c : Disk) (o : RangeOrder) (dev : List (String × UsageStat)) :
    (c.allowedPaths (o.visit dev)).length = (c.allowedPaths dev).length :=
  ((o.perm dev).filter _).length_eq

theorem Disk.allowedNames_length (c : Disk) (o : RangeOrder)
    (counters : List (String × DiskIOCountersStat)) :
    (c.allowedNames (o.visit counters)).length = (c.allowedNames counters).length :=
  ((o.perm counters).filter _).length_eq

theorem Disk.ioRecords_length (c : Disk) (name : String) (stats : DiskIOCountersStat) :
    (c.ioRecords name stats).length = diskIoCount c.level := by
  rw [Disk.ioRecords_eq_take, List.length_take]
  simp only [diskIoRecordsFull, diskIoCount, List.length_cons, List.length_nil]
  split_ifs <;> rfl

/-! ## C14 -/

/-- C14.  With `u` the allowed devices having usage and `k` the allowed
IO-counter names, `Disk.scrape` at a level `>= 1` publishes the used percent of
each allowed device, then from level 2 its used bytes, total bytes, inodes used
and inodes total, then from level 3 the first 2, from level 4 the first 4 and
from level 5 all 9 of the IO records of each allowed counter name (bytes read
and written, read and write counts, read time, write time, in-progress count,
IO time, weighted IO time): `u` records at level 1, `5u` at level 2, `5u + 2k`
at level 3, `5u + 4k` at level 4 and `5u + 9k` at level 5 and above. -/
theorem disk_level_tiers (c : Disk) (counters : List (String × DiskIOCountersStat))
    (parts : List PartitionStat) (usage : String → Except String UsageStat)
    (o1 o2 o3 : RangeOrder) (hL : 1 ≤ c.level) :
    let dev := diskUsages usage parts []
    let u := (c.allowedPaths dev).length
    let k := (c.allowedNames counters).length
    ∃ s : Disk,
      c.scrape (.ok counters) (.ok parts) usage o1 o2 o3 = .ok s ∧
      s.Metrics.1 =
        (c.allowedPaths (o1.visit dev)).flatMap (fun e => diskPercentRecords e.1 e.2)
        ++ (if 2 ≤ c.level then
              (c.allowedPaths (o2.visit dev)).flatMap (fun e => diskUsageRecords e.1 e.2)
            else [])
        ++ (if 3 ≤ c.level then
              (c.allowedNames (o3.visit counters)).flatMap
                (fun e => (diskIoRecordsFull e.1 e.2).take (diskIoCount c.level))
            else []) ∧
      s.Metrics.1.length =
        (if c.level = 1 then u
          else if c.level = 2 then 5 * u
          else if c.level = 3 then 5 * u + 2 * k
          else if c.level = 4 then 5 * u + 4 * k
          else 5 * u + 9 * k) := by
  intro dev u k
  have hrec : c.records counters dev o1 o2 o3 =
      (c.allowedPaths (o1.visit dev)).flatMap (fun e => diskPercentRecords e.1 e.2)
        ++ (if 2 ≤ c.level then
              (c.allowedPaths (o2.visit dev)).flatMap (fun e => diskUsageRecords e.1 e.2)
            else [])
        ++ (if 3 ≤ c.level then
              (c.allowedNames (o3.visit counters)).flatMap
                (fun e => (diskIoRecordsFull e.1 e.2).take (diskIoCount c.level))
            else []) := by
    rw [disk_records_eq]
    simp only [Disk.ioRecords_eq_take]
    rfl
  refine ⟨_, disk_scrape_ok c counters parts usage o1 o2 o3, hrec, ?_⟩
  have hp : ∀ o : RangeOrder, ((c.allowedPaths (o.visit dev)).flatMap
      (fun e => diskPercentRecords e.1 e.2)).length = u := by
    intro o
    rw [length_flatMap_const (fun e : String × UsageStat => diskPercentRecords e.1 e.2) 1
      (fun _ => rfl), Disk.allowedPaths_length]
    exact Nat.one_mul _
  have hu : ∀ o : RangeOrder, ((c.allowedPaths (o.visit dev)).flatMap
      (fun e => diskUsageRecords e.1 e.2)).length = 4 * u := by
    intro o
    rw [length_flatMap_const (fun e : String × UsageStat => diskUsageRecords e.1 e.2) 4
      (fun _ => rfl), Disk.allowedPaths_length]
  have hi : ∀ o : RangeOrder, ((c.allowedNames (o.visit counters)).flatMap
      (fun e => c.ioRecords e.1 e.2)).length = diskIoCount c.level * k := by
    intro o
    rw [length_flatMap_const (fun e : String × DiskIOCountersStat => c.ioRecords e.1 e.2)
      (diskIoCount c.level) (fun e => Disk.ioRecords_length c e.1 e.2),
      Disk.allowedNames_length]
  show (c.records counters dev o1 o2 o3).length = _
  rw [disk_records_eq, List.length_append, List.length_append, hp]
  by_cases h1 : c.level = 1
  · simp [h1]
  · by_cases h2 : c.level = 2
    · simp [h2, hu]; omega
    · have h2' : 1 < c.level := by omega
      have h3' : 2 < c.level := by omega
      rw [if_pos h2', if_pos h3', hu, hi]
      by_cases h3 : c.level = 3
      · simp [h3, diskIoCount]; omega
      · by_cases h4 : c.level = 4
        · simp [h4, diskIoCount]; omega
        · have h5 : 4 < c.level := by omega
          simp [h1, h2, h3, h4, h5, diskIoCount]
          have : 3 < c.level := by omega
          omega

/-- C14 at level 3 with the allow-list `sda`, devices `/dev/sda` and
`/dev/sdb`, counters `sda` and `sdb`: `u = 1`, `k = 1` and seven records. -/
theorem disk_level_tiers_witness :
    1 ≤ (NewDisk 1000 3 (.map [("names", .list [.str "sda"])])).level ∧
    ∃ s : Disk,
      (NewDisk 1000 3 (.map [("names", .list [.str "sda"])])).scrape
          (.ok [("sda", ioSample), ("sdb", ioSample)])
          (.ok [⟨"/dev/sda", "/"⟩, ⟨"/dev/sdb", "/home"⟩])
          (fun m => .ok (usageAt m)) .stored .backwards .stored = .ok s ∧
      s.Metrics.1.length = 5 * 1 + 2 * 1 := by
  refine ⟨by decide, ?_⟩
  obtain ⟨s, hs, _, hl⟩ :=
    disk_level_tiers (NewDisk 1000 3 (.map [("names", .list [.str "sda"])]))
      [("sda", ioSample), ("sdb", ioSample)] [⟨"/dev/sda", "/"⟩, ⟨"/dev/sdb", "/home"⟩]
      (fun m => .ok (usageAt m)) .stored .backwards .stored (by decide)
  exact ⟨s, hs, hl.trans (by decide)⟩

/-! ## C19 -/

/-- C19.  Whatever mountpoints `disk.Usage` fails for, when `disk.IOCounters`
and `disk.Partitions` succeed `Disk.scrape` returns `nil`.  The usages it keeps
are those of the devices with a partition whose usage was read, each device
with a usage read for one of its partitions; a device all of whose partitions
failed has none.  The snapshot holds exactly the usage records of the allowed
devices among them and, at level 3 and above, the IO records of the allowed
counter names. -/
theorem disk_usage_failure_not_fatal (c : Disk)
    (counters : List (String × DiskIOCountersStat)) (parts : List PartitionStat)
    (usage : String → Except String UsageStat) (o1 o2 o3 : RangeOrder) :
    let dev := diskUsages usage parts []
    ∃ s : Disk,
      c.scrape (.ok counters) (.ok parts) usage o1 o2 o3 = .ok s ∧
      (∀ d : String, (∃ u, (d, u) ∈ dev) ↔
        ∃ p ∈ parts, p.Device = d ∧ ∃ u, usage p.Mountpoint = .ok u) ∧
      (∀ d u, (d, u) ∈ dev → ∃ p ∈ parts, p.Device = d ∧ usage p.Mountpoint = .ok u) ∧
      (∀ d : String, (∀ p ∈ parts, p.Device = d → ∃ e, usage p.Mountpoint = .error e) →
        ∀ u, (d, u) ∉ dev) ∧
      (∀ r : MetricCollected, r ∈ s.Metrics.1 ↔
        (∃ e ∈ dev, (c.allowedDisks = [] ∨ pathSplitFile e.1 ∈ c.allowedDisks) ∧
            r ∈ diskFsRecords c.level e.1 e.2) ∨
        (2 < c.level ∧ ∃ e ∈ counters, (c.allowedDisks = [] ∨ e.1 ∈ c.allowedDisks) ∧
            r ∈ c.ioRecords e.1 e.2)) := by
  intro dev
  have hkeys : ∀ d : String, (∃ u, (d, u) ∈ dev) ↔
      ∃ p ∈ parts, p.Device = d ∧ ∃ u, usage p.Mountpoint = .ok u := by
    intro d
    have h := keys_diskUsages usage parts [] d
    simp only [List.map_nil, List.not_mem_nil, false_or, List.mem_map, Prod.exists,
      exists_and_right, exists_eq_right] at h
    exact h
  refine ⟨_, disk_scrape_ok c counters parts usage o1 o2 o3, hkeys, ?_, ?_, ?_⟩
  · intro d u h
    rcases mem_diskUsages usage parts [] (d, u) h with h | h
    · cases h
    · exact h
  · intro d hall u hu
    obtain ⟨p, hp, hd, v, hv⟩ := (hkeys d).mp ⟨u, hu⟩
    obtain ⟨e, he⟩ := hall p hp hd
    rw [hv] at he
    cases he
  · intro r
    exact disk_mem_records c counters dev o1 o2 o3 r

/-- C19 at two partitions, `/dev/sda` on `/` whose usage is read and `/dev/sdb`
on `/home` whose usage fails, level 1, no allow-list: one record, of
`/dev/sda`. -/
theorem disk_usage_failure_not_fatal_witness :
    (NewDisk 1000 1 .null).scrape (.ok [("sda", ioSample), ("sdb", ioSample)])
        (.ok [⟨"/dev/sda", "/"⟩, ⟨"/dev/sdb", "/home"⟩])
        (fun m => if m = "/home" then .error "permission denied" else .ok (usageAt m))
        .stored .stored .stored =
      .ok { NewDisk 1000 1 .null with MetricsCollected :=
              [⟨"os.disk.fs\x7bdisk=/dev/sda\x7d\x7bmount=/\x7d", "50.000000"⟩] } ∧
    ∃ s : Disk,
      (NewDisk 1000 1 .null).scrape (.ok [("sda", ioSample), ("sdb", ioSample)])
        (.ok [⟨"/dev/sda", "/"⟩, ⟨"/dev/sdb", "/home"⟩])
        (fun m => if m = "/home" then .error "permission denied" else .ok (usageAt m))
        .stored .stored .stored = .ok s ∧
      ∀ u, ("/dev/sdb", u) ∉ diskUsages
        (fun m => if m = "/home" then .error "permission denied" else .ok (usageAt m))
        [⟨"/dev/sda", "/"⟩, ⟨"/dev/sdb", "/home"⟩] [] := by
  refine ⟨by with_unfolding_all rfl, ?_⟩
  obtain ⟨s, hs, _, _, hnone, _⟩ :=
    disk_usage_failure_not_fatal (NewDisk 1000 1 .null) [("sda", ioSample), ("sdb", ioSample)]
      [⟨"/dev/sda", "/"⟩, ⟨"/dev/sdb", "/home"⟩]
      (fun m => if m = "/home" then .error "permission denied" else .ok (usageAt m))
      .stored .stored .stored
  refine ⟨s, hs, hnone "/dev/sdb" ?_⟩
  intro p hp hd
  simp only [List.mem_cons, List.mem_singleton, List.not_mem_nil, or_false] at hp
  rcases hp with rfl | rfl
  · exact absurd hd (by decide)
  · exact ⟨"permission denied", by simp⟩

/-! ## C17 -/

/-- C17.  From two states that differ only in the prior snapshot, the same
scrape (same provider results and, for Disk, same orders of map iteration) has
the same outcome, hence the same new snapshot: for Memory, Load and Disk always,
for Net always (and it returns whenever the period is at least 1000 ms), and for
CPU whenever the retained sample is not empty, that is whenever the scrape
publishes (and it returns whenever the new sample is not longer than the
retained one). -/
theorem publication_replaces_snapshot (snap snap' : List MetricCollected) (level : Nat) :
    (∀ (virt : VirtualMemoryStat) (swap : SwapMemoryStat),
      ∃ s : Memory, Memory.scrape ⟨snap, level⟩ (.ok virt) (.ok swap) = .ok s ∧
        Memory.scrape ⟨snap', level⟩ (.ok virt) (.ok swap) = .ok s) ∧
    (∀ avg : AvgStat,
      ∃ s : Load, Load.scrape ⟨snap, level⟩ (.ok avg) = .ok s ∧
        Load.scrape ⟨snap', level⟩ (.ok avg) = .ok s) ∧
    (∀ (period : Nat) (A : List String) (counters : List (String × DiskIOCountersStat))
        (parts : List PartitionStat) (usage : String → Except String UsageStat)
        (o1 o2 o3 : RangeOrder),
      ∃ s : Disk,
        Disk.scrape ⟨snap, level, period, A⟩ (.ok counters) (.ok parts) usage o1 o2 o3 = .ok s ∧
        Disk.scrape ⟨snap', level, period, A⟩ (.ok counters) (.ok parts) usage o1 o2 o3
          = .ok s) ∧
    (∀ (interfaces : List String) (period : Nat) (counters : List NetIOCountersStat),
      Net.scrape ⟨interfaces, snap, level, period⟩ (.ok counters) =
          Net.scrape ⟨interfaces, snap', level, period⟩ (.ok counters) ∧
        (1000 ≤ period →
          ∃ s : Net, Net.scrape ⟨interfaces, snap, level, period⟩ (.ok counters) = .ok s)) ∧
    (∀ (retained times : List TimesStat), retained ≠ [] →
      CPU.scrape ⟨retained, snap, level⟩ (.ok times) =
          CPU.scrape ⟨retained, snap', level⟩ (.ok times) ∧
        (times.length ≤ retained.length →
          ∃ s : CPU, CPU.scrape ⟨retained, snap, level⟩ (.ok times) = .ok s)) := by
  refine ⟨fun _ _ => ⟨_, rfl, rfl⟩, fun _ => ⟨_, rfl, rfl⟩, ?_, ?_, ?_⟩
  · intro period A counters parts usage o1 o2 o3
    refine ⟨_, disk_scrape_ok _ counters parts usage o1 o2 o3, ?_⟩
    rw [disk_scrape_ok, disk_records_eq, disk_records_eq]
    simp only [Disk.allowedPaths, Disk.allowedNames, Disk.skipsPath, Disk.skipsName,
      Disk.ioRecords]
  · intro interfaces period counters
    refine ⟨?_, fun hp => ⟨_, net_scrape_ok ⟨interfaces, snap, level, period⟩ counters hp⟩⟩
    have e : (Net.mk interfaces snap' level period).allowed counters =
        (Net.mk interfaces snap level period).allowed counters :=
      Net.allowed_congr _ _ rfl counters
    simp only [net_scrape_eq, net_records_eq, e]
  · intro retained times hne
    have h0 : ¬ retained.length = 0 := fun h => hne (List.length_eq_zero.mp h)
    refine ⟨?_, fun hlen => ⟨_, cpu_scrape_ok ⟨retained, snap, level⟩ times hne hlen⟩⟩
    simp only [CPU.scrape, h0, if_false]

/-! ## C20 -/

/-- C20, the code at the failing inputs.  With a period below 1000 ms the
divisor `c.period/1000` is the integer 0 and `Net.scrape` panics on every
successful provider result (period 500 in particular); with a period of
1500 ms the divisor is the integer 1, so that 6000 bytes are published as
`6000`. -/
theorem net_period_divisor_truncates :
    (∀ (c : Net) (counters : List NetIOCountersStat), c.period < 1000 →
      c.scrape (.ok counters) = .panic) ∧
    (NewNet 500 1 .null).scrape (.ok [ifaceRecv "eth0" 6000]) = .panic ∧
    (NewNet 1500 1 .null).scrape (.ok [ifaceRecv "eth0" 6000]) =
      .ok { NewNet 1500 1 .null with MetricsCollected :=
              [⟨"os.net.bytes\x7bdirection=in\x7d", "6000"⟩,
                ⟨"os.net.bytes\x7bdirection=out\x7d", "0"⟩] } := by
  refine ⟨?_, by decide, by decide⟩
  intro c counters hp
  have h0 : c.period / 1000 = 0 := Nat.div_eq_of_lt hp
  simp [Net.scrape, h0]

/-! ## Decimal text is injective -/

theorem digitChar_toNat (d : Nat) (h : d < 10) : (Nat.digitChar d).toNat - 48 = d := by
  interval_cases d <;> rfl

theorem decimalValue_toDigitsCore :
    ∀ (fuel n : Nat) (ds : List Char), n < fuel →
      decimalValue 0 (Nat.toDigitsCore 10 fuel n ds) = decimalValue n ds
  | 0, n, ds, h => absurd h (Nat.not_lt_zero n)
  | fuel + 1, n, ds, h => by
      have hd : (Nat.digitChar (n % 10)).toNat - 48 = n % 10 :=
        digitChar_toNat _ (Nat.mod_lt _ (by norm_num))
      simp only [Nat.toDigitsCore]
      by_cases h0 : n / 10 = 0
      · simp only [h0, if_true, decimalValue, List.foldl_cons, hd]
        have : n % 10 = n := Nat.mod_eq_of_lt (by omega)
        simp [this]
      · have hlt : n / 10 < fuel := by omega
        simp only [h0, if_false, decimalValue_toDigitsCore fuel (n / 10) _ hlt]
        simp only [decimalValue, List.foldl_cons, hd]
        have : n / 10 * 10 + n % 10 = n := by omega
        rw [this]

theorem decimalValue_repr (n : Nat) : decimalValue 0 (Nat.repr n).data = n := by
  have h := decimalValue_toDigitsCore (n + 1) n [] (Nat.lt_succ_self n)
  simpa [Nat.repr, Nat.toDigits, decimalValue] using h

theorem repr_injective (i j : Nat) (h : Nat.repr i = Nat.repr j) : i = j := by
  have h' := congrArg (fun s => decimalValue 0 s.data) h
  simpa [decimalValue_repr] using h'

/-! ## Lemmas on when two names are equal -/

theorem cpuCoreName_data (field : String) (i : Nat) :
    (cpuCoreName field i).data =
      ("os.cpu.".data ++ field.data) ++
        '\x7b' :: ("chore=".data ++ ((Nat.repr i).data ++ "\x7d".data)) := by
  simp only [cpuCoreName, String.data_append, List.append_assoc]
  rfl

theorem cpuCoreName_inj (field field' : String) (i j : Nat)
    (hf : '\x7b' ∉ field.data) (hf' : '\x7b' ∉ field'.data)
    (h : cpuCoreName field i = cpuCoreName field' j) : field = field' ∧ i = j := by
  have h' := congrArg String.data h
  rw [cpuCoreName_data, cpuCoreName_data] at h'
  have hs := split_at_first _ _ _ _ _
    (by simp only [List.mem_append, not_or]; exact ⟨by decide, hf⟩)
    (by simp only [List.mem_append, not_or]; exact ⟨by decide, hf'⟩) h'
  refine ⟨String.ext (List.append_cancel_left hs.1), ?_⟩
  have h2 := List.append_cancel_right (List.append_cancel_left hs.2)
  exact repr_injective i j (String.ext h2)

theorem netIfaceName_inj (kind kind' name name' dir dir' : String)
    (hk : kind ∈ netKinds) (hk' : kind' ∈ netKinds)
    (hd : dir ∈ netDirections) (hd' : dir' ∈ netDirections)
    (h : netIfaceName kind name dir = netIfaceName kind' name' dir') :
    kind = kind' ∧ name = name' ∧ dir = dir' := by
  have h' := congrArg String.data h
  rw [netIfaceName_data, netIfaceName_data] at h'
  have hs := split_at_first _ _ _ _ _ (netKinds_no_brace kind hk)
    (netKinds_no_brace kind' hk') h'
  have h2 := List.append_cancel_left hs.2
  have hdd : dir = dir' := by
    have h3 := congrArg List.reverse h2
    simp only [netDirections, List.mem_cons, List.mem_singleton, List.not_mem_nil, or_false]
      at hd hd'
    rcases hd with rfl | rfl <;> rcases hd' with rfl | rfl
    · rfl
    · simp at h3
    · simp at h3
    · rfl
  subst hdd
  exact ⟨String.ext (List.append_cancel_left hs.1),
    String.ext (List.append_cancel_right h2), rfl⟩

theorem diskFsName_data (sub diskPath mount : String) :
    (diskFsName sub diskPath mount).data =
      ("os.disk.fs".data ++ sub.data) ++
        '\x7b' :: ("disk=".data ++ (diskPath.data ++
          '\x7d' :: ("\x7bmount=".data ++ (mount.data ++ "\x7d".data)))) := by
  simp only [diskFsName, String.data_append, List.append_assoc]
  rfl

theorem diskIoName_data (sub name : String) :
    (diskIoName sub name).data =
      ("os.disk.fs".data ++ sub.data) ++
        '\x7b' :: ("name=".data ++ (name.data ++ "\x7d".data)) := by
  simp only [diskIoName, String.data_append, List.append_assoc]
  rfl

theorem disk_prefix_no_brace (sub : String) (h : '\x7b' ∉ sub.data) :
    '\x7b' ∉ "os.disk.fs".data ++ sub.data := by
  simp only [List.mem_append, not_or]
  exact ⟨by decide, h⟩

theorem diskFsName_inj (sub sub' d d' m m' : String)
    (hs : '\x7b' ∉ sub.data) (hs' : '\x7b' ∉ sub'.data)
    (h : diskFsName sub d m = diskFsName sub' d' m') :
    sub = sub' ∧ ('\x7d' ∉ d.data → '\x7d' ∉ d'.data → d = d') := by
  have h' := congrArg String.data h
  rw [diskFsName_data, diskFsName_data] at h'
  have h1 := split_at_first _ _ _ _ _ (disk_prefix_no_brace sub hs)
    (disk_prefix_no_brace sub' hs') h'
  refine ⟨String.ext (List.append_cancel_left h1.1), fun hd hd' => ?_⟩
  have h2 := List.append_cancel_left h1.2
  exact String.ext (split_at_first _ _ _ _ _ hd hd' h2).1

theorem diskIoName_inj (sub sub' n n' : String)
    (hs : '\x7b' ∉ sub.data) (hs' : '\x7b' ∉ sub'.data)
    (h : diskIoName sub n = diskIoName sub' n') : sub = sub' ∧ n = n' := by
  have h' := congrArg String.data h
  rw [diskIoName_data, diskIoName_data] at h'
  have h1 := split_at_first _ _ _ _ _ (disk_prefix_no_brace sub hs)
    (disk_prefix_no_brace sub' hs') h'
  exact ⟨String.ext (List.append_cancel_left h1.1),
    String.ext (List.append_cancel_right (List.append_cancel_left h1.2))⟩

theorem diskFsName_ne_diskIoName (sub sub' d m n : String)
    (hs : '\x7b' ∉ sub.data) (hs' : '\x7b' ∉ sub'.data) :
    diskFsName sub d m ≠ diskIoName sub' n := by
  intro h
  have h' := congrArg String.data h
  rw [diskFsName_data, diskIoName_data] at h'
  have h1 := split_at_first _ _ _ _ _ (disk_prefix_no_brace sub hs)
    (disk_prefix_no_brace sub' hs') h'
  have h2 := h1.2
  simp at h2

/-! ## Lemmas on snapshots without repeated names -/

theorem nodup_flatMap_of_inj {ι β : Type} (f : ι → List β) (l : List ι) (hl : l.Nodup)
    (h1 : ∀ x ∈ l, (f x).Nodup)
    (h2 : ∀ x ∈ l, ∀ y ∈ l, ∀ n, n ∈ f x → n ∈ f y → x = y) :
    (l.flatMap f).Nodup := by
  rw [List.nodup_flatMap]
  refine ⟨h1, ?_⟩
  refine List.Pairwise.imp_of_mem ?_ hl
  intro a b ha hb hab n hna hnb
  exact hab (h2 a ha b hb n hna hnb)

theorem cpuCoreNames_nodup (n : Nat) : (cpuCoreNames n).Nodup := by
  have hfields : ∀ f ∈ ["iowait", "user", "systems", "nice", "irq"], '\x7b' ∉ f.data := by
    decide
  refine nodup_flatMap_of_inj _ _ (by decide) ?_ ?_
  · intro f hf
    refine List.Nodup.map_on ?_ (List.nodup_range' 0 n)
    intro i _ j _ h
    exact (cpuCoreName_inj f f i j (hfields f hf) (hfields f hf) h).2
  · intro f hf g hg m hm hm'
    obtain ⟨i, _, rfl⟩ := List.mem_map.mp hm
    obtain ⟨j, _, hj⟩ := List.mem_map.mp hm'
    exact ((cpuCoreName_inj g f j i (hfields g hg) (hfields f hf) hj).1).symm

theorem cpuRecords_names_nodup (level : Nat) (fs : List CoreFractions) :
    (names (cpuRecords level fs)).Nodup := by
  rw [names_cpuRecords, List.nodup_cons]
  by_cases h2 : level = 2
  · subst h2
    simp only [if_true, List.append_nil, if_neg (by decide : ¬ (2 = 3))]
    exact ⟨by decide, by decide⟩
  · by_cases h3 : level = 3
    · subst h3
      simp only [if_true, if_neg (by decide : ¬ (3 = 2)), List.nil_append]
      refine ⟨?_, cpuCoreNames_nodup _⟩
      intro hm
      simp only [cpuCoreNames, List.mem_flatMap, List.mem_map] at hm
      obtain ⟨f, _, i, _, h⟩ := hm
      exact cpuCoreName_ne_global f i h
    · simp [h2, h3]

theorem memory_names_nodup (c : Memory) (virt : VirtualMemoryStat) (swap : SwapMemoryStat) :
    (names (c.records virt swap)).Nodup := by
  by_cases h : c.level > 1
  · simp only [Memory.records, h, if_true, names, List.map_cons, List.map_nil,
      List.cons_append, List.nil_append]
    decide
  · simp only [Memory.records, h, if_false, names, List.map_cons, List.map_nil]
    decide

theorem load_names_nodup (c : Load) (avg : AvgStat) : (names (c.records avg)).Nodup := by
  by_cases h : c.level > 1
  · simp only [Load.records, h, if_true, names, List.map_cons, List.map_nil,
      List.cons_append, List.nil_append]
    decide
  · simp only [Load.records, h, if_false, names, List.map_cons, List.map_nil]
    decide

theorem netKinds_valid :
    (∀ kd ∈ netBytesKinds, kd.1 ∈ netKinds ∧ kd.2 ∈ netDirections) ∧
    (∀ kd ∈ netDetailKinds, kd.1 ∈ netKinds ∧ kd.2 ∈ netDirections) := by
  constructor <;> decide

theorem netSectionNames_nodup (kds : List (String × String)) (cs : List NetIOCountersStat)
    (hk : kds.Nodup) (hv : ∀ kd ∈ kds, kd.1 ∈ netKinds ∧ kd.2 ∈ netDirections)
    (hc : (cs.map (·.Name)).Nodup) : (netSectionNames kds cs).Nodup := by
  refine nodup_flatMap_of_inj _ _ (List.Nodup.of_map _ hc) ?_ ?_
  · intro cnt _
    refine List.Nodup.map_on ?_ hk
    intro kd hkd kd' hkd' h
    have := netIfaceName_inj _ _ _ _ _ _ (hv kd hkd).1 (hv kd' hkd').1 (hv kd hkd).2
      (hv kd' hkd').2 h
    exact Prod.ext this.1 this.2.2
  · intro x hx y hy n hn hn'
    obtain ⟨kd, hkd, rfl⟩ := List.mem_map.mp hn
    obtain ⟨kd', hkd', h⟩ := List.mem_map.mp hn'
    have := netIfaceName_inj _ _ _ _ _ _ (hv kd' hkd').1 (hv kd hkd).1 (hv kd' hkd').2
      (hv kd hkd).2 h
    exact List.inj_on_of_nodup_map hc hx hy this.2.1.symm

theorem netSectionNames_disjoint (kds kds' : List (String × String))
    (cs cs' : List NetIOCountersStat)
    (hv : ∀ kd ∈ kds, kd.1 ∈ netKinds ∧ kd.2 ∈ netDirections)
    (hv' : ∀ kd ∈ kds', kd.1 ∈ netKinds ∧ kd.2 ∈ netDirections)
    (hd : ∀ kd ∈ kds, ∀ kd' ∈ kds', kd.1 ≠ kd'.1) :
    ∀ n ∈ netSectionNames kds cs, n ∉ netSectionNames kds' cs' := by
  intro n hn hn'
  obtain ⟨x, _, hx⟩ := List.mem_flatMap.mp hn
  obtain ⟨kd, hkd, rfl⟩ := List.mem_map.mp hx
  obtain ⟨y, _, hy⟩ := List.mem_flatMap.mp hn'
  obtain ⟨kd', hkd', h⟩ := List.mem_map.mp hy
  have := netIfaceName_inj _ _ _ _ _ _ (hv' kd' hkd').1 (hv kd hkd).1 (hv' kd' hkd').2
    (hv kd hkd).2 h
  exact hd kd hkd kd' hkd' this.1.symm

theorem names_netSections (cs : List NetIOCountersStat) :
    names (cs.flatMap netBytesRecords) = netSectionNames netBytesKinds cs ∧
    names (cs.flatMap netDetailRecords) = netSectionNames netDetailKinds cs := by
  simp only [names, netSectionNames, List.map_flatMap]
  exact ⟨rfl, rfl⟩

/-- The snapshot of `Net.scrape` has no repeated name when the interfaces
have distinct names. -/
theorem net_names_nodup (c : Net) (counters : List NetIOCountersStat) (a b : Nat)
    (hn : (counters.map (·.Name)).Nodup) : (names (c.records counters a b)).Nodup := by
  have hal : ((c.allowed counters).map (·.Name)).Nodup :=
    (List.Sublist.map _ (List.filter_sublist _)).nodup hn
  have hb := netSectionNames_nodup netBytesKinds _ (by decide) netKinds_valid.1 hal
  have hd := netSectionNames_nodup netDetailKinds _ (by decide) netKinds_valid.2 hal
  have hdis := netSectionNames_disjoint netBytesKinds netDetailKinds (c.allowed counters)
    (c.allowed counters) netKinds_valid.1 netKinds_valid.2 (by decide)
  rw [net_records_eq]
  by_cases h1 : c.level = 1
  · have h2 : ¬ 1 < c.level := by omega
    have h3 : ¬ 2 < c.level := by omega
    rw [if_pos h1, if_neg h2, if_neg h3]
    simp only [List.append_nil, names, List.map_cons, List.map_nil]
    decide
  · rw [if_neg h1]
    simp only [List.nil_append, names, List.map_append]
    have e1 := (names_netSections (c.allowed counters)).1
    have e2 := (names_netSections (c.allowed counters)).2
    simp only [names] at e1 e2
    by_cases h2 : 1 < c.level
    · by_cases h3 : 2 < c.level
      · simp only [h2, h3, if_true, e1, e2]
        exact List.nodup_append.mpr ⟨hb, hd, fun n hn hn' => hdis n hn hn'⟩
      · simp only [h2, h3, if_true, if_false, e1, List.map_nil, List.append_nil]
        exact hb
    · have h3 : ¬ 2 < c.level := by omega
      simp [h2, h3]

theorem mapAssign_keys_nodup {α : Type} (k : String) (v : α) :
    ∀ m : List (String × α), (m.map Prod.fst).Nodup → ((mapAssign k v m).map Prod.fst).Nodup
  | [], _ => by simp [mapAssign]
  | (k', v') :: rest, h => by
      simp only [List.map_cons, List.nodup_cons] at h
      by_cases hk : k' = k
      · subst hk
        simp only [mapAssign, if_true, List.map_cons, List.nodup_cons]
        exact h
      · simp only [mapAssign, hk, if_false, List.map_cons, List.nodup_cons]
        refine ⟨?_, mapAssign_keys_nodup k v rest h.2⟩
        intro hm
        rcases (keys_mapAssign k v rest k').mp hm with h' | h'
        · exact hk h'
        · exact h.1 h'

theorem diskUsages_keys_nodup (usage : String → Except String UsageStat) :
    ∀ (parts : List PartitionStat) (dev : List (String × UsageStat)),
      (dev.map Prod.fst).Nodup → ((diskUsages usage parts dev).map Prod.fst).Nodup
  | [], dev, h => by simpa [diskUsages] using h
  | p :: rest, dev, h => by
      simp only [diskUsages]
      cases usage p.Mountpoint with
      | error e => exact diskUsages_keys_nodup usage rest dev h
      | ok u => exact diskUsages_keys_nodup usage rest _ (mapAssign_keys_nodup _ _ dev h)

theorem diskSubs_no_brace :
    ∀ sub ∈ diskPercentSubs ++ diskUsageSubs ++ diskIoSubs, '\x7b' ∉ sub.data := by
  decide

theorem diskFsSectionNames_nodup (subs : List String) (es : List (String × UsageStat))
    (hs : subs.Nodup) (hv : ∀ sub ∈ subs, '\x7b' ∉ sub.data)
    (he : (es.map Prod.fst).Nodup) (hb : ∀ e ∈ es, '\x7d' ∉ e.1.data) :
    (diskFsSectionNames subs es).Nodup := by
  refine nodup_flatMap_of_inj _ _ (List.Nodup.of_map _ he) ?_ ?_
  · intro e _
    refine List.Nodup.map_on ?_ hs
    intro s hs1 s' hs2 h
    exact (diskFsName_inj _ _ _ _ _ _ (hv s hs1) (hv s' hs2) h).1
  · intro x hx y hy n hn hn'
    obtain ⟨s, hs1, rfl⟩ := List.mem_map.mp hn
    obtain ⟨s', hs2, h⟩ := List.mem_map.mp hn'
    have := (diskFsName_inj _ _ _ _ _ _ (hv s' hs2) (hv s hs1) h).2 (hb y hy) (hb x hx)
    exact List.inj_on_of_nodup_map he hx hy this.symm

theorem diskIoSectionNames_nodup (subs : List String)
    (es : List (String × DiskIOCountersStat))
    (hs : subs.Nodup) (hv : ∀ sub ∈ subs, '\x7b' ∉ sub.data)
    (he : (es.map Prod.fst).Nodup) : (diskIoSectionNames subs es).Nodup := by
  refine nodup_flatMap_of_inj _ _ (List.Nodup.of_map _ he) ?_ ?_
  · intro e _
    refine List.Nodup.map_on ?_ hs
    intro s hs1 s' hs2 h
    exact (diskIoName_inj _ _ _ _ (hv s hs1) (hv s' hs2) h).1
  · intro x hx y hy n hn hn'
    obtain ⟨s, hs1, rfl⟩ := List.mem_map.mp hn
    obtain ⟨s', hs2, h⟩ := List.mem_map.mp hn'
    have := (diskIoName_inj _ _ _ _ (hv s' hs2) (hv s hs1) h).2
    exact List.inj_on_of_nodup_map he hx hy this.symm

theorem diskFsSectionNames_disjoint (subs subs' : List String)
    (es es' : List (String × UsageStat))
    (hv : ∀ sub ∈ subs, '\x7b' ∉ sub.data) (hv' : ∀ sub ∈ subs', '\x7b' ∉ sub.data)
    (hd : ∀ sub ∈ subs, sub ∉ subs') :
    ∀ n ∈ diskFsSectionNames subs es, n ∉ diskFsSectionNames subs' es' := by
  intro n hn hn'
  obtain ⟨x, _, hx⟩ := List.mem_flatMap.mp hn
  obtain ⟨s, hs1, rfl⟩ := List.mem_map.mp hx
  obtain ⟨y, _, hy⟩ := List.mem_flatMap.mp hn'
  obtain ⟨s', hs2, h⟩ := List.mem_map.mp hy
  have := (diskFsName_inj _ _ _ _ _ _ (hv' s' hs2) (hv s hs1) h).1
  exact hd s hs1 (this ▸ hs2)

theorem diskFs_io_disjoint (subs subs' : List String) (es : List (String × UsageStat))
    (es' : List (String × DiskIOCountersStat))
    (hv : ∀ sub ∈ subs, '\x7b' ∉ sub.data) (hv' : ∀ sub ∈ subs', '\x7b' ∉ sub.data) :
    ∀ n ∈ diskFsSectionNames subs es, n ∉ diskIoSectionNames subs' es' := by
  intro n hn hn'
  obtain ⟨x, _, hx⟩ := List.mem_flatMap.mp hn
  obtain ⟨s, hs1, rfl⟩ := List.mem_map.mp hx
  obtain ⟨y, _, hy⟩ := List.mem_flatMap.mp hn'
  obtain ⟨s', hs2, h⟩ := List.mem_map.mp hy
  exact diskFsName_ne_diskIoName _ _ _ _ _ (hv s hs1) (hv' s' hs2) h.symm

theorem names_diskSections (c : Disk) (es : List (String × UsageStat))
    (cs : List (String × DiskIOCountersStat)) :
    names (es.flatMap (fun e => diskPercentRecords e.1 e.2))
        = diskFsSectionNames diskPercentSubs es ∧
    names (es.flatMap (fun e => diskUsageRecords e.1 e.2))
        = diskFsSectionNames diskUsageSubs es ∧
    names (cs.flatMap (fun e => c.ioRecords e.1 e.2))
        = diskIoSectionNames (diskIoSubs.take (diskIoCount c.level)) cs := by
  refine ⟨?_, ?_, ?_⟩
  · simp only [names, diskFsSectionNames, List.map_flatMap]
    rfl
  · simp only [names, diskFsSectionNames, List.map_flatMap]
    rfl
  · simp only [names, diskIoSectionNames, List.map_flatMap, Disk.ioRecords_eq_take,
      List.map_take]
    rfl

theorem Disk.allowedPaths_keys_nodup (c : Disk) (o : RangeOrder)
    (dev : List (String × UsageStat)) (h : (dev.map Prod.fst).Nodup) :
    ((c.allowedPaths (o.visit dev)).map Prod.fst).Nodup :=
  (List.Sublist.map _ (List.filter_sublist _)).nodup
    (((o.perm dev).map Prod.fst).nodup_iff.mpr h)

theorem Disk.allowedNames_keys_nodup (c : Disk) (o : RangeOrder)
    (counters : List (String × DiskIOCountersStat)) (h : (counters.map Prod.fst).Nodup) :
    ((c.allowedNames (o.visit counters)).map Prod.fst).Nodup :=
  (List.Sublist.map _ (List.filter_sublist _)).nodup
    (((o.perm counters).map Prod.fst).nodup_iff.mpr h)

/-- The snapshot of `Disk.scrape` has no repeated name when the counter names
are distinct, the devices of `dev` are distinct and no device path contains a
closing brace. -/
theorem disk_names_nodup (c : Disk) (counters : List (String × DiskIOCountersStat))
    (dev : List (String × UsageStat)) (o1 o2 o3 : RangeOrder)
    (hc : (counters.map Prod.fst).Nodup) (hd : (dev.map Prod.fst).Nodup)
    (hb : ∀ e ∈ dev, '\x7d' ∉ e.1.data) :
    (names (c.records counters dev o1 o2 o3)).Nodup := by
  have hvp : ∀ sub ∈ diskPercentSubs, '\x7b' ∉ sub.data := by decide
  have hvu : ∀ sub ∈ diskUsageSubs, '\x7b' ∉ sub.data := by decide
  have hvi : ∀ sub ∈ diskIoSubs.take (diskIoCount c.level), '\x7b' ∉ sub.data :=
    fun sub h => diskSubs_no_brace sub
      (List.mem_append_right _ (List.mem_of_mem_take h))
  have hbo : ∀ o : RangeOrder, ∀ e ∈ c.allowedPaths (o.visit dev), '\x7d' ∉ e.1.data :=
    fun o e he => hb e ((Disk.mem_allowedPaths c o dev e).mp he).1
  have n1 := diskFsSectionNames_nodup diskPercentSubs _ (by decide) hvp
    (Disk.allowedPaths_keys_nodup c o1 dev hd) (hbo o1)
  have n2 := diskFsSectionNames_nodup diskUsageSubs _ (by decide) hvu
    (Disk.allowedPaths_keys_nodup c o2 dev hd) (hbo o2)
  have n3 := diskIoSectionNames_nodup (diskIoSubs.take (diskIoCount c.level)) _
    ((List.take_sublist _ _).nodup (by decide)) hvi
    (Disk.allowedNames_keys_nodup c o3 counters hc)
  have d12 := diskFsSectionNames_disjoint diskPercentSubs diskUsageSubs
    (c.allowedPaths (o1.visit dev)) (c.allowedPaths (o2.visit dev)) hvp hvu (by decide)
  have d13 := diskFs_io_disjoint diskPercentSubs (diskIoSubs.take (diskIoCount c.level))
    (c.allowedPaths (o1.visit dev)) (c.allowedNames (o3.visit counters)) hvp hvi
  have d23 := diskFs_io_disjoint diskUsageSubs (diskIoSubs.take (diskIoCount c.level))
    (c.allowedPaths (o2.visit dev)) (c.allowedNames (o3.visit counters)) hvu hvi
  have e1 := (names_diskSections c (c.allowedPaths (o1.visit dev))
    (c.allowedNames (o3.visit counters))).1
  have e2 := (names_diskSections c (c.allowedPaths (o2.visit dev))
    (c.allowedNames (o3.visit counters))).2.1
  have e3 := (names_diskSections c (c.allowedPaths (o1.visit dev))
    (c.allowedNames (o3.visit counters))).2.2
  simp only [names] at e1 e2 e3
  rw [disk_records_eq]
  simp only [names, List.map_append]
  by_cases h1 : 1 < c.level
  · by_cases h2 : 2 < c.level
    · rw [if_pos h1, if_pos h2, e1, e2, e3]
      refine List.nodup_append.mpr ⟨List.nodup_append.mpr ⟨n1, n2, fun n h h' => d12 n h h'⟩,
        n3, ?_⟩
      intro n h h'
      rcases List.mem_append.mp h with h | h
      · exact d13 n h h'
      · exact d23 n h h'
    · rw [if_pos h1, if_neg h2, e1, e2]
      simp only [List.map_nil, List.append_nil]
      exact List.nodup_append.mpr ⟨n1, n2, fun n h h' => d12 n h h'⟩
  · have h2 : ¬ 2 < c.level := by omega
    rw [if_neg h1, if_neg h2, e1]
    simpa using n1

/-! ## C12 -/

/-- C12, counterexample.  Two partitions with the distinct devices
`/dev/x}{mount=/y` (mounted on `/z`, half used) and `/dev/x` (mounted on
`/y}{mount=/z`, a quarter used), level 1, no allow-list: `Disk.scrape`
publishes two records with the same name. -/
theorem disk_names_counterexample :
    (([⟨"/dev/x\x7d\x7bmount=/y", "/z"⟩, ⟨"/dev/x", "/y\x7d\x7bmount=/z"⟩]
        : List PartitionStat).map (·.Device)).Nodup ∧
    (NewDisk 1000 1 .null).scrape (.ok [])
        (.ok [⟨"/dev/x\x7d\x7bmount=/y", "/z"⟩, ⟨"/dev/x", "/y\x7d\x7bmount=/z"⟩])
        (fun m => .ok { usageAt m with
          UsedPercent := if m = "/z" then .fin 50 else .fin 25 })
        .stored .stored .stored =
      .ok { NewDisk 1000 1 .null with MetricsCollected :=
              [ ⟨"os.disk.fs\x7bdisk=/dev/x\x7d\x7bmount=/y\x7d\x7bmount=/z\x7d", "50.000000"⟩,
                ⟨"os.disk.fs\x7bdisk=/dev/x\x7d\x7bmount=/y\x7d\x7bmount=/z\x7d",
                  "25.000000"⟩ ] } ∧
    ¬ (names
        [ (⟨"os.disk.fs\x7bdisk=/dev/x\x7d\x7bmount=/y\x7d\x7bmount=/z\x7d", "50.000000"⟩
            : MetricCollected),
          ⟨"os.disk.fs\x7bdisk=/dev/x\x7d\x7bmount=/y\x7d\x7bmount=/z\x7d", "25.000000"⟩ ]).Nodup := by
  refine ⟨by decide, by with_unfolding_all rfl, by decide⟩

/-- C12, as amended.  The sequence published by one successful scrape has no
two records with the same name: for CPU, Memory and Load on every input; for
Net when the interfaces of the provider's list have distinct names; for Disk
when the counter names are distinct and no device path of a partition contains
the character `}` (the devices of the usage map are distinct by
construction). -/
theorem names_unique_in_snapshot :
    (∀ (c : CPU) (times : List TimesStat), c.times ≠ [] → times.length ≤ c.times.length →
      ∃ s : CPU, c.scrape (.ok times) = .ok s ∧ (names s.Metrics.1).Nodup) ∧
    (∀ (c : Memory) (virt : VirtualMemoryStat) (swap : SwapMemoryStat),
      ∃ s : Memory, c.scrape (.ok virt) (.ok swap) = .ok s ∧ (names s.Metrics.1).Nodup) ∧
    (∀ (c : Load) (avg : AvgStat),
      ∃ s : Load, c.scrape (.ok avg) = .ok s ∧ (names s.Metrics.1).Nodup) ∧
    (∀ (c : Net) (counters : List NetIOCountersStat), (counters.map (·.Name)).Nodup →
      (1000 ≤ c.period → ∃ s : Net, c.scrape (.ok counters) = .ok s) ∧
      ∀ s : Net, c.scrape (.ok counters) = .ok s → (names s.Metrics.1).Nodup) ∧
    (∀ (c : Disk) (counters : List (String × DiskIOCountersStat)) (parts : List PartitionStat)
        (usage : String → Except String UsageStat) (o1 o2 o3 : RangeOrder),
      (counters.map Prod.fst).Nodup → (∀ p ∈ parts, '\x7d' ∉ p.Device.data) →
      ∃ s : Disk, c.scrape (.ok counters) (.ok parts) usage o1 o2 o3 = .ok s ∧
        (names s.Metrics.1).Nodup) := by
  refine ⟨?_, ?_, ?_, ?_, ?_⟩
  · intro c times hne hlen
    exact ⟨_, cpu_scrape_ok c times hne hlen, cpuRecords_names_nodup _ _⟩
  · intro c virt swap
    exact ⟨_, rfl, memory_names_nodup c virt swap⟩
  · intro c avg
    exact ⟨_, rfl, load_names_nodup c avg⟩
  · intro c counters hn
    refine ⟨fun hp => ⟨_, net_scrape_ok c counters hp⟩, ?_⟩
    intro s hs
    rw [net_scrape_eq] at hs
    split at hs
    · cases hs
    · injection hs with hs
      subst hs
      exact net_names_nodup c counters _ _ hn
  · intro c counters parts usage o1 o2 o3 hc hb
    refine ⟨_, disk_scrape_ok c counters parts usage o1 o2 o3, ?_⟩
    refine disk_names_nodup c counters _ o1 o2 o3 hc
      (diskUsages_keys_nodup usage parts [] (by simp)) ?_
    intro e he
    rcases mem_diskUsages usage parts [] e he with h | ⟨p, hp, hd, _⟩
    · cases h
    · rw [← hd]
      exact hb p hp

/-- C12, the amended statement for Disk at level 5, devices `/dev/sda` and
`/dev/sdb`, counters `sda` and `sdb`, no allow-list: 28 records with distinct
names. -/
theorem names_unique_in_snapshot_witness :
    ∃ s : Disk,
      (NewDisk 1000 5 .null).scrape (.ok [("sda", ioSample), ("sdb", ioSample)])
          (.ok [⟨"/dev/sda", "/"⟩, ⟨"/dev/sdb", "/home"⟩])
          (fun m => .ok (usageAt m)) .stored .backwards .stored = .ok s ∧
      (names s.Metrics.1).Nodup :=
  names_unique_in_snapshot.2.2.2.2 (NewDisk 1000 5 .null) [("sda", ioSample), ("sdb", ioSample)]
    [⟨"/dev/sda", "/"⟩, ⟨"/dev/sdb", "/home"⟩] (fun m => .ok (usageAt m))
    .stored .backwards .stored (by decide) (by decide)

/-! ## Lemmas on the indexing of the retained sample -/

theorem cpuDeltas_of_gt (retained : List TimesStat) :
    ∀ (times : List TimesStat) (i : Nat), i ≤ retained.length →
      retained.length < i + times.length → cpuDeltas retained i times = none
  | [], i, hi, h => by
      simp only [List.length_nil, Nat.add_zero] at h
      omega
  | t :: rest, i, _, h => by
      by_cases hi : i < retained.length
      · have ih := cpuDeltas_of_gt retained rest (i + 1) hi
          (by simp only [List.length_cons] at h; omega)
        simp only [cpuDeltas, List.getElem?_eq_getElem hi, ih]
      · have hnone : retained[i]? = none := List.getElem?_eq_none (by omega)
        simp only [cpuDeltas, hnone]

/-! ## C21 -/

/-- C21.  For a non-empty retained sample of length `m` and a new sample of
length `n`, the first loop of `CPU.scrape` reads the retained sample at the
indices `0 .. n-1`: these accesses are all in bounds exactly when `n <= m`, in
which case the loop yields the fractions of the cores index by index and
`CPU.scrape` returns `nil`; when `n > m` the access at index `m` is out of range
and `CPU.scrape` panics. -/
theorem cpu_retained_indexing (c : CPU) (times : List TimesStat) (hne : c.times ≠ []) :
    ((∀ i, i < times.length → (c.times[i]?).isSome) ↔ times.length ≤ c.times.length) ∧
    (times.length ≤ c.times.length →
      cpuDeltas c.times 0 times = some (List.zipWith coreFractions times c.times) ∧
      ∃ s : CPU, c.scrape (.ok times) = .ok s) ∧
    (c.times.length < times.length →
      c.times[c.times.length]? = none ∧
      (∀ i, i < c.times.length → (c.times[i]?).isSome) ∧
      cpuDeltas c.times 0 times = none ∧
      c.scrape (.ok times) = .panic) := by
  have h0 : ¬ c.times.length = 0 := fun h => hne (List.length_eq_zero.mp h)
  have hsome : ∀ i, (c.times[i]?).isSome ↔ i < c.times.length := by
    intro i
    by_cases hi : i < c.times.length
    · simp [List.getElem?_eq_getElem hi, hi]
    · simp [List.getElem?_eq_none (Nat.le_of_not_lt hi), hi]
  refine ⟨?_, ?_, ?_⟩
  · constructor
    · intro h
      by_contra hlt
      have hm := (hsome c.times.length).mp (h c.times.length (by omega))
      omega
    · intro h i hi
      exact (hsome i).mpr (by omega)
  · intro h
    have hd := cpuDeltas_of_le c.times times 0 (by omega)
    simp only [List.drop_zero] at hd
    exact ⟨hd, _, cpu_scrape_ok c times hne h⟩
  · intro h
    have hd := cpuDeltas_of_gt c.times times 0 (Nat.zero_le _) (by omega)
    refine ⟨List.getElem?_eq_none (Nat.le_refl _), fun i hi => (hsome i).mpr hi, hd, ?_⟩
    simp only [CPU.scrape, h0, if_false, hd]

/-- C21 at a retained sample of one core: a new sample of one core is read in
bounds and `CPU.scrape` returns; a new sample of two cores reads index 1 out of
range and `CPU.scrape` panics. -/
theorem cpu_retained_indexing_witness :
    (CPU.mk [coreSample 100 1000] [] 1).times ≠ [] ∧
    CPU.scrape ⟨[coreSample 100 1000], [], 1⟩ (.ok [coreSample 150 1100]) =
      .ok ⟨[coreSample 150 1100], [⟨"os.cpu\x7b\x7d", "50.000000"⟩], 1⟩ ∧
    CPU.scrape ⟨[coreSample 100 1000], [], 1⟩
      (.ok [coreSample 150 1100, coreSample 150 1100]) = .panic ∧
    ((CPU.mk [coreSample 100 1000] [] 1).times.length
        < [coreSample 150 1100, coreSample 150 1100].length →
      (CPU.mk [coreSample 100 1000] [] 1).times[
          (CPU.mk [coreSample 100 1000] [] 1).times.length]? = none ∧
      (∀ i, i < (CPU.mk [coreSample 100 1000] [] 1).times.length →
        ((CPU.mk [coreSample 100 1000] [] 1).times[i]?).isSome) ∧
      cpuDeltas (CPU.mk [coreSample 100 1000] [] 1).times 0
        [coreSample 150 1100, coreSample 150 1100] = none ∧
      (CPU.mk [coreSample 100 1000] [] 1).scrape
        (.ok [coreSample 150 1100, coreSample 150 1100]) = .panic) :=
  ⟨by simp, by with_unfolding_all rfl,
    by with_unfolding_all rfl,
    (cpu_retained_indexing ⟨[coreSample 100 1000], [], 1⟩
      [coreSample 150 1100, coreSample 150 1100] (by simp)).2.2⟩

/-! ## Lemmas on the rounding of float64 -/

theorem floorLog2Loop_spec : ∀ (fuel n : Nat), 0 < n → n ≤ fuel →
    2 ^ floorLog2Loop fuel n ≤ n ∧ n < 2 ^ (floorLog2Loop fuel n + 1)
  | 0, n, h0, hle => by omega
  | fuel + 1, n, h0, hle => by
      unfold floorLog2Loop
      by_cases h2 : n < 2
      · simp only [h2, if_true]
        constructor <;> simp <;> omega
      · simp only [h2, if_false]
        have ih := floorLog2Loop_spec fuel (n / 2) (by omega) (by omega)
        generalize floorLog2Loop fuel (n / 2) = k at ih
        rw [pow_succ, pow_succ]
        rw [pow_succ] at ih
        omega

theorem floorLog2_spec (n : Nat) (h : 0 < n) :
    2 ^ floorLog2 n ≤ n ∧ n < 2 ^ (floorLog2 n + 1) :=
  floorLog2Loop_spec n n h (Nat.le_refl n)

theorem roundHalfEven_le (a b N : Nat) (hb : 0 < b) (h : a ≤ N * b) :
    roundHalfEven a b ≤ N := by
  have hf : a / b ≤ N := Nat.div_le_of_le_mul (by rwa [Nat.mul_comm] at h)
  have hdm := Nat.div_add_mod a b
  have hr := Nat.mod_lt a hb
  simp only [roundHalfEven]
  rcases Nat.lt_or_ge (a / b) N with hlt | hge
  · split_ifs <;> omega
  · have hfe : a / b = N := by omega
    have hr0 : a % b = 0 := by
      rw [hfe, Nat.mul_comm] at hdm
      omega
    rw [hr0]
    simp [hb, hf]

theorem roundHalfEven_ge (a b N : Nat) (hb : 0 < b) (h : N * b ≤ a) :
    N ≤ roundHalfEven a b := by
  have hf : N ≤ a / b := (Nat.le_div_iff_mul_le hb).mpr h
  simp only [roundHalfEven]
  split_ifs <;> omega

theorem roundHalfEven_le_even (a b N : Nat) (hb : 0 < b) (h : 2 * a ≤ (2 * N + 1) * b)
    (hN : N % 2 = 0) : roundHalfEven a b ≤ N := by
  have hdm := Nat.div_add_mod a b
  have hr := Nat.mod_lt a hb
  have hf : a / b ≤ N := by
    apply Nat.le_of_lt_succ
    rw [Nat.div_lt_iff_lt_mul hb]
    nlinarith
  simp only [roundHalfEven]
  rcases Nat.lt_or_ge (a / b) N with hlt | hge
  · split_ifs <;> omega
  · have hfe : a / b = N := by omega
    have h2r : 2 * (a % b) ≤ b := by
      rw [hfe] at hdm
      nlinarith
    rw [hfe]
    split_ifs <;> omega

theorem ulpExponent_hi (a b : Nat) (ha : 0 < a) (hb : 0 < b) :
    a * 2 ^ 1074 < b * 2 ^ (ulpExponent a b + 53) := by
  obtain ⟨ha1, ha2⟩ := floorLog2_spec a ha
  obtain ⟨hb1, hb2⟩ := floorLog2_spec b hb
  have hpos : 0 < 2 ^ floorLog2 b := Nat.two_pow_pos _
  apply Nat.lt_of_mul_lt_mul_right (a := 2 ^ floorLog2 b)
  unfold ulpExponent
  split_ifs with ht
  · -- a < 2 ^ (la + 1), 2 ^ lb ≤ b
    have hE : floorLog2 a + 1 + 1074 + floorLog2 b ≤
        floorLog2 b + (floorLog2 a + 1022 - floorLog2 b + 53) + floorLog2 b := by omega
    calc a * 2 ^ 1074 * 2 ^ floorLog2 b
        < 2 ^ (floorLog2 a + 1) * 2 ^ 1074 * 2 ^ floorLog2 b := by
          apply Nat.mul_lt_mul_of_pos_right _ hpos
          exact Nat.mul_lt_mul_of_pos_right ha2 (Nat.two_pow_pos 1074)
      _ = 2 ^ (floorLog2 a + 1 + 1074 + floorLog2 b) := by rw [← pow_add, ← pow_add]
      _ ≤ 2 ^ (floorLog2 b + (floorLog2 a + 1022 - floorLog2 b + 53) + floorLog2 b) :=
          Nat.pow_le_pow_right (by norm_num) hE
      _ = 2 ^ floorLog2 b * 2 ^ (floorLog2 a + 1022 - floorLog2 b + 53) * 2 ^ floorLog2 b := by
          rw [← pow_add, ← pow_add]
      _ ≤ b * 2 ^ (floorLog2 a + 1022 - floorLog2 b + 53) * 2 ^ floorLog2 b := by
          apply Nat.mul_le_mul_right
          exact Nat.mul_le_mul_right _ hb1
  · have ht' : a * 2 ^ floorLog2 b < b * 2 ^ floorLog2 a := Nat.lt_of_not_le ht
    have hE : floorLog2 a + 1074 ≤ floorLog2 a + 1021 - floorLog2 b + 53 + floorLog2 b := by omega
    calc a * 2 ^ 1074 * 2 ^ floorLog2 b
        = a * 2 ^ floorLog2 b * 2 ^ 1074 := by ring
      _ < b * 2 ^ floorLog2 a * 2 ^ 1074 :=
          Nat.mul_lt_mul_of_pos_right ht' (Nat.two_pow_pos 1074)
      _ = b * 2 ^ (floorLog2 a + 1074) := by rw [Nat.mul_assoc, ← pow_add]
      _ ≤ b * 2 ^ (floorLog2 a + 1021 - floorLog2 b + 53 + floorLog2 b) :=
          Nat.mul_le_mul_left _ (Nat.pow_le_pow_right (by norm_num) hE)
      _ = b * 2 ^ (floorLog2 a + 1021 - floorLog2 b + 53) * 2 ^ floorLog2 b := by
          rw [Nat.mul_assoc, ← pow_add]

theorem ulpExponent_lo (a b : Nat) (ha : 0 < a) (hb : 0 < b) (hE : 0 < ulpExponent a b) :
    b * 2 ^ (ulpExponent a b + 52) ≤ a * 2 ^ 1074 := by
  obtain ⟨ha1, ha2⟩ := floorLog2_spec a ha
  obtain ⟨hb1, hb2⟩ := floorLog2_spec b hb
  have hpos : 0 < 2 ^ floorLog2 b := Nat.two_pow_pos _
  apply Nat.le_of_mul_le_mul_right (c := 2 ^ floorLog2 b) _ hpos
  unfold ulpExponent at hE ⊢
  split_ifs at hE ⊢ with ht
  · have hE' : floorLog2 a + 1022 - floorLog2 b + 52 + floorLog2 b = floorLog2 a + 1074 := by
      omega
    calc b * 2 ^ (floorLog2 a + 1022 - floorLog2 b + 52) * 2 ^ floorLog2 b
        = b * 2 ^ (floorLog2 a + 1074) := by rw [Nat.mul_assoc, ← pow_add, hE']
      _ = b * 2 ^ floorLog2 a * 2 ^ 1074 := by rw [pow_add, Nat.mul_assoc]
      _ ≤ a * 2 ^ floorLog2 b * 2 ^ 1074 := Nat.mul_le_mul_right _ ht
      _ = a * 2 ^ 1074 * 2 ^ floorLog2 b := by ring
  · have hE' : floorLog2 a + 1021 - floorLog2 b + 52 + floorLog2 b = floorLog2 a + 1073 := by
      omega
    calc b * 2 ^ (floorLog2 a + 1021 - floorLog2 b + 52) * 2 ^ floorLog2 b
        = b * 2 ^ (floorLog2 a + 1073) := by rw [Nat.mul_assoc, ← pow_add, hE']
      _ ≤ 2 ^ (floorLog2 b + 1) * 2 ^ (floorLog2 a + 1073) :=
          Nat.mul_le_mul_right _ (Nat.le_of_lt hb2)
      _ = 2 ^ floorLog2 a * 2 ^ 1074 * 2 ^ floorLog2 b := by
          rw [← pow_add, ← pow_add, ← pow_add]
          congr 1
          omega
      _ ≤ a * 2 ^ 1074 * 2 ^ floorLog2 b := by
          apply Nat.mul_le_mul_right
          exact Nat.mul_le_mul_right _ ha1

theorem ulpExponent_zero (b : Nat) : ulpExponent 0 b ≤ 1022 := by
  have h0 : floorLog2 0 = 0 := rfl
  unfold ulpExponent
  rw [h0]
  split_ifs <;> omega

theorem ulpExponent_pos_of_gt (a b : Nat) (h : 1022 < ulpExponent a b) : 0 < a := by
  rcases Nat.eq_zero_or_pos a with h0 | h0
  · subst h0
    have := ulpExponent_zero b
    omega
  · exact h0

/-- The rounded significand of `a / b`, scaled back, does not exceed a natural
number `K ≤ 2 ^ 53` that `a / b` does not exceed. -/
theorem roundMagnitude_core_le (a b K : Nat) (hb : 0 < b) (hK : K ≤ 2 ^ 53) (h : a ≤ K * b) :
    roundHalfEven (a * 2 ^ 1074) (b * 2 ^ ulpExponent a b) * 2 ^ ulpExponent a b
      ≤ K * 2 ^ 1074 := by
  have hbe : 0 < b * 2 ^ ulpExponent a b := Nat.mul_pos hb (Nat.two_pow_pos _)
  by_cases he : ulpExponent a b ≤ 1074
  · obtain ⟨d, hd⟩ : ∃ d, d + ulpExponent a b = 1074 := ⟨1074 - ulpExponent a b, by omega⟩
    have hP : 2 ^ 1074 = 2 ^ d * 2 ^ ulpExponent a b := by rw [← pow_add, hd]
    have h1 : roundHalfEven (a * 2 ^ 1074) (b * 2 ^ ulpExponent a b) ≤ K * 2 ^ d := by
      apply roundHalfEven_le _ _ _ hbe
      rw [hP]
      calc a * (2 ^ d * 2 ^ ulpExponent a b)
          ≤ K * b * (2 ^ d * 2 ^ ulpExponent a b) := Nat.mul_le_mul_right _ h
        _ = K * 2 ^ d * (b * 2 ^ ulpExponent a b) := by ring
    calc roundHalfEven (a * 2 ^ 1074) (b * 2 ^ ulpExponent a b) * 2 ^ ulpExponent a b
        ≤ K * 2 ^ d * 2 ^ ulpExponent a b := Nat.mul_le_mul_right _ h1
      _ = K * 2 ^ 1074 := by rw [hP, Nat.mul_assoc]
  · have ha : 0 < a := ulpExponent_pos_of_gt a b (by omega)
    have hlo := ulpExponent_lo a b ha hb (by omega)
    have h3 : b * 2 ^ (ulpExponent a b + 52) ≤ b * 2 ^ (53 + 1074) :=
      calc b * 2 ^ (ulpExponent a b + 52) ≤ a * 2 ^ 1074 := hlo
        _ ≤ K * b * 2 ^ 1074 := Nat.mul_le_mul_right _ h
        _ ≤ 2 ^ 53 * b * 2 ^ 1074 := Nat.mul_le_mul_right _ (Nat.mul_le_mul_right _ hK)
        _ = b * 2 ^ (53 + 1074) := by rw [pow_add]; ring
    have h4 : ulpExponent a b + 52 ≤ 53 + 1074 :=
      (Nat.pow_le_pow_iff_right (by norm_num)).mp (Nat.le_of_mul_le_mul_left h3 hb)
    have he' : ulpExponent a b = 1 + 1074 := by omega
    rw [he'] at hlo ⊢
    have hP : 0 < 2 ^ 1074 := Nat.two_pow_pos 1074
    rw [pow_add, pow_add] at hlo
    rw [pow_add]
    generalize 2 ^ 1074 = P at hlo hP ⊢
    have hba : 2 ^ 53 * b ≤ a := by
      have h5 : 2 ^ 53 * b * P ≤ a * P :=
        calc 2 ^ 53 * b * P = b * (2 ^ 1 * P * 2 ^ 52) := by ring
          _ ≤ a * P := hlo
      exact Nat.le_of_mul_le_mul_right h5 hP
    have hKb : 2 ^ 53 * b ≤ K * b := Nat.le_trans hba h
    have hK' : 2 ^ 53 ≤ K := Nat.le_of_mul_le_mul_right hKb hb
    have hKe : K = 2 ^ 53 := Nat.le_antisymm hK hK'
    have ha' : a = 2 ^ 53 * b := by
      rw [hKe] at h
      exact Nat.le_antisymm h hba
    have h1 : roundHalfEven (a * P) (b * (2 ^ 1 * P)) ≤ 2 ^ 52 := by
      apply roundHalfEven_le _ _ _ (Nat.mul_pos hb (Nat.mul_pos (by norm_num) hP))
      rw [ha']
      apply Nat.le_of_eq
      ring
    calc roundHalfEven (a * P) (b * (2 ^ 1 * P)) * (2 ^ 1 * P)
        ≤ 2 ^ 52 * (2 ^ 1 * P) := Nat.mul_le_mul_right _ h1
      _ = K * P := by rw [hKe]; ring

/-- The rounded significand of `a / b`, scaled back, is not below a natural
number `K ≤ 2 ^ 53` that `a / b` is not below. -/
theorem roundMagnitude_core_ge (a b K : Nat) (hb : 0 < b) (hK : K ≤ 2 ^ 53) (h : K * b ≤ a) :
    K * 2 ^ 1074
      ≤ roundHalfEven (a * 2 ^ 1074) (b * 2 ^ ulpExponent a b) * 2 ^ ulpExponent a b := by
  have hbe : 0 < b * 2 ^ ulpExponent a b := Nat.mul_pos hb (Nat.two_pow_pos _)
  by_cases he : ulpExponent a b ≤ 1074
  · obtain ⟨d, hd⟩ : ∃ d, d + ulpExponent a b = 1074 := ⟨1074 - ulpExponent a b, by omega⟩
    have hP : 2 ^ 1074 = 2 ^ d * 2 ^ ulpExponent a b := by rw [← pow_add, hd]
    have h1 : K * 2 ^ d ≤ roundHalfEven (a * 2 ^ 1074) (b * 2 ^ ulpExponent a b) := by
      apply roundHalfEven_ge _ _ _ hbe
      rw [hP]
      calc K * 2 ^ d * (b * 2 ^ ulpExponent a b)
          = K * b * (2 ^ d * 2 ^ ulpExponent a b) := by ring
        _ ≤ a * (2 ^ d * 2 ^ ulpExponent a b) := Nat.mul_le_mul_right _ h
    calc K * 2 ^ 1074 = K * 2 ^ d * 2 ^ ulpExponent a b := by rw [hP, Nat.mul_assoc]
      _ ≤ roundHalfEven (a * 2 ^ 1074) (b * 2 ^ ulpExponent a b) * 2 ^ ulpExponent a b :=
          Nat.mul_le_mul_right _ h1
  · have ha : 0 < a := ulpExponent_pos_of_gt a b (by omega)
    have hlo := ulpExponent_lo a b ha hb (by omega)
    have h1 : 2 ^ 52 ≤ roundHalfEven (a * 2 ^ 1074) (b * 2 ^ ulpExponent a b) := by
      apply roundHalfEven_ge _ _ _ hbe
      calc 2 ^ 52 * (b * 2 ^ ulpExponent a b) = b * 2 ^ (ulpExponent a b + 52) := by
            rw [pow_add]; ring
        _ ≤ a * 2 ^ 1074 := hlo
    have hE : 53 + 1074 ≤ 52 + ulpExponent a b := by omega
    calc K * 2 ^ 1074 ≤ 2 ^ 53 * 2 ^ 1074 := Nat.mul_le_mul_right _ hK
      _ = 2 ^ (53 + 1074) := by rw [← pow_add]
      _ ≤ 2 ^ (52 + ulpExponent a b) := Nat.pow_le_pow_right (by norm_num) hE
      _ = 2 ^ 52 * 2 ^ ulpExponent a b := by rw [pow_add]
      _ ≤ roundHalfEven (a * 2 ^ 1074) (b * 2 ^ ulpExponent a b) * 2 ^ ulpExponent a b :=
          Nat.mul_le_mul_right _ h1

/-- The rounded significand of `a / b`, scaled back, does not exceed `2 ^ 53`
when `a / b` does not exceed `2 ^ 53 + 1`. -/
theorem roundMagnitude_core_le_succ (a b : Nat) (hb : 0 < b) (h : a ≤ (2 ^ 53 + 1) * b) :
    roundHalfEven (a * 2 ^ 1074) (b * 2 ^ ulpExponent a b) * 2 ^ ulpExponent a b
      ≤ 2 ^ 53 * 2 ^ 1074 := by
  by_cases he : ulpExponent a b ≤ 1074
  · apply roundMagnitude_core_le a b (2 ^ 53) hb (Nat.le_refl _)
    rcases Nat.eq_zero_or_pos a with h0 | h0
    · rw [h0]; exact Nat.zero_le _
    · have hhi := ulpExponent_hi a b h0 hb
      have hE : ulpExponent a b + 53 ≤ 53 + 1074 := by omega
      have h2 : a * 2 ^ 1074 < 2 ^ 53 * b * 2 ^ 1074 :=
        calc a * 2 ^ 1074 < b * 2 ^ (ulpExponent a b + 53) := hhi
          _ ≤ b * 2 ^ (53 + 1074) := Nat.mul_le_mul_left _ (Nat.pow_le_pow_right (by norm_num) hE)
          _ = 2 ^ 53 * b * 2 ^ 1074 := by rw [pow_add]; ring
      exact Nat.le_of_lt (Nat.lt_of_mul_lt_mul_right h2)
  · have ha : 0 < a := ulpExponent_pos_of_gt a b (by omega)
    have hlo := ulpExponent_lo a b ha hb (by omega)
    have h3 : b * 2 ^ (ulpExponent a b + 52) < b * 2 ^ (54 + 1074) :=
      calc b * 2 ^ (ulpExponent a b + 52) ≤ a * 2 ^ 1074 := hlo
        _ ≤ (2 ^ 53 + 1) * b * 2 ^ 1074 := Nat.mul_le_mul_right _ h
        _ < 2 ^ 54 * b * 2 ^ 1074 := by
            apply Nat.mul_lt_mul_of_pos_right _ (Nat.two_pow_pos 1074)
            exact Nat.mul_lt_mul_of_pos_right (by norm_num) hb
        _ = b * 2 ^ (54 + 1074) := by rw [pow_add]; ring
    have h4 : ulpExponent a b + 52 < 54 + 1074 :=
      (Nat.pow_lt_pow_iff_right (by norm_num)).mp (Nat.lt_of_mul_lt_mul_left h3)
    have he' : ulpExponent a b = 1 + 1074 := by omega
    rw [he', pow_add]
    have hP : 0 < 2 ^ 1074 := Nat.two_pow_pos 1074
    generalize 2 ^ 1074 = P at hP ⊢
    have h1 : roundHalfEven (a * P) (b * (2 ^ 1 * P)) ≤ 2 ^ 52 := by
      apply roundHalfEven_le_even _ _ _ (Nat.mul_pos hb (Nat.mul_pos (by norm_num) hP))
      · calc 2 * (a * P) ≤ 2 * ((2 ^ 53 + 1) * b * P) :=
              Nat.mul_le_mul_left _ (Nat.mul_le_mul_right _ h)
          _ = (2 * 2 ^ 52 + 1) * (b * (2 ^ 1 * P)) := by ring
      · norm_num
    calc roundHalfEven (a * P) (b * (2 ^ 1 * P)) * (2 ^ 1 * P)
        ≤ 2 ^ 52 * (2 ^ 1 * P) := Nat.mul_le_mul_right _ h1
      _ = 2 ^ 53 * P := by ring

theorem rat_eq_natAbs_div (q : ℚ) (hq : 0 ≤ q) : q = (q.num.natAbs : ℚ) / (q.den : ℚ) := by
  have hn : (0 : ℤ) ≤ q.num := Rat.num_nonneg.mpr hq
  have h2 : ((q.num.natAbs : ℕ) : ℚ) = (q.num : ℚ) := by
    rw [← Int.cast_natCast, Int.natAbs_of_nonneg hn]
  rw [h2]
  exact (Rat.num_div_den q).symm

theorem natAbs_le_mul_den (q : ℚ) (K : Nat) (hq : 0 ≤ q) (h : q ≤ K) :
    q.num.natAbs ≤ K * q.den := by
  have hd : (0 : ℚ) < (q.den : ℚ) := by exact_mod_cast q.den_pos
  have h1 : (q.num.natAbs : ℚ) / (q.den : ℚ) ≤ K := by rwa [← rat_eq_natAbs_div q hq]
  have h2 : (q.num.natAbs : ℚ) ≤ K * q.den := (div_le_iff₀ hd).mp h1
  exact_mod_cast h2

theorem mul_den_le_natAbs (q : ℚ) (K : Nat) (hq : 0 ≤ q) (h : (K : ℚ) ≤ q) :
    K * q.den ≤ q.num.natAbs := by
  have hd : (0 : ℚ) < (q.den : ℚ) := by exact_mod_cast q.den_pos
  have h1 : (K : ℚ) ≤ (q.num.natAbs : ℚ) / (q.den : ℚ) := by rwa [← rat_eq_natAbs_div q hq]
  have h2 : (K : ℚ) * q.den ≤ (q.num.natAbs : ℚ) := (le_div_iff₀ hd).mp h1
  exact_mod_cast h2

theorem make_false_eq (q : ℚ) :
    F64.make false q =
      if 2 ^ 2098 ≤ roundHalfEven (q.num.natAbs * 2 ^ 1074)
            (q.den * 2 ^ ulpExponent q.num.natAbs q.den) * 2 ^ ulpExponent q.num.natAbs q.den
      then .pinf
      else .fin (((roundHalfEven (q.num.natAbs * 2 ^ 1074)
            (q.den * 2 ^ ulpExponent q.num.natAbs q.den) * 2 ^ ulpExponent q.num.natAbs q.den
              : Nat) : ℚ) / ((2 ^ 1074 : Nat) : ℚ)) := by
  unfold F64.make roundMagnitude
  simp only []
  by_cases h : 2 ^ 2098 ≤ roundHalfEven (q.num.natAbs * 2 ^ 1074)
      (q.den * 2 ^ ulpExponent q.num.natAbs q.den) * 2 ^ ulpExponent q.num.natAbs q.den
  · rw [if_pos h, if_pos h]
    rfl
  · rw [if_neg h, if_neg h]
    simp only [F64.zero, Bool.false_eq_true, if_false]
    split_ifs with h0
    · rw [h0]
    · rfl



theorem two_pow_1127_lt : 2 ^ 53 * 2 ^ 1074 < 2 ^ 2098 := by
  rw [← pow_add]
  exact Nat.pow_lt_pow_right (by norm_num) (by norm_num)

/-- Rounding a number between `0` and a natural number `K ≤ 2 ^ 53` gives a
finite value between `0` and `K`. -/
theorem make_le (q : ℚ) (K : Nat) (hq : 0 ≤ q) (hK : K ≤ 2 ^ 53) (h : q ≤ K) :
    ∃ y : ℚ, F64.make false q = .fin y ∧ 0 ≤ y ∧ y ≤ K := by
  have hc := roundMagnitude_core_le q.num.natAbs q.den K q.den_pos hK
    (natAbs_le_mul_den q K hq h)
  have hP : (0 : ℚ) < ((2 ^ 1074 : Nat) : ℚ) := by exact_mod_cast Nat.two_pow_pos 1074
  rw [make_false_eq]
  generalize roundHalfEven (q.num.natAbs * 2 ^ 1074)
      (q.den * 2 ^ ulpExponent q.num.natAbs q.den) * 2 ^ ulpExponent q.num.natAbs q.den = M at hc ⊢
  have hno : ¬ 2 ^ 2098 ≤ M := by
    have h1 : K * 2 ^ 1074 ≤ 2 ^ 53 * 2 ^ 1074 := Nat.mul_le_mul_right _ hK
    have h2 := two_pow_1127_lt
    omega
  rw [if_neg hno]
  refine ⟨_, rfl, div_nonneg (Nat.cast_nonneg _) (le_of_lt hP), ?_⟩
  rw [div_le_iff₀ hP]
  exact_mod_cast hc

/-- Rounding a number that is at least a natural number `K ≤ 2 ^ 53` gives
`+Inf` or a finite value that is at least `K`. -/
theorem make_ge (q : ℚ) (K : Nat) (hq : 0 ≤ q) (hK : K ≤ 2 ^ 53) (h : (K : ℚ) ≤ q) :
    F64.make false q = .pinf ∨ ∃ y : ℚ, F64.make false q = .fin y ∧ (K : ℚ) ≤ y := by
  have hc := roundMagnitude_core_ge q.num.natAbs q.den K q.den_pos hK
    (mul_den_le_natAbs q K hq h)
  have hP : (0 : ℚ) < ((2 ^ 1074 : Nat) : ℚ) := by exact_mod_cast Nat.two_pow_pos 1074
  rw [make_false_eq]
  generalize roundHalfEven (q.num.natAbs * 2 ^ 1074)
      (q.den * 2 ^ ulpExponent q.num.natAbs q.den) * 2 ^ ulpExponent q.num.natAbs q.den = M at hc ⊢
  split_ifs with hov
  · exact Or.inl rfl
  · refine Or.inr ⟨_, rfl, ?_⟩
    rw [le_div_iff₀ hP]
    exact_mod_cast hc

/-- Rounding a number between `0` and `2 ^ 53 + 1` gives a finite value
between `0` and `2 ^ 53`. -/
theorem make_le_succ (q : ℚ) (hq : 0 ≤ q) (h : q ≤ ((2 ^ 53 + 1 : Nat) : ℚ)) :
    ∃ y : ℚ, F64.make false q = .fin y ∧ 0 ≤ y ∧ y ≤ ((2 ^ 53 : Nat) : ℚ) := by
  have hc := roundMagnitude_core_le_succ q.num.natAbs q.den q.den_pos
    (natAbs_le_mul_den q (2 ^ 53 + 1) hq h)
  have hP : (0 : ℚ) < ((2 ^ 1074 : Nat) : ℚ) := by exact_mod_cast Nat.two_pow_pos 1074
  rw [make_false_eq]
  generalize roundHalfEven (q.num.natAbs * 2 ^ 1074)
      (q.den * 2 ^ ulpExponent q.num.natAbs q.den) * 2 ^ ulpExponent q.num.natAbs q.den = M at hc ⊢
  have hno : ¬ 2 ^ 2098 ≤ M := by
    have h2 := two_pow_1127_lt
    omega
  rw [if_neg hno]
  refine ⟨_, rfl, div_nonneg (Nat.cast_nonneg _) (le_of_lt hP), ?_⟩
  rw [div_le_iff₀ hP]
  exact_mod_cast hc

theorem F64.add_fin (a b : ℚ) : F64.add (.fin a) (.fin b) = F64.ofRat (a + b) := rfl

theorem F64.ofRat_nonneg (q : ℚ) (hq : 0 ≤ q) : F64.ofRat q = F64.make false q := by
  simp [F64.ofRat, not_lt.mpr hq]

theorem F64.sub_fin (a b : ℚ) : F64.sub (.fin a) (.fin b) = F64.ofRat (a - b) := by
  by_cases hb : b = 0
  · subst hb
    have h1 : F64.neg (.fin 0) = .nzero := by simp only [F64.neg, if_true]
    have h2 : F64.add (.fin a) .nzero = F64.ofRat (a + 0) := rfl
    rw [F64.sub, h1, h2, add_zero, sub_zero]
  · have h1 : F64.neg (.fin b) = .fin (-b) := by simp only [F64.neg, hb, if_false]
    rw [F64.sub, h1, F64.add_fin, sub_eq_add_neg]

theorem F64.div_fin_pos (a b : ℚ) (ha : 0 ≤ a) (hb : 0 < b) :
    F64.div (.fin a) (.fin b) = F64.make false (a / b) := by
  simp [F64.div, F64.isInf, F64.val, F64.signbit, ne_of_gt hb, not_lt.mpr ha,
    not_lt.mpr (le_of_lt hb)]

theorem F64.div_fin_pinf (a : ℚ) (ha : 0 ≤ a) : F64.div (.fin a) .pinf = .fin 0 := by
  simp [F64.div, F64.isInf, F64.signbit, F64.zero, not_lt.mpr ha]

theorem F64.mul_fin_nonneg (a b : ℚ) (ha : 0 ≤ a) (hb : 0 ≤ b) :
    F64.mul (.fin a) (.fin b) = F64.make false (a * b) := by
  simp [F64.mul, F64.isInf, F64.val, F64.signbit, not_lt.mpr ha, not_lt.mpr hb]



/-- The accumulation loop over fractions between 0 and 1, entered with a sum
between 0 and `min k (2 ^ 53)`, ends with a finite sum between 0 and
`min (k + n) (2 ^ 53)`. -/
theorem sumLoop_bound : ∀ (vs : List F64) (k : Nat) (s : ℚ), 0 ≤ s →
    s ≤ ((min k (2 ^ 53) : Nat) : ℚ) →
    (∀ v ∈ vs, ∃ y : ℚ, v = .fin y ∧ 0 ≤ y ∧ y ≤ 1) →
    ∃ S : ℚ, vs.foldl F64.add (.fin s) = .fin S ∧ 0 ≤ S ∧
      S ≤ ((min (k + vs.length) (2 ^ 53) : Nat) : ℚ)
  | [], k, s, h0, hs, _ => ⟨s, rfl, h0, by simpa using hs⟩
  | v :: rest, k, s, h0, hs, hv => by
      obtain ⟨y, rfl, hy0, hy1⟩ := hv v (List.mem_cons_self _ _)
      have hsum0 : 0 ≤ s + y := add_nonneg h0 hy0
      have hstep : ∃ S' : ℚ, F64.add (.fin s) (.fin y) = .fin S' ∧ 0 ≤ S' ∧
          S' ≤ ((min (k + 1) (2 ^ 53) : Nat) : ℚ) := by
        rw [F64.add_fin, F64.ofRat_nonneg _ hsum0]
        by_cases hk : k < 2 ^ 53
        · have hm : min k (2 ^ 53) = k := Nat.min_eq_left (Nat.le_of_lt hk)
          have hm' : min (k + 1) (2 ^ 53) = k + 1 := Nat.min_eq_left hk
          rw [hm] at hs
          rw [hm']
          apply make_le _ _ hsum0 hk
          push_cast
          linarith
        · have hm : min k (2 ^ 53) = 2 ^ 53 := Nat.min_eq_right (Nat.le_of_not_lt hk)
          have hm' : min (k + 1) (2 ^ 53) = 2 ^ 53 := Nat.min_eq_right (by omega)
          rw [hm] at hs
          rw [hm']
          apply make_le_succ _ hsum0
          push_cast at hs ⊢
          linarith
      obtain ⟨S', hS', hS0, hS1⟩ := hstep
      obtain ⟨S, hS, hS0', hS1'⟩ := sumLoop_bound rest (k + 1) S' hS0 hS1
        (fun v hv' => hv v (List.mem_cons_of_mem _ hv'))
      refine ⟨S, ?_, hS0', ?_⟩
      · rw [List.foldl_cons, hS', hS]
      · have hl : k + (rest.length + 1) = k + 1 + rest.length := by omega
        rw [List.length_cons, hl]
        exact hS1'

/-- The global utilisation computed from idle fractions between 0 and 1 is a
finite number between 0 and 100. -/
theorem cpuGlobal_bound (vs : List F64) (n : Nat) (hn : vs.length ≤ n) (hn0 : 0 < n)
    (hv : ∀ v ∈ vs, ∃ y : ℚ, v = .fin y ∧ 0 ≤ y ∧ y ≤ 1) :
    ∃ u : ℚ, F64.mul (F64.sub (.fin 1) (F64.div (vs.foldl F64.add (.fin 0)) (F64.ofNat n)))
        (.fin 100) = .fin u ∧ 0 ≤ u ∧ u ≤ 100 := by
  obtain ⟨S, hS, hS0, hS1⟩ := sumLoop_bound vs 0 0 (le_refl _) (by simp) hv
  rw [Nat.zero_add] at hS1
  have hmean : ∃ m : ℚ, F64.div (vs.foldl F64.add (.fin 0)) (F64.ofNat n) = .fin m ∧
      0 ≤ m ∧ m ≤ 1 := by
    rw [hS, F64.ofNat, F64.ofRat_nonneg _ (Nat.cast_nonneg n)]
    have hmin : (1 : ℚ) ≤ ((min n (2 ^ 53) : Nat) : ℚ) := by
      have : 1 ≤ min n (2 ^ 53) := Nat.le_min.mpr ⟨hn0, Nat.one_le_two_pow⟩
      exact_mod_cast this
    have hSle : S ≤ ((min n (2 ^ 53) : Nat) : ℚ) := by
      refine le_trans hS1 ?_
      have : min vs.length (2 ^ 53) ≤ min n (2 ^ 53) := by
        apply Nat.le_min.mpr
        exact ⟨Nat.le_trans (Nat.min_le_left _ _) hn, Nat.min_le_right _ _⟩
      exact_mod_cast this
    rcases make_ge (n : ℚ) (min n (2 ^ 53)) (Nat.cast_nonneg n) (Nat.min_le_right _ _)
        (by exact_mod_cast Nat.min_le_left n (2 ^ 53)) with hN | ⟨N, hN, hNge⟩
    · rw [hN, F64.div_fin_pinf S hS0]
      exact ⟨0, rfl, le_refl _, by norm_num⟩
    · have hNpos : 0 < N := lt_of_lt_of_le (by norm_num) (le_trans hmin hNge)
      rw [hN, F64.div_fin_pos S N hS0 hNpos]
      have hq0 : 0 ≤ S / N := div_nonneg hS0 (le_of_lt hNpos)
      have hq1 : S / N ≤ ((1 : Nat) : ℚ) := by
        rw [Nat.cast_one, div_le_one hNpos]
        exact le_trans hSle hNge
      obtain ⟨m, hm, hm0, hm1⟩ := make_le (S / N) 1 hq0 Nat.one_le_two_pow hq1
      exact ⟨m, hm, hm0, by simpa using hm1⟩
  obtain ⟨m, hm, hm0, hm1⟩ := hmean
  rw [hm, F64.sub_fin, F64.ofRat_nonneg _ (by linarith)]
  obtain ⟨w, hw, hw0, hw1⟩ := make_le (1 - m) 1 (by linarith) Nat.one_le_two_pow
    (by push_cast; linarith)
  have hw1' : w ≤ 1 := by simpa using hw1
  rw [hw, F64.mul_fin_nonneg w 100 hw0 (by norm_num)]
  obtain ⟨u, hu, hu0, hu1⟩ := make_le (w * 100) 100 (by positivity)
    (by norm_num) (by push_cast; linarith)
  exact ⟨u, hu, hu0, by simpa using hu1⟩

/-! ## C5 -/

theorem idles_eq (times retained : List TimesStat) :
    (List.zipWith coreFractions times retained).map (·.idle) =
      (List.zip times retained).map
        (fun p => F64.div (float64Delta (·.Idle) p.1 p.2) (float64Delta (·.Total) p.1 p.2)) := by
  rw [List.zip, List.map_zipWith, List.map_zipWith]
  simp only [coreFractions, float64Delta]

theorem cpuGlobal_eq (times retained : List TimesStat) (hlen : times.length = retained.length) :
    cpuGlobal ((List.zipWith coreFractions times retained).map (·.idle)) =
      float64GlobalUtilisation times retained := by
  rw [idles_eq]
  simp only [cpuGlobal, float64GlobalUtilisation, float64Sum, sumLoop, List.length_map,
    List.length_zip, hlen, Nat.min_self]

/-- C5, counterexample.  One core, positive total deltas.  Idle 100 -> 300,
total 1000 -> 1100: `CPU.scrape` publishes `os.cpu{}` = `-100.000000`, and the
formula of the claim is `-100`, outside `[0, 100]`.  Idle 100 -> 1033, total
1000 -> 3560: `CPU.scrape` publishes `os.cpu{}` = `63.554687`, whereas the
formula of the claim is `63.5546875`, whose six-digit rendering is
`63.554688`. -/
theorem cpu_global_range_counterexample :
    (∀ p ∈ List.zip [coreSample 300 1100] [coreSample 100 1000], 0 < p.1.Total - p.2.Total) ∧
    CPU.scrape ⟨[coreSample 100 1000], [], 1⟩ (.ok [coreSample 300 1100]) =
      .ok ⟨[coreSample 300 1100], [⟨"os.cpu\x7b\x7d", "-100.000000"⟩], 1⟩ ∧
    specGlobalUtilisation [coreSample 300 1100] [coreSample 100 1000] = -100 ∧
    ¬ (0 ≤ specGlobalUtilisation [coreSample 300 1100] [coreSample 100 1000] ∧
        specGlobalUtilisation [coreSample 300 1100] [coreSample 100 1000] ≤ 100) ∧
    (∀ p ∈ List.zip [coreSample 1033 3560] [coreSample 100 1000], 0 < p.1.Total - p.2.Total) ∧
    CPU.scrape ⟨[coreSample 100 1000], [], 1⟩ (.ok [coreSample 1033 3560]) =
      .ok ⟨[coreSample 1033 3560], [⟨"os.cpu\x7b\x7d", "63.554687"⟩], 1⟩ ∧
    specGlobalUtilisation [coreSample 1033 3560] [coreSample 100 1000] = 635546875 / 10000000 ∧
    FormatFloat (.fin (specGlobalUtilisation [coreSample 1033 3560] [coreSample 100 1000])) =
      "63.554688" := by
  have hs : specGlobalUtilisation [coreSample 300 1100] [coreSample 100 1000] = -100 := by
    simp [specGlobalUtilisation, coreSample]; norm_num
  have hs' : specGlobalUtilisation [coreSample 1033 3560] [coreSample 100 1000] =
      635546875 / 10000000 := by
    simp [specGlobalUtilisation, coreSample]; norm_num
  refine ⟨?_, ?_, hs, ?_, ?_, ?_, hs', ?_⟩
  · intro p hp
    simp only [List.zip_cons_cons, List.zip_nil_right, List.mem_singleton] at hp
    subst hp
    simp [coreSample]; norm_num
  · with_unfolding_all rfl
  · rw [hs]; norm_num
  · intro p hp
    simp only [List.zip_cons_cons, List.zip_nil_right, List.mem_singleton] at hp
    subst hp
    simp [coreSample]; norm_num
  · with_unfolding_all rfl
  · rw [hs']
    with_unfolding_all rfl

/-- C5, as amended.  For two consecutive samples of equal core count `n >= 1`,
`CPU.scrape` publishes under `os.cpu{}` (its first record, and the only one of
that name) the six-digit rendering of the float64 evaluation of
`(1 - (sum_i (idle_now_i - idle_prev_i) / (total_now_i - total_prev_i)) / n) * 100`,
every operation rounding to the nearest float64; that float64 is a finite
number in `[0, 100]` when on every core the float64 deltas satisfy
`0 <= idle_now_i - idle_prev_i <= total_now_i - total_prev_i` and
`0 < total_now_i - total_prev_i`. -/
theorem cpu_global_utilisation (c : CPU) (times : List TimesStat)
    (hne : c.times ≠ []) (hlen : times.length = c.times.length) :
    ∃ (s : CPU) (rest : List MetricCollected),
      c.scrape (.ok times) = .ok s ∧
      s.Metrics.1 =
        ⟨"os.cpu\x7b\x7d", FormatFloat (float64GlobalUtilisation times c.times)⟩ :: rest ∧
      (∀ r ∈ rest, r.Name ≠ "os.cpu\x7b\x7d") ∧
      ((∀ p ∈ List.zip times c.times, ∃ di dt : ℚ,
          float64Delta (·.Idle) p.1 p.2 = .fin di ∧ float64Delta (·.Total) p.1 p.2 = .fin dt ∧
          0 ≤ di ∧ di ≤ dt ∧ 0 < dt) →
        ∃ u : ℚ, float64GlobalUtilisation times c.times = .fin u ∧ 0 ≤ u ∧ u ≤ 100) := by
  have hn : 0 < times.length := by
    rw [hlen]; exact List.length_pos.mpr hne
  refine ⟨_, _, cpu_scrape_ok c times hne (le_of_eq hlen), ?_,
    cpuRecords_tail_ne_global c.level (List.zipWith coreFractions times c.times), ?_⟩
  · simp only [CPU.Metrics]
    rw [cpuRecords_eq_cons, cpuGlobal_eq times c.times hlen]
  · intro hb
    have hv : ∀ v ∈ (List.zip times c.times).map
        (fun p => F64.div (float64Delta (·.Idle) p.1 p.2) (float64Delta (·.Total) p.1 p.2)),
        ∃ y : ℚ, v = .fin y ∧ 0 ≤ y ∧ y ≤ 1 := by
      intro v hv
      obtain ⟨p, hp, rfl⟩ := List.mem_map.mp hv
      obtain ⟨di, dt, hdi, hdt, h0, hle, hpos⟩ := hb p hp
      simp only [hdi, hdt]
      rw [F64.div_fin_pos di dt h0 hpos]
      obtain ⟨y, hy, hy0, hy1⟩ := make_le (di / dt) 1 (div_nonneg h0 (le_of_lt hpos))
        Nat.one_le_two_pow (by rw [Nat.cast_one, div_le_one hpos]; exact hle)
      exact ⟨y, hy, hy0, by simpa using hy1⟩
    have hl : ((List.zip times c.times).map
        (fun p => F64.div (float64Delta (·.Idle) p.1 p.2)
          (float64Delta (·.Total) p.1 p.2))).length ≤ times.length := by
      simp [hlen]
    exact cpuGlobal_bound _ times.length hl hn hv



/-- C5, the amended statement at the case of the spec: one core, idle
100 -> 150, total 1000 -> 1100 (float64 deltas 50 and 100) gives the record
`os.cpu{}` = `50.000000`, the rendering of the float64 `50`. -/
theorem cpu_global_utilisation_witness :
    CPU.scrape ⟨[coreSample 100 1000], [], 1⟩ (.ok [coreSample 150 1100]) =
      .ok ⟨[coreSample 150 1100], [⟨"os.cpu\x7b\x7d", "50.000000"⟩], 1⟩ ∧
    float64GlobalUtilisation [coreSample 150 1100] [coreSample 100 1000] = .fin 50 ∧
    (CPU.mk [coreSample 100 1000] [] 1).times ≠ [] ∧
    [coreSample 150 1100].length = (CPU.mk [coreSample 100 1000] [] 1).times.length ∧
    (∀ p ∈ List.zip [coreSample 150 1100] (CPU.mk [coreSample 100 1000] [] 1).times,
      ∃ di dt : ℚ,
        float64Delta (·.Idle) p.1 p.2 = .fin di ∧ float64Delta (·.Total) p.1 p.2 = .fin dt ∧
        0 ≤ di ∧ di ≤ dt ∧ 0 < dt) ∧
    ∃ (s : CPU) (rest : List MetricCollected),
      (CPU.mk [coreSample 100 1000] [] 1).scrape (.ok [coreSample 150 1100]) = .ok s ∧
      s.Metrics.1 =
        ⟨"os.cpu\x7b\x7d", FormatFloat (float64GlobalUtilisation [coreSample 150 1100]
          (CPU.mk [coreSample 100 1000] [] 1).times)⟩ :: rest ∧
      (∀ r ∈ rest, r.Name ≠ "os.cpu\x7b\x7d") ∧
      ∃ u : ℚ, float64GlobalUtilisation [coreSample 150 1100]
        (CPU.mk [coreSample 100 1000] [] 1).times = .fin u ∧ 0 ≤ u ∧ u ≤ 100 := by
  have hd : ∀ p ∈ List.zip [coreSample 150 1100] (CPU.mk [coreSample 100 1000] [] 1).times,
      ∃ di dt : ℚ,
        float64Delta (·.Idle) p.1 p.2 = .fin di ∧ float64Delta (·.Total) p.1 p.2 = .fin dt ∧
        0 ≤ di ∧ di ≤ dt ∧ 0 < dt := by
    intro p hp
    simp only [List.zip_cons_cons, List.zip_nil_right, List.mem_singleton] at hp
    subst hp
    refine ⟨50, 100, ?_, ?_, by norm_num, by norm_num, by norm_num⟩
    · with_unfolding_all rfl
    · with_unfolding_all rfl
  obtain ⟨s, rest, hs, hm, hr, hb⟩ :=
    cpu_global_utilisation ⟨[coreSample 100 1000], [], 1⟩ [coreSample 150 1100] (by simp) rfl
  refine ⟨?_, ?_, by simp, rfl, hd, s, rest, hs, hm, hr, hb hd⟩
  · with_unfolding_all rfl
  · with_unfolding_all rfl



/-! ## Lemmas on the per-core records of `CPU.scrape` -/

theorem cpuCoreRecords_eq (field : String) (proj : CoreFractions → F64)
    (get : TimesStat → ℚ)
    (hproj : ∀ t p : TimesStat, proj (coreFractions t p) =
      F64.div (float64Delta get t p) (float64Delta (·.Total) t p)) :
    ∀ (times retained : List TimesStat) (i : Nat),
      cpuCoreRecords field i ((List.zipWith coreFractions times retained).map proj) =
        float64CoreRecords field get i times retained
  | [], _, _ => by simp [cpuCoreRecords, float64CoreRecords]
  | _ :: _, [], _ => by simp [cpuCoreRecords, float64CoreRecords]
  | t :: ts, p :: ps, i => by
      have ih := cpuCoreRecords_eq field proj get hproj ts ps (i + 1)
      simp only [float64CoreRecords] at ih
      simp only [List.zipWith_cons_cons, List.map_cons, cpuCoreRecords, hproj t p, ih,
        float64CoreRecords, List.zip_cons_cons, List.enumFrom_cons, float64CoreValue]

theorem coreFractions_fields (t p : TimesStat) :
    (coreFractions t p).iowait =
        F64.div (float64Delta (·.Iowait) t p) (float64Delta (·.Total) t p) ∧
    (coreFractions t p).user =
        F64.div (float64Delta (·.User) t p) (float64Delta (·.Total) t p) ∧
    (coreFractions t p).system =
        F64.div (float64Delta (·.System) t p) (float64Delta (·.Total) t p) ∧
    (coreFractions t p).nice =
        F64.div (float64Delta (·.Nice) t p) (float64Delta (·.Total) t p) ∧
    (coreFractions t p).irq =
        F64.div (float64Delta (·.Irq) t p) (float64Delta (·.Total) t p) := by
  simp only [coreFractions, float64Delta, and_self]

theorem float64CoreRecords_length (field : String) (get : TimesStat → ℚ) (i : Nat)
    (now prev : List TimesStat) (h : now.length = prev.length) :
    (float64CoreRecords field get i now prev).length = now.length := by
  simp [float64CoreRecords, h]

/-! ## C15 -/

/-- C15, counterexample.  One core, positive total deltas.  At level 4, idle
100 -> 150, total 1000 -> 1100: `CPU.scrape` publishes the single record
`os.cpu{}` and no per-core record.  At level 3, user 0 -> 23, idle
100 -> 1033, total 1000 -> 3560: the per-core user record is `0.898437`,
whereas `(user_now - user_prev) / deltaTotal * 100` is `0.8984375`, whose
six-digit rendering is `0.898438`. -/
theorem cpu_per_core_counterexample :
    3 ≤ 4 ∧
    CPU.scrape ⟨[coreSample 100 1000], [], 4⟩ (.ok [coreSample 150 1100]) =
      .ok ⟨[coreSample 150 1100], [⟨"os.cpu\x7b\x7d", "50.000000"⟩], 4⟩ ∧
    cpuCoreName "iowait" 0 ∉ names [(⟨"os.cpu\x7b\x7d", "50.000000"⟩ : MetricCollected)] ∧
    0 < (coreSampleUser 23 1033 3560).Total - (coreSampleUser 0 100 1000).Total ∧
    CPU.scrape ⟨[coreSampleUser 0 100 1000], [], 3⟩ (.ok [coreSampleUser 23 1033 3560]) =
      .ok ⟨[coreSampleUser 23 1033 3560],
        [ ⟨"os.cpu\x7b\x7d", "63.554687"⟩,
          ⟨"os.cpu.iowait\x7bchore=0\x7d", "0.000000"⟩,
          ⟨"os.cpu.user\x7bchore=0\x7d", "0.898437"⟩,
          ⟨"os.cpu.systems\x7bchore=0\x7d", "0.000000"⟩,
          ⟨"os.cpu.nice\x7bchore=0\x7d", "0.000000"⟩,
          ⟨"os.cpu.irq\x7bchore=0\x7d", "0.000000"⟩ ], 3⟩ ∧
    specCoreValue (·.User) (coreSampleUser 23 1033 3560) (coreSampleUser 0 100 1000) =
      8984375 / 10000000 ∧
    FormatFloat (.fin (specCoreValue (·.User) (coreSampleUser 23 1033 3560)
      (coreSampleUser 0 100 1000))) = "0.898438" := by
  have hs : specCoreValue (·.User) (coreSampleUser 23 1033 3560) (coreSampleUser 0 100 1000) =
      8984375 / 10000000 := by
    simp [specCoreValue, coreSampleUser]; norm_num
  refine ⟨by decide, ?_, by decide, ?_, ?_, hs, ?_⟩
  · with_unfolding_all rfl
  · simp [coreSampleUser]; norm_num
  · with_unfolding_all rfl
  · rw [hs]
    with_unfolding_all rfl

/-- C15, as amended.  At level 3 exactly, for a non-empty retained sample and a
new sample of the same core count `n`, the snapshot of `CPU.scrape` is the
record `os.cpu{}` followed, for each of the fields iowait, user, systems, nice
and irq in this order, by one record per core, in the order of the cores,
labelled with the core index and whose value is the six-digit rendering of the
float64 evaluation of `(field_now_i - field_prev_i) / deltaTotal_i * 100`,
every operation rounding to the nearest float64: `5n` per-core records. -/
theorem cpu_per_core_breakdown (c : CPU) (times : List TimesStat)
    (hne : c.times ≠ []) (hlen : times.length = c.times.length) (hL : c.level = 3) :
    ∃ (s : CPU) (v : String),
      c.scrape (.ok times) = .ok s ∧
      s.Metrics.1 =
        ⟨"os.cpu\x7b\x7d", v⟩ ::
          (float64CoreRecords "iowait" (·.Iowait) 0 times c.times
            ++ float64CoreRecords "user" (·.User) 0 times c.times
            ++ float64CoreRecords "systems" (·.System) 0 times c.times
            ++ float64CoreRecords "nice" (·.Nice) 0 times c.times
            ++ float64CoreRecords "irq" (·.Irq) 0 times c.times) ∧
      s.Metrics.1.length = 1 + 5 * times.length := by
  have e1 := cpuCoreRecords_eq "iowait" (·.iowait) (·.Iowait)
    (fun t p => (coreFractions_fields t p).1) times c.times 0
  have e2 := cpuCoreRecords_eq "user" (·.user) (·.User)
    (fun t p => (coreFractions_fields t p).2.1) times c.times 0
  have e3 := cpuCoreRecords_eq "systems" (·.system) (·.System)
    (fun t p => (coreFractions_fields t p).2.2.1) times c.times 0
  have e4 := cpuCoreRecords_eq "nice" (·.nice) (·.Nice)
    (fun t p => (coreFractions_fields t p).2.2.2.1) times c.times 0
  have e5 := cpuCoreRecords_eq "irq" (·.irq) (·.Irq)
    (fun t p => (coreFractions_fields t p).2.2.2.2) times c.times 0
  have hrec : cpuRecords c.level (List.zipWith coreFractions times c.times) =
      ⟨"os.cpu\x7b\x7d",
          FormatFloat (cpuGlobal ((List.zipWith coreFractions times c.times).map (·.idle)))⟩ ::
        (float64CoreRecords "iowait" (·.Iowait) 0 times c.times
          ++ float64CoreRecords "user" (·.User) 0 times c.times
          ++ float64CoreRecords "systems" (·.System) 0 times c.times
          ++ float64CoreRecords "nice" (·.Nice) 0 times c.times
          ++ float64CoreRecords "irq" (·.Irq) 0 times c.times) := by
    rw [cpuRecords_eq_cons, hL]
    simp only [cpuLevel3, e1, e2, e3, e4, e5]
    simp
  refine ⟨_, _, cpu_scrape_ok c times hne (le_of_eq hlen), hrec, ?_⟩
  show (cpuRecords c.level (List.zipWith coreFractions times c.times)).length = _
  rw [hrec]
  simp only [List.length_cons, List.length_append, float64CoreRecords_length _ _ _ _ _ hlen]
  omega

/-- C15, the amended statement at one core, user 0 -> 23, idle 100 -> 1033,
total 1000 -> 3560, level 3. -/
theorem cpu_per_core_breakdown_witness :
    (CPU.mk [coreSampleUser 0 100 1000] [] 3).times ≠ [] ∧
    [coreSampleUser 23 1033 3560].length =
      (CPU.mk [coreSampleUser 0 100 1000] [] 3).times.length ∧
    (CPU.mk [coreSampleUser 0 100 1000] [] 3).level = 3 ∧
    float64CoreRecords "user" (·.User) 0 [coreSampleUser 23 1033 3560]
        (CPU.mk [coreSampleUser 0 100 1000] [] 3).times =
      [⟨"os.cpu.user\x7bchore=0\x7d", "0.898437"⟩] ∧
    ∃ (s : CPU) (v : String),
      (CPU.mk [coreSampleUser 0 100 1000] [] 3).scrape (.ok [coreSampleUser 23 1033 3560]) =
        .ok s ∧
      s.Metrics.1 =
        ⟨"os.cpu\x7b\x7d", v⟩ ::
          (float64CoreRecords "iowait" (·.Iowait) 0 [coreSampleUser 23 1033 3560]
              (CPU.mk [coreSampleUser 0 100 1000] [] 3).times
            ++ float64CoreRecords "user" (·.User) 0 [coreSampleUser 23 1033 3560]
              (CPU.mk [coreSampleUser 0 100 1000] [] 3).times
            ++ float64CoreRecords "systems" (·.System) 0 [coreSampleUser 23 1033 3560]
              (CPU.mk [coreSampleUser 0 100 1000] [] 3).times
            ++ float64CoreRecords "nice" (·.Nice) 0 [coreSampleUser 23 1033 3560]
              (CPU.mk [coreSampleUser 0 100 1000] [] 3).times
            ++ float64CoreRecords "irq" (·.Irq) 0 [coreSampleUser 23 1033 3560]
              (CPU.mk [coreSampleUser 0 100 1000] [] 3).times) ∧
      s.Metrics.1.length = 1 + 5 * [coreSampleUser 23 1033 3560].length :=
  ⟨by simp, rfl, rfl,
    by with_unfolding_all rfl,
    cpu_per_core_breakdown ⟨[coreSampleUser 0 100 1000], [], 3⟩ [coreSampleUser 23 1033 3560]
      (by simp) rfl rfl⟩

end Noderig
